import Mathlib

/-!
# scc-broker-client: cluster routing and convergence engine

A shallow embedding of `scc-broker-client/index.js` (the convergence
coordinator, the channel mapper, the duplicate-suppression cache) and of
`scc-broker-client/cluster-broker-client.js` (the routing engine), of the
`authentication` handler and the publish middleware of `myApp/worker.js`, and
the theorems proved about them.

Conventions of the embedding.

* A JavaScript string is a Lean `String`; `charCodeAt` enumerates its UTF-16
  code units (`utf16`).  The mapper itself is defined on lists of code units,
  so that it also covers strings that are not well-formed UTF-16.
* A JavaScript Number is a `JSNumber`: NaN, the two infinities, or a finite
  rational that is a double (the sign of zero is not tracked: no operation used
  here observes it).
* Objects used as dictionaries (`clients`, `subscriptions`, `targetClients`,
  `processedMessagesLookup`, `publishOutboundBuffer`, ...) are association
  lists or key lists holding the object's own properties in insertion order.
  A read `obj[k]` also finds what a plain object inherits from
  `Object.prototype` (`inherited`, `truthyKey`), an assignment to the name
  `__proto__` creates no own property (`assignKey`), and `Object.keys` lists
  array indices first, in ascending order (`objectKeys`).  The dictionaries
  keyed by endpoint URIs are read by own keys: a URI that `url.parse` gives a
  host for is neither an inherited name nor an array index.
* A mapper context that is an element of `subMappers` is identified by its
  position there (the contexts of a sequence are distinct objects); this is how
  the comparison `subMapperContext === mapperContext` and the mutation of a
  context's `subscriptions` are expressed.
* Emitting an event is recorded in a log.  An `error` listener is taken to be
  registered on the engine (`attach` registers one unless `noErrorLogging` is
  set), so that emitting `error` returns.
* The sequences are pushed from endpoint lists whose URIs `url.parse` gives a
  host for, as the snapshots of the state server are (`mapperPush`); what
  `_mapperPush` does on any other list is `mapperPushChecked`.  The transport
  hands out one socket per URI.
* Timers are handles drawn from a counter; a pending timer is an entry of
  `timers`, and its firing is the event `fireTimer`.
* The coordinator is driven by events (`Event`), each running one handler to
  its end (`dispatch`); a run is a sequence of events (`run`).
-/

namespace SccBroker

/-! ## JavaScript numbers -/

/-- A JavaScript Number up to the sign of zero: `fin n d` is the real `n / d`. -/
inductive JSNumber where
  | nan : JSNumber
  | posInf : JSNumber
  | negInf : JSNumber
  | fin (num : Int) (den : Nat) : JSNumber
  deriving DecidableEq, Repr

/-- Number of binary digits of `n`, with explicit fuel. -/
def bitLengthAux : Nat → Nat → Nat
  | 0, _ => 0
  | fuel + 1, n => if n = 0 then 0 else bitLengthAux fuel (n / 2) + 1

/-- Number of binary digits of `n` (`0` for `0`). -/
def bitLength (n : Nat) : Nat := bitLengthAux n n

/-- The exponent `e` with `2^e ≤ a / d < 2^(e+1)`, for positive `a` and `d`. -/
def floorLog2 (a d : Nat) : Int :=
  let e0 : Int := (bitLength a : Int) - (bitLength d : Int)
  let fits : Bool :=
    if 0 ≤ e0 then decide (d * 2 ^ e0.toNat ≤ a) else decide (d ≤ a * 2 ^ (-e0).toNat)
  if fits then e0 else e0 - 1

/-- Round the rational `n / d` (with `0 < d`) to the nearest IEEE-754 double,
ties to even, overflowing to an infinity. -/
def roundDouble (n : Int) (d : Nat) : JSNumber :=
  if n = 0 ∨ d = 0 then JSNumber.fin 0 1
  else
    let a := n.natAbs
    let e := floorLog2 a d
    let q : Int := max e (-1022) - 52
    let nd : Nat × Nat := if 0 ≤ q then (a, d * 2 ^ q.toNat) else (a * 2 ^ (-q).toNat, d)
    let m := nd.1 / nd.2
    let r := nd.1 % nd.2
    let m1 := if nd.2 < 2 * r ∨ (2 * r = nd.2 ∧ m % 2 = 1) then m + 1 else m
    if 0 ≤ q ∧ 2 ^ 1024 ≤ m1 * 2 ^ q.toNat then
      (if n < 0 then JSNumber.negInf else JSNumber.posInf)
    else
      let mag : Nat × Nat := if 0 ≤ q then (m1 * 2 ^ q.toNat, 1) else (m1, 2 ^ (-q).toNat)
      JSNumber.fin (if n < 0 then -(mag.1 : Int) else (mag.1 : Int)) mag.2

/-- Wrap an integer to the signed 32-bit range. -/
def wrap32 (i : Int) : Int :=
  let u := i % 4294967296
  if 2147483648 ≤ u then u - 4294967296 else u

/-- The abstract operation ToInt32: truncate toward zero, then wrap; NaN and the
infinities give `0`. -/
def toInt32 : JSNumber → Int
  | JSNumber.fin n d =>
    if d = 0 then 0
    else wrap32 (if n < 0 then -((n.natAbs / d : Nat) : Int) else ((n.natAbs / d : Nat) : Int))
  | _ => 0

/-- The operator `x - y` on Numbers. -/
def jsSub : JSNumber → JSNumber → JSNumber
  | JSNumber.nan, _ => JSNumber.nan
  | _, JSNumber.nan => JSNumber.nan
  | JSNumber.posInf, JSNumber.posInf => JSNumber.nan
  | JSNumber.negInf, JSNumber.negInf => JSNumber.nan
  | JSNumber.posInf, _ => JSNumber.posInf
  | JSNumber.negInf, _ => JSNumber.negInf
  | JSNumber.fin _ _, JSNumber.posInf => JSNumber.negInf
  | JSNumber.fin _ _, JSNumber.negInf => JSNumber.posInf
  | JSNumber.fin n1 d1, JSNumber.fin n2 d2 => roundDouble (n1 * d2 - n2 * d1) (d1 * d2)

/-- The operator `x + y` on Numbers. -/
def jsAdd : JSNumber → JSNumber → JSNumber
  | JSNumber.nan, _ => JSNumber.nan
  | _, JSNumber.nan => JSNumber.nan
  | JSNumber.posInf, JSNumber.negInf => JSNumber.nan
  | JSNumber.negInf, JSNumber.posInf => JSNumber.nan
  | JSNumber.posInf, _ => JSNumber.posInf
  | JSNumber.negInf, _ => JSNumber.negInf
  | JSNumber.fin _ _, JSNumber.posInf => JSNumber.posInf
  | JSNumber.fin _ _, JSNumber.negInf => JSNumber.negInf
  | JSNumber.fin n1 d1, JSNumber.fin n2 d2 => roundDouble (n1 * d2 + n2 * d1) (d1 * d2)

/-- The function `Math.abs`. -/
def jsAbs : JSNumber → JSNumber
  | JSNumber.nan => JSNumber.nan
  | JSNumber.posInf => JSNumber.posInf
  | JSNumber.negInf => JSNumber.posInf
  | JSNumber.fin n d => JSNumber.fin (n.natAbs : Int) d

/-- The operator `x % m` for a Number `x` and an array length `m`: the
remainder has the sign of the dividend, is exact, and is NaN for `m = 0` or a
non-finite `x`. -/
def jsRem : JSNumber → Nat → JSNumber
  | JSNumber.fin n d, m =>
    if m = 0 ∨ d = 0 then JSNumber.nan
    else
      let r : Nat := n.natAbs % (m * d)
      JSNumber.fin (if n < 0 then -(r : Int) else (r : Int)) d
  | _, _ => JSNumber.nan

/-- Array element access `xs[t]` with a Number key: an element for an integer
index within bounds, `undefined` (here `none`) otherwise. -/
def jsIndex {α : Type} (xs : List α) : JSNumber → Option α
  | JSNumber.fin n d =>
    if d = 0 ∨ n < 0 ∨ n.natAbs % d ≠ 0 then none else xs.get? (n.natAbs / d)
  | _ => none

/-! ## Strings: UTF-16 code units and conversion to Number -/

/-- UTF-16 code units of a sequence of characters. -/
def utf16 : List Char → List Nat
  | [] => []
  | c :: cs =>
    if c.toNat < 65536 then c.toNat :: utf16 cs
    else (55296 + (c.toNat - 65536) / 1024) :: (56320 + (c.toNat - 65536) % 1024) :: utf16 cs

/-- Code units that `StrWhiteSpaceChar` matches (white space and line terminators). -/
def isStrWhiteSpace (u : Nat) : Bool :=
  u = 9 || u = 10 || u = 11 || u = 12 || u = 13 || u = 32 || u = 160 || u = 5760 ||
  (decide (8192 ≤ u) && decide (u ≤ 8202)) || u = 8232 || u = 8233 || u = 8239 ||
  u = 8287 || u = 12288 || u = 65279

/-- Strip leading and trailing white space. -/
def trimUnits (us : List Nat) : List Nat :=
  ((us.dropWhile isStrWhiteSpace).reverse.dropWhile isStrWhiteSpace).reverse

/-- Value of a digit in radix up to 16, if the code unit is one. -/
def digitValue (u : Nat) : Option Nat :=
  if 48 ≤ u ∧ u ≤ 57 then some (u - 48)
  else if 97 ≤ u ∧ u ≤ 102 then some (u - 87)
  else if 65 ≤ u ∧ u ≤ 70 then some (u - 55)
  else none

/-- Read a non-empty run of digits of the given radix as a natural number. -/
def readRadix (radix : Nat) : List Nat → Option Nat
  | [] => none
  | us => us.foldl (fun acc u =>
      match acc, digitValue u with
      | some a, some v => if v < radix then some (a * radix + v) else none
      | _, _ => none) (some 0)

/-- Decimal digit test. -/
def isDecDigit (u : Nat) : Bool := decide (48 ≤ u) && decide (u ≤ 57)

/-- The optional `ExponentPart` that must end the literal: `none` if malformed. -/
def readExponent : List Nat → Option Int
  | [] => some 0
  | e :: rest =>
    if e = 101 ∨ e = 69 then
      match rest with
      | 43 :: ds => (readRadix 10 ds).map (fun v => (v : Int))
      | 45 :: ds => (readRadix 10 ds).map (fun v => -(v : Int))
      | ds => (readRadix 10 ds).map (fun v => (v : Int))
    else none

/-- The literal `Infinity` as code units. -/
def infinityUnits : List Nat := [73, 110, 102, 105, 110, 105, 116, 121]

/-- An unsigned `StrUnsignedDecimalLiteral`, negated when `neg` is set. -/
def readUnsignedDecimal (neg : Bool) (us : List Nat) : JSNumber :=
  if us = infinityUnits then (if neg then JSNumber.negInf else JSNumber.posInf)
  else
    let ip := us.takeWhile isDecDigit
    let r1 := us.dropWhile isDecDigit
    let fp := match r1 with
      | 46 :: r2 => r2.takeWhile isDecDigit
      | _ => []
    let r3 := match r1 with
      | 46 :: r2 => r2.dropWhile isDecDigit
      | _ => r1
    if ip = [] ∧ fp = [] then JSNumber.nan
    else
      match readExponent r3 with
      | none => JSNumber.nan
      | some x =>
        let mant : Nat := (ip ++ fp).foldl (fun a u => a * 10 + (u - 48)) 0
        let sx : Int := x - (fp.length : Int)
        let smant : Int := if neg then -(mant : Int) else (mant : Int)
        if 0 ≤ sx then roundDouble (smant * 10 ^ sx.toNat) 1
        else roundDouble smant (10 ^ (-sx).toNat)

/-- The abstract operation StringToNumber on the code units of a string. -/
def stringToNumber (us : List Nat) : JSNumber :=
  match trimUnits us with
  | [] => JSNumber.fin 0 1
  | 48 :: p :: ds =>
    if p = 120 ∨ p = 88 then
      (match readRadix 16 ds with | some v => roundDouble v 1 | none => JSNumber.nan)
    else if p = 111 ∨ p = 79 then
      (match readRadix 8 ds with | some v => roundDouble v 1 | none => JSNumber.nan)
    else if p = 98 ∨ p = 66 then
      (match readRadix 2 ds with | some v => roundDouble v 1 | none => JSNumber.nan)
    else readUnsignedDecimal false (48 :: p :: ds)
  | 43 :: ds => readUnsignedDecimal false ds
  | 45 :: ds => readUnsignedDecimal true ds
  | ds => readUnsignedDecimal false ds

/-! ## The channel mapper (`index.js`, `serverMapper`) -/

/-- One round of the loop body: `hash = ((hash << 5) - hash) + ch; hash = hash & hash`. -/
def hashStep (hash : JSNumber) (ch : Nat) : JSNumber :=
  let shifted : JSNumber := JSNumber.fin (wrap32 (toInt32 hash * 32)) 1
  let sum : JSNumber := jsAdd (jsSub shifted hash) (JSNumber.fin (ch : Int) 1)
  JSNumber.fin (toInt32 sum) 1

/-- The value of `hash` after the loop.  The variable starts as the channel
name itself (`var hash = channelName`), which every operator that reads it
converts with StringToNumber. -/
def channelHash (units : List Nat) : JSNumber :=
  units.foldl hashStep (stringToNumber units)

/-- The mapper on the code units of the channel name:
`serverInstanceList[Math.abs(hash) % serverInstanceList.length]`. -/
def serverMapperUnits (units : List Nat) (serverInstanceList : List String) : Option String :=
  jsIndex serverInstanceList (jsRem (jsAbs (channelHash units)) serverInstanceList.length)

/-- The mapper `serverMapper(channelName, serverInstanceList)`; `none` is `undefined`. -/
def serverMapper (channelName : String) (serverInstanceList : List String) : Option String :=
  serverMapperUnits (utf16 channelName.data) serverInstanceList

/-! ## Serialisation (`JSON.stringify` of an endpoint list) -/

/-- Lower-case hexadecimal digit. -/
def hexDigit (n : Nat) : Char :=
  if n < 10 then Char.ofNat (48 + n) else Char.ofNat (87 + n)

/-- The escape of one character inside a JSON string (QuoteJSONString). -/
def quoteJSONChar (c : Char) : List Char :=
  if c.toNat = 34 then [Char.ofNat 92, Char.ofNat 34]
  else if c.toNat = 92 then [Char.ofNat 92, Char.ofNat 92]
  else if c.toNat = 8 then [Char.ofNat 92, 'b']
  else if c.toNat = 12 then [Char.ofNat 92, 'f']
  else if c.toNat = 10 then [Char.ofNat 92, 'n']
  else if c.toNat = 13 then [Char.ofNat 92, 'r']
  else if c.toNat = 9 then [Char.ofNat 92, 't']
  else if c.toNat < 32 then
    [Char.ofNat 92, 'u', '0', '0', hexDigit (c.toNat / 16), hexDigit (c.toNat % 16)]
  else [c]

/-- A string as a JSON string literal. -/
def quoteJSONString (s : String) : List Char :=
  Char.ofNat 34 :: (s.data.flatMap quoteJSONChar ++ [Char.ofNat 34])

/-- The text `JSON.stringify(xs)` for an array of strings. -/
def jsonStringify (xs : List String) : String :=
  String.mk ('[' :: (List.intercalate [','] (xs.map quoteJSONString) ++ [']']))

/-! ## The transport and the local broker (external collaborators) -/

/-- A message payload. -/
abbrev Payload := String

/-- A relayed cluster packet `{sender, messages, id}`; `none` is `null` or a
missing field. -/
structure Packet where
  sender : Option String
  messages : Option (List Payload)
  id : String
  deriving DecidableEq, Repr

/-- Modelled from the spec: the transport socket of one endpoint (the
`socketcluster-client` connection, which is not part of this repository), as
section 6 and the test double describe it: the set of channels it is subscribed
to and, per channel, its registered watchers (one list entry per handler). -/
structure Socket where
  subscriberLookup : List String
  watcherLookup : List String
  deriving DecidableEq, Repr

/-- A socket that holds nothing yet. -/
def Socket.empty : Socket := { subscriberLookup := [], watcherLookup := [] }

/-- What the engine does to the outside, in the order it happens. -/
inductive Effect where
  | connect (uri : String)
  | disconnect (uri : String)
  | subscribe (uri channel : String)
  | unsubscribe (uri channel : String)
  | watch (uri channel : String)
  | unwatch (uri channel : String)
  | publish (uri channel : String) (data : Packet)
  | error (channel : String)
  deriving DecidableEq, Repr

/-- The local broker as far as the client reads or calls it: its node id, its
options, its subscription bookkeeping (each worker index with its channel
names, both as `Object.keys` lists them) and the calls made to
`broker.publish`. -/
structure Broker where
  instanceId : Option String
  pubSubBatchDuration : Option Nat
  subscriptions : List (String × List String)
  published : List (String × Payload)
  deriving DecidableEq, Repr

/-! ## The routing engine (`cluster-broker-client.js`) -/

/-- A mapping function: channel name and target list to a target, or `undefined`. -/
abbrev Mapper := String → List String → Option String

/-- A mapper context `{mapper, clients, targets}`.  `clients` holds the keys of
the client map; the client of a key is the transport socket of that URI. -/
structure MapperContext where
  mapper : Mapper
  clients : List String
  targets : List String

/-- A subscription-side context: a mapper context with a `subscriptions` map
(its keys are kept; every stored handle is truthy). -/
structure SubMapperContext extends MapperContext where
  subscriptions : List String

/-- The state of a `ClusterBrokerClient`, with the sockets of the transport,
the local broker and the record of its effects. -/
structure Engine where
  subMappers : List SubMapperContext
  pubMappers : List MapperContext
  targetClients : List String
  broker : Broker
  sockets : List (String × Socket)
  log : List Effect

/-- Add a key to a dictionary's key list unless it is present. -/
def insertKey (k : String) (ks : List String) : List String :=
  if k ∈ ks then ks else ks ++ [k]

/-- Delete a key from a dictionary's key list. -/
def removeKey (k : String) (ks : List String) : List String :=
  ks.filter (fun x => x ≠ k)

/-- The names of the properties that every plain object inherits from
`Object.prototype`. -/
def objectPrototypeNames : List String :=
  ["constructor", "__defineGetter__", "__defineSetter__", "hasOwnProperty",
   "__lookupGetter__", "__lookupSetter__", "isPrototypeOf", "propertyIsEnumerable",
   "toString", "valueOf", "__proto__", "toLocaleString"]

/-- Is `obj[k]` an inherited property of a plain object that has no own
property `k`?  The value read is then a function or, for `__proto__`, the
prototype: truthy, and neither `null` nor `undefined`. -/
def inherited (k : String) : Bool := decide (k ∈ objectPrototypeNames)

/-- The test `if (obj[k])` on a plain object whose own values are all truthy,
given its own keys. -/
def truthyKey (ks : List String) (k : String) : Bool := decide (k ∈ ks) || inherited k

/-- The assignment `obj[k] = value` on the own keys of a plain object: the
name `__proto__` is an accessor of `Object.prototype`, and assigning to it
creates no own property. -/
def assignKey (k : String) (ks : List String) : List String :=
  if k = "__proto__" then ks else insertKey k ks

/-- The value of a string of decimal digits. -/
def digitsValue (cs : List Char) : Option Nat :=
  cs.foldl (fun acc c =>
    match acc with
    | some n => if c.isDigit then some (n * 10 + (c.toNat - 48)) else none
    | none => none) (some 0)

/-- The array index that a property name denotes: a canonical numeric string
(no sign, no leading zero) of a value below `2^32 - 1`. -/
def arrayIndex (k : String) : Option Nat :=
  match k.data with
  | [] => none
  | c :: cs =>
    if c = '0' ∧ cs ≠ [] then none
    else
      match digitsValue (c :: cs) with
      | some n => if n < 4294967295 then some n else none
      | none => none

/-- The order in which `Object.keys` lists own property names given in
insertion order: array indices ascending, then the other names as inserted. -/
def objectKeys (ks : List String) : List String :=
  (ks.filter (fun k => (arrayIndex k).isSome)).insertionSort
      (fun a b => (arrayIndex a).getD 0 ≤ (arrayIndex b).getD 0) ++
    ks.filter (fun k => (arrayIndex k).isNone)

/-- The socket of a URI (an empty one if the transport has none yet). -/
def Engine.socket (e : Engine) (uri : String) : Socket :=
  ((e.sockets.find? (fun p => p.1 = uri)).map Prod.snd).getD Socket.empty

/-- Replace the socket of a URI. -/
def Engine.setSocket (e : Engine) (uri : String) (s : Socket) : Engine :=
  if e.sockets.any (fun p => p.1 = uri) then
    { e with sockets := e.sockets.map (fun p => if p.1 = uri then (uri, s) else p) }
  else { e with sockets := e.sockets ++ [(uri, s)] }

/-- Record an effect. -/
def Engine.emit (e : Engine) (x : Effect) : Engine := { e with log := e.log ++ [x] }

/-- The target a context resolves a channel to: `mapper(channelName, targets)`. -/
def MapperContext.resolve (mc : MapperContext) (channelName : String) : Option String :=
  mc.mapper channelName mc.targets

/-- The lookup `mapperContext.clients[targetURI]`: the URI of the client found. -/
def MapperContext.targetClient (mc : MapperContext) (channelName : String) : Option String :=
  match mc.resolve channelName with
  | some uri => if uri ∈ mc.clients then some uri else none
  | none => none

/-- The body of the `forEach` in `_mapperPush`: connect to one URI and file the
client under it in the client map and in `targetClients`. -/
def connectTarget (acc : Engine × List String) (clientURI : String) : Engine × List String :=
  let e := (acc.1.emit (Effect.connect clientURI)).setSocket clientURI (acc.1.socket clientURI)
  ({ e with targetClients := insertKey clientURI e.targetClients }, insertKey clientURI acc.2)

/-- The function `_mapperPush` up to `mapperList.push`, for a list of URIs each
of which `url.parse` gives a host for, so that `breakDownURI` returns: the
engine after the connections and the context created; the caller appends the
context.  For every list it is `mapperPushChecked`. -/
def mapperPush (e : Engine) (mapper : Mapper) (targetURIs : List String) :
    Engine × MapperContext :=
  let r := targetURIs.foldl connectTarget (e, [])
  (r.1, { mapper := mapper, clients := r.2, targets := targetURIs })

/-- What `url.parse` gives for a URI, as far as `breakDownURI` reads it; `none`
is `null`. -/
structure ParsedURI where
  protocol : Option String
  host : Option String
  port : Option String

/-- The connect options that `breakDownURI` returns; `secure` is set or left
undefined. -/
structure ConnectOptions where
  hostname : String
  port : Option String
  secure : Bool

/-- The replacement `host.replace(/:[0-9]+$/, '')`: a colon and digits to
the end of the host are removed. -/
def stripTrailingPort (host : String) : String :=
  let digits := host.data.reverse.takeWhile Char.isDigit
  match host.data.reverse.dropWhile Char.isDigit with
  | ':' :: front => if digits = [] then host else String.mk front.reverse
  | _ => host

/-- The function `breakDownURI`.  The module `url` is Node's, so the parse is
a parameter.  Where `url.parse` gives no host, as for a string like `abc` and
for every name of `Object.prototype`, `parsedURI.host.replace` raises a
TypeError: `none`. -/
def breakDownURI (parse : String → ParsedURI) (uri : String) : Option ConnectOptions :=
  match (parse uri).host with
  | none => none
  | some host =>
    some
      { hostname := stripTrailingPort host, port := (parse uri).port,
        secure := decide ((parse uri).protocol = some "wss:" ∨
          (parse uri).protocol = some "https:") }

/-- The `forEach` of `_mapperPush`: the engine and the client map it reaches,
and whether it came to its end; it stops at the first URI at which
`breakDownURI` throws, the earlier URIs being connected and filed. -/
def connectTargets (parse : String → ParsedURI) :
    List String → Engine × List String → (Engine × List String) × Bool
  | [], acc => (acc, true)
  | clientURI :: rest, acc =>
    match breakDownURI parse clientURI with
    | none => (acc, false)
    | some _ => connectTargets parse rest (connectTarget acc clientURI)

/-- The function `_mapperPush` up to `mapperList.push`, for every list of
URIs: the engine after the connections made, and the context created, `none`
if `breakDownURI` threw before the context was built. -/
def mapperPushChecked (parse : String → ParsedURI) (e : Engine) (mapper : Mapper)
    (targetURIs : List String) : Engine × Option MapperContext :=
  let r := connectTargets parse targetURIs (e, [])
  (r.1.1,
    if r.2 then some { mapper := mapper, clients := r.1.2, targets := targetURIs } else none)

/-- The function `_getAllBrokerSubscriptions`: `Object.keys` of the map that
`channelMap[channelName] = true` fills. -/
def getAllBrokerSubscriptions (b : Broker) : List String :=
  objectKeys
    (b.subscriptions.foldl (fun channelMap w => w.2.foldl (fun m c => assignKey c m) channelMap) [])

/-- The function `getAllSubscriptions`.  The list `subscriptions` and the own
keys of `channelsLookup` are the same list while the clients are visited; the
test `!channelsLookup[channelName]` also fails for an inherited name. -/
def getAllSubscriptions (e : Engine) : List String :=
  let visit : (List String × List String) → String → (List String × List String) :=
    fun acc clientURI =>
      if clientURI ∈ acc.1 then acc
      else (acc.1 ++ [clientURI],
        (e.socket clientURI).subscriberLookup.foldl
          (fun subs c => if truthyKey subs c then subs else subs ++ [c]) acc.2)
  let fromClients : List String × List String :=
    e.subMappers.foldl (fun acc mc => mc.clients.foldl visit acc) ([], [])
  (getAllBrokerSubscriptions e.broker).foldl
    (fun subs c => if truthyKey fromClients.2 c then subs else subs ++ [c]) fromClients.2

/-- The function `_cleanupUnusedTargetSockets`. -/
def cleanupUnusedTargetSockets (e : Engine) : Engine :=
  let requiredClients : List String :=
    (e.subMappers.map (fun mc => mc.clients)).flatten ++
      (e.pubMappers.map (fun mc => mc.clients)).flatten
  e.targetClients.foldl (fun acc targetURI =>
    if targetURI ∈ requiredClients then acc
    else
      let a := (acc.emit (Effect.disconnect targetURI)).setSocket targetURI
        { acc.socket targetURI with subscriberLookup := [] }
      { a with targetClients := removeKey targetURI a.targetClients }) e

/-- Apply a change to the sub context at a position of `subMappers`. -/
def Engine.updateSub (e : Engine) (i : Nat) (f : SubMapperContext → SubMapperContext) :
    Engine :=
  { e with subMappers := e.subMappers.modify f i }

/-- The function `_subscribeWithMapperContext`, for the context `mc` that is
`subMappers[self]`.  The record is the assignment
`subscriptions[channelName] = ...`, which for the name `__proto__` stores no
own record (`assignKey`). -/
def subscribeWithMapperContext (e : Engine) (self : Nat) (mc : MapperContext)
    (channelName : String) : Engine :=
  match mc.targetClient channelName with
  | some uri =>
    let s := e.socket uri
    let e1 := ((e.emit (Effect.subscribe uri channelName)).setSocket uri
      { s with subscriberLookup := insertKey channelName s.subscriberLookup }).updateSub self
        (fun c => { c with subscriptions := assignKey channelName c.subscriptions })
    if s.watcherLookup.count channelName = 0 then
      (e1.emit (Effect.watch uri channelName)).setSocket uri
        { e1.socket uri with watcherLookup := (e1.socket uri).watcherLookup ++ [channelName] }
    else e1
  | none => e.emit (Effect.error channelName)

/-- The loop of `_unsubscribeWithMapperContext`: is there a context in
`subMappers`, other than the one at position `self`, that maps the channel to
`targetURI` and whose `subscriptions[channelName]` is truthy? -/
def otherMappingHolds (e : Engine) (self : Option Nat) (targetURI : Option String)
    (channelName : String) : Bool :=
  e.subMappers.enum.any (fun p =>
    decide (some p.1 ≠ self) && (decide (targetURI = p.2.resolve channelName) &&
      truthyKey p.2.subscriptions channelName))

/-- The function `_unsubscribeWithMapperContext`, for the context `mc` that is
`subMappers[i]` when `self` is `some i`, and that is no longer in `subMappers`
(it was shifted out) when `self` is `none`. -/
def unsubscribeWithMapperContext (e : Engine) (self : Option Nat) (mc : MapperContext)
    (channelName : String) : Engine :=
  let e1 := match self with
    | some i => e.updateSub i (fun c => { c with subscriptions := removeKey channelName c.subscriptions })
    | none => e
  match mc.targetClient channelName with
  | some uri =>
    if otherMappingHolds e1 self (mc.resolve channelName) channelName then e1
    else
      let s := e1.socket uri
      ((e1.emit (Effect.unsubscribe uri channelName)).emit
        (Effect.unwatch uri channelName)).setSocket uri
          { subscriberLookup := removeKey channelName s.subscriberLookup,
            watcherLookup := removeKey channelName s.watcherLookup }
  | none => e1.emit (Effect.error channelName)

/-- The function `subMapperPush`. -/
def subMapperPush (e : Engine) (mapper : Mapper) (targetURIs : List String) : Engine :=
  let r := mapperPush e mapper targetURIs
  let e1 : Engine :=
    { r.1 with subMappers := r.1.subMappers ++ [{ toMapperContext := r.2, subscriptions := [] }] }
  (getAllSubscriptions e1).foldl
    (fun acc c => subscribeWithMapperContext acc e.subMappers.length r.2 c) e1

/-- The function `pubMapperPush`. -/
def pubMapperPush (e : Engine) (mapper : Mapper) (targetURIs : List String) : Engine :=
  let r := mapperPush e mapper targetURIs
  { r.1 with pubMappers := r.1.pubMappers ++ [r.2] }

/-- The function `subMapperPush` for every list of URIs: the engine it leaves,
and whether it returned (`false`: `_mapperPush` threw, and nothing was
appended). -/
def subMapperPushChecked (parse : String → ParsedURI) (e : Engine) (mapper : Mapper)
    (targetURIs : List String) : Engine × Bool :=
  match mapperPushChecked parse e mapper targetURIs with
  | (e0, some mc) =>
    let e1 : Engine :=
      { e0 with subMappers := e0.subMappers ++ [{ toMapperContext := mc, subscriptions := [] }] }
    ((getAllSubscriptions e1).foldl
      (fun acc c => subscribeWithMapperContext acc e.subMappers.length mc c) e1, true)
  | (e0, none) => (e0, false)

/-- The function `pubMapperPush` for every list of URIs: the engine it leaves,
and whether it returned. -/
def pubMapperPushChecked (parse : String → ParsedURI) (e : Engine) (mapper : Mapper)
    (targetURIs : List String) : Engine × Bool :=
  match mapperPushChecked parse e mapper targetURIs with
  | (e0, some mc) => ({ e0 with pubMappers := e0.pubMappers ++ [mc] }, true)
  | (e0, none) => (e0, false)

/-- The function `subMapperShift`.  On an empty sequence `shift()` gives
`undefined`, and unsubscribing the first active channel through it raises a
TypeError: `none`. -/
def subMapperShift (e : Engine) : Option Engine :=
  let activeChannels := getAllSubscriptions e
  match e.subMappers with
  | [] => if activeChannels = [] then some (cleanupUnusedTargetSockets e) else none
  | oldMapperContext :: rest =>
    some (cleanupUnusedTargetSockets
      (activeChannels.foldl
        (fun acc c => unsubscribeWithMapperContext acc none oldMapperContext.toMapperContext c)
        { e with subMappers := rest }))

/-- The function `pubMapperShift`. -/
def pubMapperShift (e : Engine) : Engine :=
  cleanupUnusedTargetSockets { e with pubMappers := e.pubMappers.tail }

/-- The function `subscribe`. -/
def subscribe (e : Engine) (channelName : String) : Engine :=
  e.subMappers.enum.foldl
    (fun acc p => subscribeWithMapperContext acc p.1 p.2.toMapperContext channelName) e

/-- The function `unsubscribe`. -/
def unsubscribe (e : Engine) (channelName : String) : Engine :=
  e.subMappers.enum.foldl
    (fun acc p => unsubscribeWithMapperContext acc (some p.1) p.2.toMapperContext channelName) e

/-- The function `_publishWithMapperContext`. -/
def publishWithMapperContext (e : Engine) (mc : MapperContext) (channelName : String)
    (data : Packet) : Engine :=
  match mc.targetClient channelName with
  | some uri => e.emit (Effect.publish uri channelName data)
  | none => e.emit (Effect.error channelName)

/-- The function `publish`. -/
def publish (e : Engine) (channelName : String) (data : Packet) : Engine :=
  e.pubMappers.foldl (fun acc mc => publishWithMapperContext acc mc channelName data) e

/-! ## The coordinator (`index.js`, the closure of `attach`) -/

/-- What a pending timer runs when it fires. -/
inductive TimerAction where
  | sendClientState (stateName : String)
  | emitClientJoinCluster
  | removeMessageFromCache (messageId : String)
  | flushPublishOutboundBuffer
  deriving DecidableEq, Repr

/-- A pending timer: its handle, its delay and what it runs. -/
structure Timer where
  handle : Nat
  delay : Nat
  action : TimerAction
  deriving DecidableEq, Repr

/-- An event emitted on the state socket. -/
inductive StateEmit where
  | clientSetState (instanceState : String)
  | clientJoinCluster
  deriving DecidableEq, Repr

/-- A membership packet `{serverInstances, time}`. -/
structure UpdatePacket where
  serverInstances : List String
  time : Int
  deriving DecidableEq, Repr

/-- The variables of the closure of `attach`, the engine it creates, the
pending timers, the events emitted on the state socket, the number of
`respond()` calls, and the values that successive `uuid.v4()` calls return. -/
structure Coordinator where
  clusterClient : Engine
  latestSnapshotTime : Int
  latestServerInstancesSnapshot : String
  serverInstances : List String
  processedMessagesLookup : List (String × Nat)
  sendClientStateTimeout : Option Nat
  publishOutboundBuffer : List (String × List Payload)
  publishTimeout : Option Nat
  messageCacheDuration : Nat
  retryDelay : Nat
  timers : List Timer
  nextTimer : Nat
  stateEmits : List StateEmit
  responses : Nat
  uuid : Nat → String
  uuidCalls : Nat

/-- The call `setTimeout(action, delay)`: the handle and the new state. -/
def Coordinator.setTimeout (st : Coordinator) (action : TimerAction) (delay : Nat) :
    Nat × Coordinator :=
  (st.nextTimer,
   { st with timers := st.timers ++ [{ handle := st.nextTimer, delay := delay, action := action }],
             nextTimer := st.nextTimer + 1 })

/-- The call `clearTimeout(handle)`; `none` is a value that is no handle. -/
def Coordinator.clearTimeout (st : Coordinator) (handle : Option Nat) : Coordinator :=
  match handle with
  | some h => { st with timers := st.timers.filter (fun t => t.handle ≠ h) }
  | none => st

/-- The function `updateServerCluster`. -/
def updateServerCluster (st : Coordinator) (updatePacket : UpdatePacket) : Bool × Coordinator :=
  let newServerInstancesSnapshot := jsonStringify updatePacket.serverInstances
  if updatePacket.time > st.latestSnapshotTime ∧
      newServerInstancesSnapshot ≠ st.latestServerInstancesSnapshot then
    (true, { st with latestServerInstancesSnapshot := newServerInstancesSnapshot,
                     serverInstances := updatePacket.serverInstances,
                     latestSnapshotTime := updatePacket.time })
  else (false, st)

/-- The function `sendClientState` up to the acknowledgement. -/
def sendClientState (st : Coordinator) (stateName : String) : Coordinator :=
  let st1 := st.clearTimeout st.sendClientStateTimeout
  { st1 with stateEmits := st1.stateEmits ++
      [StateEmit.clientSetState (stateName ++ ":" ++ jsonStringify st1.serverInstances)] }

/-- The function `addNewSubMapping`. -/
def addNewSubMapping (st : Coordinator) (data : UpdatePacket) : Coordinator :=
  let r := updateServerCluster st data
  let st1 :=
    if r.1 then
      sendClientState
        { r.2 with clusterClient := subMapperPush r.2.clusterClient serverMapper r.2.serverInstances }
        "updatedSubs"
    else r.2
  { st1 with responses := st1.responses + 1 }

/-- The loop `while (pubMappers.length > bound) pubMapperShift()`. -/
def shiftPubWhile (bound : Nat) : Nat → Engine → Engine
  | 0, e => e
  | fuel + 1, e =>
    if e.pubMappers.length > bound then shiftPubWhile bound fuel (pubMapperShift e) else e

/-- The loop `while (subMappers.length > bound) subMapperShift()`. -/
def shiftSubWhile (bound : Nat) : Nat → Engine → Option Engine
  | 0, e => some e
  | fuel + 1, e =>
    if e.subMappers.length > bound then
      match subMapperShift e with
      | some e1 => shiftSubWhile bound fuel e1
      | none => none
    else some e

/-- The function `resetState`. -/
def resetState (st : Coordinator) : Option Coordinator :=
  let e1 := shiftPubWhile 0 st.clusterClient.pubMappers.length st.clusterClient
  match shiftSubWhile 0 e1.subMappers.length e1 with
  | some e2 =>
    some { st with clusterClient := e2, latestSnapshotTime := -1,
                   latestServerInstancesSnapshot := "[]", serverInstances := [],
                   processedMessagesLookup := [] }
  | none => none

/-- The function `completeMappingUpdates`. -/
def completeMappingUpdates (st : Coordinator) : Option Coordinator :=
  let e1 := shiftPubWhile 1 st.clusterClient.pubMappers.length st.clusterClient
  match shiftSubWhile 1 e1.subMappers.length e1 with
  | some e2 => some (sendClientState { st with clusterClient := e2 } "active")
  | none => none

/-- The handler of `clientStatesConverge`, for the broadcast state `state`. -/
def clientStatesConverge (st : Coordinator) (state : String) : Option Coordinator :=
  if state = "updatedSubs:" ++ jsonStringify st.serverInstances then
    let e1 := pubMapperPush st.clusterClient serverMapper st.serverInstances
    let e2 := shiftPubWhile 1 e1.pubMappers.length e1
    let st1 := sendClientState { st with clusterClient := e2 } "updatedPubs"
    some { st1 with responses := st1.responses + 1 }
  else if state = "updatedPubs:" ++ jsonStringify st.serverInstances then
    (completeMappingUpdates st).map (fun st1 => { st1 with responses := st1.responses + 1 })
  else some { st with responses := st.responses + 1 }

/-- The function `emitClientJoinCluster`. -/
def emitClientJoinCluster (st : Coordinator) : Coordinator :=
  { st with stateEmits := st.stateEmits ++ [StateEmit.clientJoinCluster] }

/-- The callback of the `clientJoinCluster` request: `none` is an error
response, `some data` a successful one. -/
def clientJoinClusterCallback (st : Coordinator) (response : Option UpdatePacket) :
    Option Coordinator :=
  match response with
  | none => some (st.setTimeout TimerAction.emitClientJoinCluster st.retryDelay).2
  | some data =>
    match resetState st with
    | none => none
    | some st1 =>
      let st2 := (updateServerCluster st1 data).2
      let e1 := subMapperPush st2.clusterClient serverMapper st2.serverInstances
      let e2 := pubMapperPush e1 serverMapper st2.serverInstances
      some (sendClientState { st2 with clusterClient := e2 } "active")

/-- The function `removeMessageFromCache`: `delete processedMessagesLookup[id]`
removes an own entry; for the name `__proto__` there is no own entry to remove
(the entry kept under that name is the object's prototype, see `setProcessed`). -/
def removeMessageFromCache (st : Coordinator) (messageId : String) : Coordinator :=
  if messageId = "__proto__" then st
  else
    { st with processedMessagesLookup :=
        st.processedMessagesLookup.filter (fun p => p.1 ≠ messageId) }

/-- The assignment `processedMessagesLookup[id] = handle`.  For the name
`__proto__` the assignment makes the timer the prototype of the object instead
of storing an own entry; the list keeps that timer under the name `__proto__`,
which is what a read of that name then returns.  (The properties of the timer
object itself, which other reads would then inherit, are not modelled.) -/
def setProcessed (m : List (String × Nat)) (id : String) (handle : Nat) : List (String × Nat) :=
  if m.any (fun p => p.1 = id) then m.map (fun p => if p.1 = id then (id, handle) else p)
  else m ++ [(id, handle)]

/-- The timer that the cache holds for an id: the own entry of `id` (for the
name `__proto__`, the timer made the prototype). -/
def getProcessed (m : List (String × Nat)) (id : String) : Option Nat :=
  (m.find? (fun p => p.1 = id)).map Prod.snd

/-- What the read `processedMessagesLookup[id]` finds: the timer the cache
holds for the id, or else a property inherited from `Object.prototype` (not
`null`, and no timer), or else `undefined`. -/
inductive CacheRead where
  | undefined
  | inheritedValue
  | timer (handle : Nat)
  deriving DecidableEq, Repr

/-- The read `processedMessagesLookup[id]`. -/
def readProcessed (m : List (String × Nat)) (id : String) : CacheRead :=
  match getProcessed m id with
  | some handle => CacheRead.timer handle
  | none => if inherited id then CacheRead.inheritedValue else CacheRead.undefined

/-- The calls `broker.publish(channelName, data)` for each message in turn. -/
def deliver (e : Engine) (channelName : String) (messages : List Payload) : Engine :=
  { e with broker := { e.broker with
      published := e.broker.published ++ messages.map (fun data => (channelName, data)) } }

/-- The function `clusterMessageHandler`.  The test
`processedMessagesLookup[packet.id] == null` holds only where the read finds
nothing at all; `clearTimeout` of an inherited value clears no timer. -/
def clusterMessageHandler (st : Coordinator) (channelName : String) (packet : Packet) :
    Coordinator :=
  if (packet.sender = none ∨ packet.sender ≠ st.clusterClient.broker.instanceId) ∧
      packet.messages.isSome ∧ packet.messages.getD [] ≠ [] then
    let st1 :=
      match readProcessed st.processedMessagesLookup packet.id with
      | CacheRead.undefined =>
        { st with
          clusterClient := deliver st.clusterClient channelName (packet.messages.getD []) }
      | CacheRead.inheritedValue => st.clearTimeout none
      | CacheRead.timer handle => st.clearTimeout (some handle)
    let r := st1.setTimeout (TimerAction.removeMessageFromCache packet.id) st1.messageCacheDuration
    { r.2 with processedMessagesLookup := setProcessed r.2.processedMessagesLookup packet.id r.1 }
  else st

/-- The callback of a `clientSetState` request sent for `stateName`. -/
def clientSetStateCallback (st : Coordinator) (stateName : String) (err : Bool) : Coordinator :=
  if err then
    let r := st.setTimeout (TimerAction.sendClientState stateName) st.retryDelay
    { r.2 with sendClientStateTimeout := some r.1 }
  else st

/-- The value `broker.instanceId || null`. -/
def senderId (b : Broker) : Option String :=
  match b.instanceId with
  | some s => if s = "" then none else some s
  | none => none

/-- The entries of the buffer in the order in which `Object.keys` lists their
channels, each channel with `publishOutboundBuffer[channelName]`. -/
def bufferEntries (buffer : List (String × List Payload)) : List (String × List Payload) :=
  (objectKeys (buffer.map (fun p => p.1))).filterMap
    (fun channelName => buffer.find? (fun p => p.1 = channelName))

/-- The function `flushPublishOutboundBuffer`. -/
def flushPublishOutboundBuffer (st : Coordinator) : Coordinator :=
  let st1 := (bufferEntries st.publishOutboundBuffer).foldl (fun acc entry =>
    { acc with
      clusterClient := publish acc.clusterClient entry.1
        { sender := senderId acc.clusterClient.broker, messages := some entry.2,
          id := acc.uuid acc.uuidCalls },
      uuidCalls := acc.uuidCalls + 1 }) st
  { st1 with publishOutboundBuffer := [], publishTimeout := none }

/-- The statements `if (!buffer[channelName]) buffer[channelName] = [];
buffer[channelName].push(data)` where they return: the channel has a list of
its own, or it gets one. -/
def bufferAppend (buffer : List (String × List Payload)) (channelName : String) (data : Payload) :
    List (String × List Payload) :=
  if buffer.any (fun p => p.1 = channelName) then
    buffer.map (fun p => if p.1 = channelName then (p.1, p.2 ++ [data]) else p)
  else buffer ++ [(channelName, [data])]

/-- The statements `if (!buffer[channelName]) buffer[channelName] = [];
buffer[channelName].push(data)`.  For an inherited name that has no list of its
own the test finds the inherited property, no list is created, and `.push` is
not a function: a TypeError, `none`. -/
def bufferPush (buffer : List (String × List Payload)) (channelName : String) (data : Payload) :
    Option (List (String × List Payload)) :=
  if ¬ buffer.any (fun p => p.1 = channelName) ∧ inherited channelName then none
  else some (bufferAppend buffer channelName data)

/-- The handler of the broker's `publish` event; `none` if it throws, which it
does before it has changed anything. -/
def brokerPublish (st : Coordinator) (channelName : String) (data : Payload) :
    Option Coordinator :=
  match st.clusterClient.broker.pubSubBatchDuration with
  | none =>
    some { st with
      clusterClient := publish st.clusterClient channelName
        { sender := senderId st.clusterClient.broker, messages := some [data],
          id := st.uuid st.uuidCalls },
      uuidCalls := st.uuidCalls + 1 }
  | some duration =>
    match bufferPush st.publishOutboundBuffer channelName data with
    | none => none
    | some buffer =>
      let st1 := { st with publishOutboundBuffer := buffer }
      match st1.publishTimeout with
      | none =>
        let r := st1.setTimeout TimerAction.flushPublishOutboundBuffer duration
        some { r.2 with publishTimeout := some r.1 }
      | some _ => some st1

/-- The handler of the broker's `subscribe` event. -/
def brokerSubscribe (st : Coordinator) (channelName : String) : Coordinator :=
  { st with clusterClient := subscribe st.clusterClient channelName }

/-- The handler of the broker's `unsubscribe` event. -/
def brokerUnsubscribe (st : Coordinator) (channelName : String) : Coordinator :=
  { st with clusterClient := unsubscribe st.clusterClient channelName }

/-- The firing of the pending timer with the given handle: it stops being
pending and its action runs. -/
def fireTimer (st : Coordinator) (handle : Nat) : Coordinator :=
  match st.timers.find? (fun t => t.handle = handle) with
  | none => st
  | some t =>
    let st1 := { st with timers := st.timers.filter (fun x => x.handle ≠ handle) }
    match t.action with
    | TimerAction.removeMessageFromCache messageId => removeMessageFromCache st1 messageId
    | TimerAction.emitClientJoinCluster => emitClientJoinCluster st1
    | TimerAction.sendClientState stateName => sendClientState st1 stateName
    | TimerAction.flushPublishOutboundBuffer => flushPublishOutboundBuffer st1

/-- The constructor `new ClusterBrokerClient(broker, options)`. -/
def Engine.create (broker : Broker) : Engine :=
  { subMappers := [], pubMappers := [], targetClients := [], broker := broker,
    sockets := [], log := [] }

/-- The state right after `attach(broker, options)`, with the two options that
the variables of the closure depend on (`x || DEFAULT`: a missing or zero option
gives the default). -/
def attach (broker : Broker) (brokerMessageCacheDuration brokerRetryDelay : Option Nat)
    (uuid : Nat → String) : Coordinator :=
  { clusterClient := Engine.create broker,
    latestSnapshotTime := -1,
    latestServerInstancesSnapshot := "[]",
    serverInstances := [],
    processedMessagesLookup := [],
    sendClientStateTimeout := none,
    publishOutboundBuffer := [],
    publishTimeout := none,
    messageCacheDuration :=
      (match brokerMessageCacheDuration with | some 0 => 10000 | some d => d | none => 10000),
    retryDelay := (match brokerRetryDelay with | some 0 => 2000 | some d => d | none => 2000),
    timers := [],
    nextTimer := 0,
    stateEmits := [],
    responses := 0,
    uuid := uuid,
    uuidCalls := 0 }

/-! ## The mapper as the specification words it -/

/-- The polynomial rolling hash of section 4.2: start from `0` and, for each
code unit in order, `hash := hash * 31 + charCode` wrapped to signed 32 bits. -/
def rollingHash (units : List Nat) : Int :=
  units.foldl (fun (hash : Int) (ch : Nat) => wrap32 (hash * 31 + (ch : Int))) 0

/-- The function `select(channel, endpoints)` of section 4.2:
`endpoints[|hash| mod len(endpoints)]`. -/
def select (channel : String) (endpoints : List String) : Option String :=
  endpoints.get? ((rollingHash (utf16 channel.data)).natAbs % endpoints.length)

/-! ## Sample states -/

/-- A broker with node id `node-1`, no batching and no subscriptions. -/
def sampleBroker : Broker :=
  { instanceId := some "node-1", pubSubBatchDuration := none, subscriptions := [], published := [] }

/-- The coordinator right after `attach` on `sampleBroker` with default options. -/
def sampleStart : Coordinator := attach sampleBroker none none (fun n => toString n)

/-- The context that `_mapperPush` builds from the single endpoint `ws://a:1`. -/
def sampleContext : MapperContext :=
  { mapper := serverMapper, clients := ["ws://a:1"], targets := ["ws://a:1"] }

/-- Two overlapping sub contexts built from the same single endpoint, after the
channel `x` was subscribed through both and then unsubscribed through the older
one (position `0`), which deleted that context's subscription record. -/
def sampleOverlap : Engine :=
  let e1 := subMapperPush (Engine.create sampleBroker) serverMapper ["ws://a:1"]
  let e2 := subMapperPush e1 serverMapper ["ws://a:1"]
  let e3 := subscribe e2 "x"
  unsubscribeWithMapperContext e3 (some 0) sampleContext "x"

/-- A join response naming one endpoint. -/
def sampleJoin : UpdatePacket := { serverInstances := ["ws://a:1"], time := 5 }

/-- A later membership notification naming two endpoints. -/
def sampleGrowth : UpdatePacket := { serverInstances := ["ws://a:1", "ws://b:1"], time := 6 }

/-- The coordinator after a successful join with `sampleJoin`. -/
def sampleJoined : Coordinator :=
  (clientJoinClusterCallback sampleStart (some sampleJoin)).getD sampleStart

/-- The coordinator after the notification `sampleGrowth`: two sub contexts. -/
def sampleGrown : Coordinator := addNewSubMapping sampleJoined sampleGrowth

/-- The coordinator after the fleet converged on `updatedSubs`. -/
def sampleUpdatedPubs : Coordinator :=
  (clientStatesConverge sampleGrown
    ("updatedSubs:" ++ jsonStringify sampleGrown.serverInstances)).getD sampleGrown

/-- A packet from the node `node-2` with one message and the id `b1`. -/
def samplePacket : Packet := { sender := some "node-2", messages := some ["hello"], id := "b1" }

/-- The same batch id, relayed again. -/
def samplePacketAgain : Packet := { sender := none, messages := some ["hello"], id := "b1" }

/-- An echo of the local node's own relay. -/
def sampleEcho : Packet := { sender := some "node-1", messages := some ["hello"], id := "b2" }

/-- What `url.parse` gives for the URIs of the samples: protocol `ws:` and
the hosts `a:1` and `b:1` for `ws://a:1` and `ws://b:1`; any other string
stands for one without a host, as `abc` is. -/
def sampleParse (uri : String) : ParsedURI :=
  if uri = "ws://a:1" then { protocol := some "ws:", host := some "a:1", port := some "1" }
  else if uri = "ws://b:1" then { protocol := some "ws:", host := some "b:1", port := some "1" }
  else { protocol := none, host := none, port := none }

/-! ## Reachable engine states and sample data -/

/-- Is the effect an emitted `NoMatchingTargetError`? -/
def Effect.isError : Effect → Bool
  | Effect.error _ => true
  | _ => false

/-- Is the effect a message forwarded on a connection? -/
def Effect.isPublish : Effect → Bool
  | Effect.publish _ _ _ => true
  | _ => false

/-- The engine states that the operations of the client reach from a new
client; the local broker may change its bookkeeping at any time. -/
inductive Reachable : Engine → Prop where
  | create (b : Broker) : Reachable (Engine.create b)
  | subMapperPush (e : Engine) (mapper : Mapper) (targetURIs : List String) :
      Reachable e → Reachable (subMapperPush e mapper targetURIs)
  | pubMapperPush (e : Engine) (mapper : Mapper) (targetURIs : List String) :
      Reachable e → Reachable (pubMapperPush e mapper targetURIs)
  | subMapperShift (e e1 : Engine) :
      Reachable e → subMapperShift e = some e1 → Reachable e1
  | pubMapperShift (e : Engine) : Reachable e → Reachable (pubMapperShift e)
  | subscribe (e : Engine) (channelName : String) :
      Reachable e → Reachable (subscribe e channelName)
  | unsubscribe (e : Engine) (channelName : String) :
      Reachable e → Reachable (unsubscribe e channelName)
  | publish (e : Engine) (channelName : String) (data : Packet) :
      Reachable e → Reachable (publish e channelName data)
  | brokerChange (e : Engine) (b : Broker) : Reachable e → Reachable { e with broker := b }

/-- The channel names `'a' + i` for `i` from `0` to `99`. -/
def channelNames : List String := (List.range 100).map (fun i => "a" ++ toString i)

/-- Two sub contexts built from the same single endpoint, with the channel `x`
subscribed through both. -/
def sampleShared : Engine :=
  subscribe
    (subMapperPush (subMapperPush (Engine.create sampleBroker) serverMapper ["ws://a:1"])
      serverMapper ["ws://a:1"]) "x"

/-- A client that joined while no endpoint was known: the broker holds the
channel `x`, whose subscribe through the only context failed. -/
def samplePending : Engine :=
  subscribe
    (subMapperPush
      (Engine.create { sampleBroker with subscriptions := [("1", ["x"])] }) serverMapper []) "x"

/-- Every subscription record of every sub context is for a channel that the
context resolves to a connection of its client map and a subscribe of which was
issued on that connection. -/
def RecordsIssued (e : Engine) : Prop :=
  ∀ c ∈ e.subMappers, ∀ x ∈ c.subscriptions,
    ∃ T, c.resolve x = some T ∧ T ∈ c.clients ∧ Effect.subscribe T x ∈ e.log

/-- The packets that the loop of `flushPublishOutboundBuffer` hands to
`clusterClient.publish`, each with its channel: one for every entry of the
buffer, in order, with the ids that `uuid.v4()` returns from call `k` on. -/
def batchPackets (sender : Option String) (uuid : Nat → String) :
    Nat → List (String × List Payload) → List (String × Packet)
  | _, [] => []
  | k, entry :: rest =>
    (entry.1, { sender := sender, messages := some entry.2, id := uuid k }) ::
      batchPackets sender uuid (k + 1) rest

/-- A broker like `sampleBroker` with a batch window of 50 ms. -/
def sampleBatchBroker : Broker :=
  { instanceId := some "node-1", pubSubBatchDuration := some 50, subscriptions := [],
    published := [] }

/-- The coordinator of `sampleBatchBroker` after a successful join. -/
def sampleBatchJoined : Coordinator :=
  (clientJoinClusterCallback (attach sampleBatchBroker none none (fun n => toString n))
    (some sampleJoin)).getD sampleStart

/-! ## The events of the coordinator -/

/-- What the coordinator reacts to: the state socket connecting, the response
to a join request, a `serverJoinCluster` or `serverLeaveCluster` notification,
a `clientStatesConverge` broadcast, the acknowledgement of a state report, a
relayed packet, a timer firing, the three events of the local broker, and the
broker changing its own bookkeeping. -/
inductive Event where
  | connect
  | joinResponse (response : Option UpdatePacket)
  | membership (data : UpdatePacket)
  | converge (state : String)
  | stateAck (stateName : String) (err : Bool)
  | message (channelName : String) (packet : Packet)
  | timer (handle : Nat)
  | brokerSubscribe (channelName : String)
  | brokerUnsubscribe (channelName : String)
  | brokerPublish (channelName : String) (data : Payload)
  | brokerChange (broker : Broker)
  deriving DecidableEq, Repr

/-- The handler that an event runs, and the state it leaves the coordinator
in; `none` if it throws part-way (a shift of an empty sequence).  The TypeError
of the publish handler is raised before the handler has changed anything: it
goes to the broker that emitted the event and leaves the coordinator as it
was. -/
def dispatch (st : Coordinator) : Event → Option Coordinator
  | Event.connect => some (emitClientJoinCluster st)
  | Event.joinResponse response => clientJoinClusterCallback st response
  | Event.membership data => some (addNewSubMapping st data)
  | Event.converge state => clientStatesConverge st state
  | Event.stateAck stateName err => some (clientSetStateCallback st stateName err)
  | Event.message channelName packet => some (clusterMessageHandler st channelName packet)
  | Event.timer handle => some (fireTimer st handle)
  | Event.brokerSubscribe channelName => some (brokerSubscribe st channelName)
  | Event.brokerUnsubscribe channelName => some (brokerUnsubscribe st channelName)
  | Event.brokerPublish channelName data => some ((brokerPublish st channelName data).getD st)
  | Event.brokerChange broker =>
    some { st with clusterClient := { st.clusterClient with broker := broker } }

/-- The handlers of a sequence of events, one after the other. -/
def run (st : Coordinator) : List Event → Option Coordinator
  | [] => some st
  | ev :: evs =>
    match dispatch st ev with
    | some st1 => run st1 evs
    | none => none

/-- The engine `e1` has the mapper contexts of `e`: the sub contexts up to
their subscription records, and the pub contexts. -/
def SameContexts (e e1 : Engine) : Prop :=
  e1.subMappers.map (fun c => c.toMapperContext) =
    e.subMappers.map (fun c => c.toMapperContext) ∧
  e1.pubMappers = e.pubMappers

/-- Every report that the step from `st` to `st1` sent names the endpoint list
of `st1`. -/
def ReportsCurrent (st st1 : Coordinator) : Prop :=
  ∃ news : List StateEmit, st1.stateEmits = st.stateEmits ++ news ∧
    ∀ s, StateEmit.clientSetState s ∈ news →
      ∃ stateName : String, s = stateName ++ ":" ++ jsonStringify st1.serverInstances

/-! ## Timers by the operation they retry or expire -/

/-- The logical operation a timer belongs to: the join request, the state
report, the dedup cache entry of one packet id, or the batch flush. -/
inductive TimerKey where
  | joinRequest
  | stateReport
  | cacheEntry (messageId : String)
  | batchFlush
  deriving DecidableEq, Repr

/-- The operation that a timer's action belongs to. -/
def TimerAction.key : TimerAction → TimerKey
  | TimerAction.sendClientState _ => TimerKey.stateReport
  | TimerAction.emitClientJoinCluster => TimerKey.joinRequest
  | TimerAction.removeMessageFromCache messageId => TimerKey.cacheEntry messageId
  | TimerAction.flushPublishOutboundBuffer => TimerKey.batchFlush

/-- The pending timers of one operation. -/
def outstanding (st : Coordinator) (k : TimerKey) : List Timer :=
  st.timers.filter (fun t => t.action.key = k)

/-- Every cache id has at most one pending expiry timer, and the cache holds
the handle of that timer. -/
def ExpiryTimersUnique (st : Coordinator) : Prop :=
  ∀ id : String, (outstanding st (TimerKey.cacheEntry id)).length ≤ 1 ∧
    ∀ t ∈ outstanding st (TimerKey.cacheEntry id),
      getProcessed st.processedMessagesLookup id = some t.handle

/-- The states that the coordinator reaches from `attach` through its events,
when a successful join response only arrives while no expiry timer of the cache
is pending. -/
inductive CacheRun : Coordinator → Prop where
  | start (broker : Broker) (brokerMessageCacheDuration brokerRetryDelay : Option Nat)
      (uuid : Nat → String) :
      CacheRun (attach broker brokerMessageCacheDuration brokerRetryDelay uuid)
  | step (st : Coordinator) (ev : Event) (st1 : Coordinator) :
      CacheRun st → dispatch st ev = some st1 →
      (∀ data, ev = Event.joinResponse (some data) →
        ∀ id, outstanding st (TimerKey.cacheEntry id) = []) →
      CacheRun st1

/-- A node that got two error responses to its join request, one after each
connect of the state socket. -/
def sampleJoinRetries : Option Coordinator :=
  run sampleStart
    [Event.connect, Event.joinResponse none, Event.connect, Event.joinResponse none]

/-- A node whose two state reports, `updatedSubs` after a notification and
`updatedPubs` after the convergence broadcast, were both answered with an
error, the first answer arriving after the second report was sent. -/
def sampleReportRetries : Option Coordinator :=
  run sampleGrown
    [Event.converge ("updatedSubs:" ++ jsonStringify sampleGrown.serverInstances),
     Event.stateAck "updatedSubs" true, Event.stateAck "updatedPubs" true]

/-- A node that relayed the packet `b1`, joined again, and relayed `b1` once
more before the first expiry timer fired. -/
def sampleRejoin : Option Coordinator :=
  run sampleJoined
    [Event.message "x" samplePacket, Event.joinResponse (some sampleJoin),
     Event.message "x" samplePacket]

/-- A node that, after its join, was relayed the packet `b1` twice within the
cache duration. -/
def sampleDuplicate : Coordinator :=
  clusterMessageHandler (clusterMessageHandler sampleJoined "x" samplePacket) "x" samplePacket

/-! ## The worker (`myApp/worker.js`) -/

/-- A value received as the payload of a socket event: `null`, a boolean, a
number, a string, or an object or array (which the worker never looks into). -/
inductive WireValue where
  | null
  | bool (b : Bool)
  | num (n : Int)
  | str (s : String)
  | object
  deriving DecidableEq, Repr

/-- The conversion ToBoolean of a condition. -/
def WireValue.truthy : WireValue → Bool
  | WireValue.null => false
  | WireValue.bool b => b
  | WireValue.num n => decide (n ≠ 0)
  | WireValue.str s => decide (s ≠ "")
  | WireValue.object => true

/-- The object `{username: data}` that the worker makes the auth token. -/
structure AuthToken where
  username : WireValue
  deriving DecidableEq, Repr

/-- A line written with `console.log`. -/
inductive ConsoleLine where
  | text (s : String)
  | token (t : AuthToken)
  deriving DecidableEq, Repr

/-- Modelled from the spec: the server-side socket of `socketcluster` (the
library is not part of this repository) as far as the worker uses it: the auth
token that `setAuthToken` stores and `req.socket.authToken` reads (`none` while
none is set), together with the number of `respond()` calls made for the
socket's requests and the lines the worker logged. -/
structure WorkerSocket where
  authToken : Option AuthToken
  responses : Nat
  console : List ConsoleLine
  deriving DecidableEq, Repr

/-- The assignment expression `x = v`: what the variable held is dropped, and
the variable and the expression both have the value `v`. -/
def assign (_held v : WireValue) : WireValue := v

/-- The handler of the socket's `authentication` event.  Its condition is the
assignment `data = 'sa'`: the parameter is overwritten, and the value tested is
the string assigned. -/
def authentication (socket : WorkerSocket) (data : WireValue) : WorkerSocket :=
  let data : WireValue := assign data (WireValue.str "sa")
  if data.truthy then
    { socket with authToken := some { username := data }, responses := socket.responses + 1 }
  else { socket with console := socket.console ++ [ConsoleLine.text "fail login"] }

/-- The function added as `MIDDLEWARE_PUBLISH_IN`, for a publish of `req.socket`
to `req.channel`: the socket after it, and the argument of `next` (`none` is
`next()`, the publish goes on; `some err` is `next(err)`, it is rejected).  The
worker adds one copy per connection; every copy does the same. -/
def publishInMiddleware (socket : WorkerSocket) (channel : String) :
    WorkerSocket × Option String :=
  match socket.authToken with
  | some authToken =>
    ({ socket with console := socket.console ++ [ConsoleLine.token authToken] }, none)
  | none => (socket, some ("You are not authorized to publish to " ++ channel))

/-- A socket that has just connected. -/
def sampleWorkerSocket : WorkerSocket := { authToken := none, responses := 0, console := [] }

/-- A packet that carries an empty list of messages. -/
def sampleEmptyPacket : Packet := { sender := some "node-2", messages := some [], id := "b1" }

/-- A packet from the node `node-2` with one message and the id `constructor`,
the name of a property that every plain object inherits. -/
def sampleInheritedPacket : Packet :=
  { sender := some "node-2", messages := some ["hello"], id := "constructor" }

/-- A broker like `sampleBroker` whose client `1` holds the channels `toString`
and `x`. -/
def sampleInheritedBroker : Broker :=
  { sampleBroker with subscriptions := [("1", ["toString", "x"])] }

/-- A client of `sampleInheritedBroker` with one sub context for the endpoint
`ws://a:1`, after `subscribe('constructor')`. -/
def sampleInheritedEngine : Engine :=
  subscribe (subMapperPush (Engine.create sampleInheritedBroker) serverMapper ["ws://a:1"])
    "constructor"

/-- Two sub contexts built from the same single endpoint, with the channel
`constructor` subscribed through both. -/
def sampleSharedInherited : Engine :=
  subscribe
    (subMapperPush (subMapperPush (Engine.create sampleBroker) serverMapper ["ws://a:1"])
      serverMapper ["ws://a:1"]) "constructor"

/-! ## Theorems -/

/-! ### The channel mapper -/

/-- C1: on the channel name `ab` and the endpoint list `[x, y]` the code
returns `x`, the element at index `98 mod 2`, whereas the rolling hash started
from `0` is `3105` and selects `y`: the variable `hash` starts as the channel
name, whose conversion to a Number is NaN, so the first round leaves `0`
whatever the first character is. -/
theorem serverMapper_ignores_first_char :
    serverMapper "ab" ["x", "y"] = some "x" ∧
    channelHash (utf16 "ab".data) = JSNumber.fin 98 1 ∧
    rollingHash (utf16 "ab".data) = 3105 ∧
    select "ab" ["x", "y"] = some "y" := by
  decide

/-! ### Snapshot acceptance -/

/-- C2: `updateServerCluster` returns true exactly when the packet's time is
strictly greater than the last accepted time and its serialised endpoint list
differs from the last accepted serialisation; on true the stored list, snapshot
and time are the packet's, on false the state is unchanged. -/
theorem updateServerCluster_accepts_iff (st : Coordinator) (p : UpdatePacket) :
    ((updateServerCluster st p).1 = true ↔
      (p.time > st.latestSnapshotTime ∧
        jsonStringify p.serverInstances ≠ st.latestServerInstancesSnapshot)) ∧
    ((updateServerCluster st p).1 = true →
      (updateServerCluster st p).2.serverInstances = p.serverInstances ∧
      (updateServerCluster st p).2.latestServerInstancesSnapshot =
        jsonStringify p.serverInstances ∧
      (updateServerCluster st p).2.latestSnapshotTime = p.time) ∧
    ((updateServerCluster st p).1 = false → (updateServerCluster st p).2 = st) := by
  unfold updateServerCluster
  by_cases h : p.time > st.latestSnapshotTime ∧
      jsonStringify p.serverInstances ≠ st.latestServerInstancesSnapshot
  · simp [h]
  · simp [h]

/-! ### The duplicate-suppression cache -/

/-- Reading back a key that was just assigned. -/
theorem getProcessed_setProcessed_same (m : List (String × Nat)) (id : String) (h : Nat) :
    getProcessed (setProcessed m id h) id = some h := by
  have key : ∀ l : List (String × Nat), (l.any fun p => decide (p.1 = id)) = true →
      Option.map Prod.snd ((l.map fun p => if p.1 = id then (id, h) else p).find?
        fun p => decide (p.1 = id)) = some h := by
    intro l
    induction l with
    | nil => intro hl; simp at hl
    | cons a l ih =>
      intro hl
      by_cases ha : a.1 = id
      · simp only [List.map_cons, ha, if_true, List.find?_cons, decide_True, Option.map_some']
      · have hl2 : (l.any fun p => decide (p.1 = id)) = true := by
          simpa [List.any_cons, ha] using hl
        simp only [List.map_cons, ha, if_false, List.find?_cons, decide_False]
        exact ih hl2
  have key2 : ∀ l : List (String × Nat), (l.any fun p => decide (p.1 = id)) = false →
      Option.map Prod.snd ((l ++ [(id, h)]).find? fun p => decide (p.1 = id)) = some h := by
    intro l
    induction l with
    | nil => intro _; simp
    | cons a l ih =>
      intro hl
      have ha : ¬ a.1 = id := by
        intro hh; simp [List.any_cons, hh] at hl
      have hl2 : (l.any fun p => decide (p.1 = id)) = false := by
        simpa [List.any_cons, ha] using hl
      simp only [List.cons_append, List.find?_cons, ha, decide_False]
      exact ih hl2
  unfold getProcessed setProcessed
  by_cases hany : (m.any fun p => decide (p.1 = id)) = true
  · rw [if_pos hany]; exact key m hany
  · rw [if_neg hany]; exact key2 m (Bool.eq_false_iff.mpr hany)

/-- A key is absent after its deletion. -/
theorem getProcessed_filter_same (m : List (String × Nat)) (id : String) :
    getProcessed (m.filter (fun p => p.1 ≠ id)) id = none := by
  unfold getProcessed
  induction m with
  | nil => rfl
  | cons a m ih =>
    by_cases ha : a.1 = id
    · rw [List.filter_cons_of_neg (by simp [ha])]; exact ih
    · rw [List.filter_cons_of_pos (by simp [ha])]
      simp only [List.find?_cons, ha, decide_False]
      exact ih

/-- Deleting a key leaves the other keys as they are. -/
theorem getProcessed_filter_other (m : List (String × Nat)) (id k : String) (hk : k ≠ id) :
    getProcessed (m.filter (fun p => p.1 ≠ id)) k = getProcessed m k := by
  unfold getProcessed
  induction m with
  | nil => rfl
  | cons a m ih =>
    by_cases ha : a.1 = id
    · have hak : ¬ a.1 = k := fun hh => hk (hh ▸ ha)
      rw [List.filter_cons_of_neg (by simp [ha])]
      simp only [List.find?_cons, hak, decide_False]
      exact ih
    · rw [List.filter_cons_of_pos (by simp [ha])]
      by_cases hak : a.1 = k
      · simp only [List.find?_cons, hak, decide_True]
      · simp only [List.find?_cons, hak, decide_False]
        exact ih

/-- A packet whose id is not cached and is not an inherited name, from another
sender and with messages, is delivered message by message and its id is cached
under a new pending timer. -/
theorem clusterMessageHandler_fresh (st : Coordinator) (channelName : String) (p : Packet)
    (ms : List Payload)
    (hsender : p.sender = none ∨ p.sender ≠ st.clusterClient.broker.instanceId)
    (hm : p.messages = some ms) (hne : ms ≠ [])
    (hfresh : getProcessed st.processedMessagesLookup p.id = none)
    (hname : inherited p.id = false) :
    clusterMessageHandler st channelName p =
      { st with
        clusterClient := deliver st.clusterClient channelName ms,
        timers := st.timers ++ [{ handle := st.nextTimer, delay := st.messageCacheDuration,
                                  action := TimerAction.removeMessageFromCache p.id }],
        nextTimer := st.nextTimer + 1,
        processedMessagesLookup := setProcessed st.processedMessagesLookup p.id st.nextTimer } := by
  unfold clusterMessageHandler
  have hc : (p.sender = none ∨ p.sender ≠ st.clusterClient.broker.instanceId) ∧
      p.messages.isSome ∧ p.messages.getD [] ≠ [] := ⟨hsender, by simp [hm], by simpa [hm] using hne⟩
  have hread : readProcessed st.processedMessagesLookup p.id = CacheRead.undefined := by
    unfold readProcessed
    rw [hfresh, hname]
    rfl
  rw [if_pos hc, hread]
  simp [Coordinator.setTimeout, hm]

/-- A packet whose id is not cached but is an inherited name, from another
sender and with messages, is not delivered: the read of the cache finds the
inherited property; no timer is cleared and the id is cached under a new pending
timer. -/
theorem clusterMessageHandler_inherited (st : Coordinator) (channelName : String) (p : Packet)
    (ms : List Payload)
    (hsender : p.sender = none ∨ p.sender ≠ st.clusterClient.broker.instanceId)
    (hm : p.messages = some ms) (hne : ms ≠ [])
    (hfresh : getProcessed st.processedMessagesLookup p.id = none)
    (hname : inherited p.id = true) :
    clusterMessageHandler st channelName p =
      { st with
        timers := st.timers ++ [{ handle := st.nextTimer, delay := st.messageCacheDuration,
                                  action := TimerAction.removeMessageFromCache p.id }],
        nextTimer := st.nextTimer + 1,
        processedMessagesLookup := setProcessed st.processedMessagesLookup p.id st.nextTimer } := by
  unfold clusterMessageHandler
  have hc : (p.sender = none ∨ p.sender ≠ st.clusterClient.broker.instanceId) ∧
      p.messages.isSome ∧ p.messages.getD [] ≠ [] := ⟨hsender, by simp [hm], by simpa [hm] using hne⟩
  have hread : readProcessed st.processedMessagesLookup p.id = CacheRead.inheritedValue := by
    unfold readProcessed
    rw [hfresh, hname]
    rfl
  rw [if_pos hc, hread]
  simp [Coordinator.setTimeout, Coordinator.clearTimeout]

/-- A packet whose id is cached under the handle `h`, from another sender and
with messages, is not delivered: the timer `h` is cleared and the id is cached
under a new pending timer. -/
theorem clusterMessageHandler_cached (st : Coordinator) (channelName : String) (p : Packet)
    (ms : List Payload) (h : Nat)
    (hsender : p.sender = none ∨ p.sender ≠ st.clusterClient.broker.instanceId)
    (hm : p.messages = some ms) (hne : ms ≠ [])
    (hcached : getProcessed st.processedMessagesLookup p.id = some h) :
    clusterMessageHandler st channelName p =
      { st with
        timers := st.timers.filter (fun t => t.handle ≠ h) ++
          [{ handle := st.nextTimer, delay := st.messageCacheDuration,
             action := TimerAction.removeMessageFromCache p.id }],
        nextTimer := st.nextTimer + 1,
        processedMessagesLookup := setProcessed st.processedMessagesLookup p.id st.nextTimer } := by
  unfold clusterMessageHandler
  have hc : (p.sender = none ∨ p.sender ≠ st.clusterClient.broker.instanceId) ∧
      p.messages.isSome ∧ p.messages.getD [] ≠ [] := ⟨hsender, by simp [hm], by simpa [hm] using hne⟩
  have hread : readProcessed st.processedMessagesLookup p.id = CacheRead.timer h := by
    unfold readProcessed
    rw [hcached]
  rw [if_pos hc, hread]
  simp [Coordinator.setTimeout, Coordinator.clearTimeout]

/-- What the cache does for an id that is not an inherited name: two packets
with that id, both from another sender and with messages, handled one after
the other with the id not cached before the first: the first delivers exactly
its messages, in order, and caches the id under a pending timer; the second
delivers nothing, keeps the id cached, clears the first timer and caches the id
under a new pending timer. -/
theorem duplicate_within_cache_not_redelivered (st : Coordinator) (channelName : String)
    (p1 p2 : Packet) (ms1 ms2 : List Payload)
    (hid : p2.id = p1.id)
    (hs1 : p1.sender = none ∨ p1.sender ≠ st.clusterClient.broker.instanceId)
    (hs2 : p2.sender = none ∨ p2.sender ≠ st.clusterClient.broker.instanceId)
    (hm1 : p1.messages = some ms1) (hne1 : ms1 ≠ [])
    (hm2 : p2.messages = some ms2) (hne2 : ms2 ≠ [])
    (hfresh : getProcessed st.processedMessagesLookup p1.id = none)
    (hname : inherited p1.id = false) :
    (clusterMessageHandler st channelName p1).clusterClient.broker.published =
      st.clusterClient.broker.published ++ ms1.map (fun data => (channelName, data)) ∧
    getProcessed (clusterMessageHandler st channelName p1).processedMessagesLookup p1.id =
      some st.nextTimer ∧
    ({ handle := st.nextTimer, delay := st.messageCacheDuration,
       action := TimerAction.removeMessageFromCache p1.id } : Timer) ∈
      (clusterMessageHandler st channelName p1).timers ∧
    (clusterMessageHandler (clusterMessageHandler st channelName p1) channelName
        p2).clusterClient.broker.published =
      (clusterMessageHandler st channelName p1).clusterClient.broker.published ∧
    getProcessed (clusterMessageHandler (clusterMessageHandler st channelName p1) channelName
        p2).processedMessagesLookup p1.id = some (st.nextTimer + 1) ∧
    (∀ t ∈ (clusterMessageHandler (clusterMessageHandler st channelName p1) channelName
        p2).timers, t.handle ≠ st.nextTimer) ∧
    ({ handle := st.nextTimer + 1, delay := st.messageCacheDuration,
       action := TimerAction.removeMessageFromCache p1.id } : Timer) ∈
      (clusterMessageHandler (clusterMessageHandler st channelName p1) channelName p2).timers := by
  have e1 := clusterMessageHandler_fresh st channelName p1 ms1 hs1 hm1 hne1 hfresh hname
  have hc1 : getProcessed (clusterMessageHandler st channelName p1).processedMessagesLookup p2.id =
      some st.nextTimer := by
    rw [e1, hid]; exact getProcessed_setProcessed_same _ _ _
  have hs2' : p2.sender = none ∨
      p2.sender ≠ (clusterMessageHandler st channelName p1).clusterClient.broker.instanceId := by
    rw [e1]; exact hs2
  have e2 := clusterMessageHandler_cached (clusterMessageHandler st channelName p1) channelName p2
    ms2 st.nextTimer hs2' hm2 hne2 hc1
  have hnt : (clusterMessageHandler st channelName p1).nextTimer = st.nextTimer + 1 := by rw [e1]
  have hdur : (clusterMessageHandler st channelName p1).messageCacheDuration =
      st.messageCacheDuration := by rw [e1]
  refine ⟨?_, ?_, ?_, ?_, ?_, ?_, ?_⟩
  · rw [e1]; rfl
  · rw [← hid]; exact hc1
  · rw [e1]; simp
  · rw [e2]
  · rw [e2, ← hid, hnt]; exact getProcessed_setProcessed_same _ _ _
  · intro t ht
    rw [e2] at ht
    simp only [List.mem_append, List.mem_filter, List.mem_singleton] at ht
    rcases ht with ⟨_, hh⟩ | rfl
    · simpa using hh
    · simp [hnt]
  · rw [e2, hnt, hdur, hid]; simp

/-- What an expiry does for an id that is not an inherited name: when the
pending timer of its cache entry fires, the entry of that id is removed and
nothing else changes (apart from the timer no longer being pending): the id is
then absent, every other id is cached as before, and a later packet with that
id from another sender is delivered, message by message in order. -/
theorem expiry_removes_entry_then_redelivers (st : Coordinator) (t : Timer) (messageId : String)
    (hpending : st.timers.find? (fun x => x.handle = t.handle) = some t)
    (haction : t.action = TimerAction.removeMessageFromCache messageId)
    (hname : inherited messageId = false) :
    fireTimer st t.handle =
      { st with
        timers := st.timers.filter (fun x => x.handle ≠ t.handle),
        processedMessagesLookup :=
          st.processedMessagesLookup.filter (fun p => p.1 ≠ messageId) } ∧
    getProcessed (fireTimer st t.handle).processedMessagesLookup messageId = none ∧
    (∀ k, k ≠ messageId →
      getProcessed (fireTimer st t.handle).processedMessagesLookup k =
        getProcessed st.processedMessagesLookup k) ∧
    (∀ (channelName : String) (p : Packet) (ms : List Payload),
      p.id = messageId →
      (p.sender = none ∨ p.sender ≠ st.clusterClient.broker.instanceId) →
      p.messages = some ms → ms ≠ [] →
      (clusterMessageHandler (fireTimer st t.handle) channelName p).clusterClient.broker.published =
        st.clusterClient.broker.published ++ ms.map (fun data => (channelName, data))) := by
  have e : fireTimer st t.handle =
      { st with
        timers := st.timers.filter (fun x => x.handle ≠ t.handle),
        processedMessagesLookup :=
          st.processedMessagesLookup.filter (fun p => p.1 ≠ messageId) } := by
    have hp : messageId ≠ "__proto__" := by
      intro hh
      rw [hh] at hname
      exact absurd hname (by decide)
    unfold fireTimer
    rw [hpending]
    simp only [haction, removeMessageFromCache, if_neg hp]
  refine ⟨e, ?_, ?_, ?_⟩
  · rw [e]; exact getProcessed_filter_same _ _
  · intro k hk; rw [e]; exact getProcessed_filter_other _ _ _ hk
  · intro channelName p ms hp hs hm hne
    have hfresh : getProcessed (fireTimer st t.handle).processedMessagesLookup p.id = none := by
      rw [e, hp]; exact getProcessed_filter_same _ _
    have hs' : p.sender = none ∨
        p.sender ≠ (fireTimer st t.handle).clusterClient.broker.instanceId := by
      rw [e]; exact hs
    rw [clusterMessageHandler_fresh _ channelName p ms hs' hm hne hfresh (by rw [hp]; exact hname),
      e]
    rfl

/-- C10: a packet whose sender is the local node's own id changes nothing:
nothing is delivered to the broker, and the cache and the timers are as they
were. -/
theorem clusterMessageHandler_drops_own (st : Coordinator) (channelName : String) (p : Packet)
    (s : String) (hsender : p.sender = some s)
    (hown : st.clusterClient.broker.instanceId = some s) :
    clusterMessageHandler st channelName p = st := by
  unfold clusterMessageHandler
  have hc : ¬ ((p.sender = none ∨ p.sender ≠ st.clusterClient.broker.instanceId) ∧
      p.messages.isSome ∧ p.messages.getD [] ≠ []) := by
    rintro ⟨h | h, _⟩
    · rw [hsender] at h; cases h
    · exact h (by rw [hsender, hown])
  rw [if_neg hc]

/-- The batch `b1` relayed twice to a fresh coordinator: the second relay
delivers nothing. -/
theorem duplicate_within_cache_not_redelivered_witness :
    (clusterMessageHandler (clusterMessageHandler sampleStart "a0" samplePacket) "a0"
        samplePacketAgain).clusterClient.broker.published =
      (clusterMessageHandler sampleStart "a0" samplePacket).clusterClient.broker.published :=
  (duplicate_within_cache_not_redelivered sampleStart "a0" samplePacket samplePacketAgain
    ["hello"] ["hello"] rfl (Or.inr (by decide)) (Or.inl rfl) rfl (by decide) rfl (by decide)
    rfl (by decide)).2.2.2.1

/-- The expiry timer of the batch `b1` fires: the id is no longer cached. -/
theorem expiry_removes_entry_then_redelivers_witness :
    getProcessed (fireTimer (clusterMessageHandler sampleStart "a0" samplePacket)
      0).processedMessagesLookup "b1" = none :=
  (expiry_removes_entry_then_redelivers (clusterMessageHandler sampleStart "a0" samplePacket)
    { handle := 0, delay := 10000, action := TimerAction.removeMessageFromCache "b1" } "b1"
    rfl rfl (by decide)).2.1

/-- An echo sent by `node-1` reaches `node-1`: the state is unchanged. -/
theorem clusterMessageHandler_drops_own_witness :
    clusterMessageHandler sampleStart "a0" sampleEcho = sampleStart :=
  clusterMessageHandler_drops_own sampleStart "a0" sampleEcho "node-1" rfl rfl

/-! ### The routing engine: projections of the elementary updates -/

@[simp] theorem Engine.emit_log (e : Engine) (x : Effect) : (e.emit x).log = e.log ++ [x] := rfl

@[simp] theorem Engine.emit_subMappers (e : Engine) (x : Effect) :
    (e.emit x).subMappers = e.subMappers := rfl

@[simp] theorem Engine.emit_pubMappers (e : Engine) (x : Effect) :
    (e.emit x).pubMappers = e.pubMappers := rfl

@[simp] theorem Engine.emit_broker (e : Engine) (x : Effect) : (e.emit x).broker = e.broker := rfl

@[simp] theorem Engine.setSocket_log (e : Engine) (u : String) (s : Socket) :
    (e.setSocket u s).log = e.log := by
  unfold Engine.setSocket; split <;> rfl

@[simp] theorem Engine.setSocket_subMappers (e : Engine) (u : String) (s : Socket) :
    (e.setSocket u s).subMappers = e.subMappers := by
  unfold Engine.setSocket; split <;> rfl

@[simp] theorem Engine.setSocket_pubMappers (e : Engine) (u : String) (s : Socket) :
    (e.setSocket u s).pubMappers = e.pubMappers := by
  unfold Engine.setSocket; split <;> rfl

@[simp] theorem Engine.setSocket_broker (e : Engine) (u : String) (s : Socket) :
    (e.setSocket u s).broker = e.broker := by
  unfold Engine.setSocket; split <;> rfl

@[simp] theorem Engine.updateSub_log (e : Engine) (i : Nat)
    (f : SubMapperContext → SubMapperContext) : (e.updateSub i f).log = e.log := rfl

@[simp] theorem Engine.updateSub_pubMappers (e : Engine) (i : Nat)
    (f : SubMapperContext → SubMapperContext) : (e.updateSub i f).pubMappers = e.pubMappers := rfl

@[simp] theorem Engine.updateSub_broker (e : Engine) (i : Nat)
    (f : SubMapperContext → SubMapperContext) : (e.updateSub i f).broker = e.broker := rfl

@[simp] theorem Engine.updateSub_subMappers (e : Engine) (i : Nat)
    (f : SubMapperContext → SubMapperContext) :
    (e.updateSub i f).subMappers = e.subMappers.modify f i := rfl

/-! ### The last-reference rule -/

/-- The loop of `_unsubscribeWithMapperContext` finds another mapping exactly
when some context at another position maps the channel to the target and reads
`subscriptions[channelName]` as truthy. -/
theorem otherMappingHolds_iff (e : Engine) (self : Option Nat) (targetURI : Option String)
    (channelName : String) :
    otherMappingHolds e self targetURI channelName = true ↔
      ∃ j c, e.subMappers[j]? = some c ∧ some j ≠ self ∧
        c.resolve channelName = targetURI ∧ truthyKey c.subscriptions channelName = true := by
  unfold otherMappingHolds
  rw [List.any_eq_true]
  constructor
  · rintro ⟨⟨j, c⟩, hmem, hp⟩
    rw [List.mk_mem_enum_iff_getElem?] at hmem
    simp only [Bool.and_eq_true, decide_eq_true_eq] at hp
    exact ⟨j, c, hmem, hp.1, hp.2.1.symm, hp.2.2⟩
  · rintro ⟨j, c, hget, hne, hres, hsub⟩
    refine ⟨(j, c), List.mk_mem_enum_iff_getElem?.mpr hget, ?_⟩
    simp only [Bool.and_eq_true, decide_eq_true_eq]
    exact ⟨hne, hres.symm, hsub⟩

/-- Deleting the own record of the context at position `self` does not change
what the loop finds at the other positions. -/
theorem otherMappingHolds_after_delete (e : Engine) (i : Nat) (targetURI : Option String)
    (channelName : String) (f : SubMapperContext → SubMapperContext) :
    otherMappingHolds (e.updateSub i f) (some i) targetURI channelName =
      otherMappingHolds e (some i) targetURI channelName := by
  rw [Bool.eq_iff_iff, otherMappingHolds_iff, otherMappingHolds_iff]
  constructor
  · rintro ⟨j, c, hget, hne, hrest⟩
    have hji : i ≠ j := fun h => hne (by rw [h])
    rw [Engine.updateSub_subMappers, List.getElem?_modify_ne _ _ hji] at hget
    exact ⟨j, c, hget, hne, hrest⟩
  · rintro ⟨j, c, hget, hne, hrest⟩
    have hji : i ≠ j := fun h => hne (by rw [h])
    refine ⟨j, c, ?_, hne, hrest⟩
    rw [Engine.updateSub_subMappers, List.getElem?_modify_ne _ _ hji]
    exact hget

/-- What the code does where the last-reference rule applies: unsubscribing
the channel `x` through a context whose target connection `T` exists issues the
network unsubscribe and unwatch on `T` exactly when no other context currently
in `subMappers` both resolves `x` to `T` and reads `subscriptions[x]` as truthy
(it holds a record for `x`, or `x` names an inherited property); otherwise it
issues nothing. -/
theorem unsubscribe_last_reference (e : Engine) (self : Option Nat) (mc : MapperContext)
    (x T : String) (hT : mc.targetClient x = some T) :
    ((unsubscribeWithMapperContext e self mc x).log =
        e.log ++ [Effect.unsubscribe T x, Effect.unwatch T x] ↔
      ¬ ∃ j c, e.subMappers[j]? = some c ∧ some j ≠ self ∧
        c.resolve x = some T ∧ truthyKey c.subscriptions x = true) ∧
    ((unsubscribeWithMapperContext e self mc x).log = e.log ↔
      ∃ j c, e.subMappers[j]? = some c ∧ some j ≠ self ∧
        c.resolve x = some T ∧ truthyKey c.subscriptions x = true) := by
  have hres : mc.resolve x = some T := by
    unfold MapperContext.targetClient at hT
    cases hr : mc.resolve x with
    | none => rw [hr] at hT; cases hT
    | some u =>
      rw [hr] at hT
      by_cases hu : u ∈ mc.clients
      · simp only [hu, if_true] at hT; rw [Option.some.inj hT]
      · simp only [hu, if_false] at hT; cases hT
  have hlen : ∀ l : List Effect, ¬ (l = l ++ [Effect.unsubscribe T x, Effect.unwatch T x]) := by
    intro l h
    have := congrArg List.length h
    simp at this
  have hlog : (unsubscribeWithMapperContext e self mc x).log =
      if otherMappingHolds e self (some T) x = true then e.log
      else e.log ++ [Effect.unsubscribe T x, Effect.unwatch T x] := by
    unfold unsubscribeWithMapperContext
    rw [hT, hres]
    cases self with
    | none =>
      simp only []
      by_cases ho : otherMappingHolds e none (some T) x = true
      · rw [if_pos ho, if_pos ho]
      · rw [if_neg ho, if_neg ho]
        simp only [Engine.setSocket_log, Engine.emit_log, List.append_assoc, List.singleton_append]
    | some i =>
      simp only []
      rw [otherMappingHolds_after_delete]
      by_cases ho : otherMappingHolds e (some i) (some T) x = true
      · rw [if_pos ho, if_pos ho, Engine.updateSub_log]
      · rw [if_neg ho, if_neg ho]
        simp only [Engine.setSocket_log, Engine.emit_log, Engine.updateSub_log,
          List.append_assoc, List.singleton_append]
  rw [hlog, ← otherMappingHolds_iff]
  by_cases ho : otherMappingHolds e self (some T) x = true
  · rw [if_pos ho]
    exact ⟨⟨fun h => absurd h (hlen _), fun h => absurd ho h⟩, ⟨fun _ => ho, fun _ => rfl⟩⟩
  · rw [if_neg ho]
    exact ⟨⟨fun _ => ho, fun _ => rfl⟩, ⟨fun h => absurd h.symm (hlen _), fun h => absurd h ho⟩⟩

/-- C7: the public `unsubscribe('x')` on `sampleShared`, two sub contexts built
from the one endpoint `ws://a:1` with `x` subscribed through both.  The first
round, through the context at position `0`, deletes that context's record and
issues nothing; it leaves `sampleOverlap`.  The second round, through the
context at position `1`, issues the network unsubscribe and unwatch on
`ws://a:1` although the context at position `0` is still in `subMappers` and
resolves `x` to that target.  The comment above the loop rules an unsubscribe
out if any other mapper maps the channel to the client, as the claim does; the
guard of the loop also asks for the other context's record. -/
theorem unsubscribe_issued_despite_other_resolver :
    sampleShared.subMappers.map (fun c => (c.targets, c.clients, c.resolve "x", c.subscriptions)) =
      [(["ws://a:1"], ["ws://a:1"], some "ws://a:1", ["x"]),
       (["ws://a:1"], ["ws://a:1"], some "ws://a:1", ["x"])] ∧
    (unsubscribeWithMapperContext sampleShared (some 0) sampleContext "x").log = sampleShared.log ∧
    sampleOverlap.subMappers.map (fun c => (c.targets, c.clients, c.resolve "x", c.subscriptions)) =
      [(["ws://a:1"], ["ws://a:1"], some "ws://a:1", []),
       (["ws://a:1"], ["ws://a:1"], some "ws://a:1", ["x"])] ∧
    sampleContext.targetClient "x" = some "ws://a:1" ∧
    (unsubscribeWithMapperContext sampleOverlap (some 1) sampleContext "x").log =
      sampleOverlap.log ++ [Effect.unsubscribe "ws://a:1" "x", Effect.unwatch "ws://a:1" "x"] ∧
    (unsubscribe sampleShared "x").log =
      (unsubscribeWithMapperContext sampleOverlap (some 1) sampleContext "x").log ∧
    (unsubscribe sampleShared "x").log =
      sampleShared.log ++ [Effect.unsubscribe "ws://a:1" "x", Effect.unwatch "ws://a:1" "x"] := by
  decide

/-- In `sampleOverlap`, unsubscribing `x` through the newer context issues
nothing exactly when another context resolves `x` to `ws://a:1` and holds a
record for it. -/
theorem unsubscribe_last_reference_witness :
    (unsubscribeWithMapperContext sampleOverlap (some 1) sampleContext "x").log =
        sampleOverlap.log ↔
      ∃ j c, sampleOverlap.subMappers[j]? = some c ∧ some j ≠ some 1 ∧
        c.resolve "x" = some "ws://a:1" ∧ truthyKey c.subscriptions "x" = true :=
  (unsubscribe_last_reference sampleOverlap (some 1) sampleContext "x" "ws://a:1" (by decide)).2

/-! ### Pushing and shifting contexts -/

/-- An invariant of the accumulator survives a left fold. -/
theorem foldl_invariant {α β : Type} (P : β → Prop) (f : β → α → β)
    (hf : ∀ b a, P b → P (f b a)) (l : List α) (b : β) (hb : P b) : P (l.foldl f b) := by
  induction l generalizing b with
  | nil => exact hb
  | cons a l ih => exact ih (f b a) (hf b a hb)

/-- Modifying the last position of a list. -/
theorem modify_length_append_singleton {α : Type} (l : List α) (c : α) (f : α → α) :
    (l ++ [c]).modify f l.length = l ++ [f c] := by
  induction l with
  | nil => rfl
  | cons a l ih => simp [List.modify_succ_cons, ih]

/-- The connections of `_mapperPush` leave the two sequences and the broker
as they are, and give the client map exactly the listed URIs as keys. -/
theorem connectTarget_fold (targetURIs : List String) (e : Engine) (ks : List String) :
    (targetURIs.foldl connectTarget (e, ks)).1.subMappers = e.subMappers ∧
    (targetURIs.foldl connectTarget (e, ks)).1.pubMappers = e.pubMappers ∧
    (targetURIs.foldl connectTarget (e, ks)).1.broker = e.broker ∧
    (∀ u, u ∈ (targetURIs.foldl connectTarget (e, ks)).2 ↔ u ∈ ks ∨ u ∈ targetURIs) := by
  induction targetURIs generalizing e ks with
  | nil => simp
  | cons a l ih =>
    rw [List.foldl_cons]
    obtain ⟨h1, h2, h3, h4⟩ := ih (connectTarget (e, ks) a).1 (connectTarget (e, ks) a).2
    refine ⟨?_, ?_, ?_, ?_⟩
    · rw [h1]; simp [connectTarget]
    · rw [h2]; simp [connectTarget]
    · rw [h3]; simp [connectTarget]
    · intro u
      rw [h4]
      simp only [connectTarget, insertKey, List.mem_cons]
      by_cases hm : a ∈ ks
      · simp only [hm, if_true]
        constructor
        · rintro (h | h)
          · exact Or.inl h
          · exact Or.inr (Or.inr h)
        · rintro (h | h | h)
          · exact Or.inl h
          · exact Or.inl (h ▸ hm)
          · exact Or.inr h
      · simp only [hm, if_false, List.mem_append, List.mem_singleton]
        constructor
        · rintro ((h | h) | h)
          · exact Or.inl h
          · exact Or.inr (Or.inl h)
          · exact Or.inr (Or.inr h)
        · rintro (h | h | h)
          · exact Or.inl (Or.inl h)
          · exact Or.inl (Or.inr h)
          · exact Or.inr h

/-- What `_mapperPush` creates and what it leaves alone. -/
theorem mapperPush_spec (e : Engine) (mapper : Mapper) (targetURIs : List String) :
    (mapperPush e mapper targetURIs).1.subMappers = e.subMappers ∧
    (mapperPush e mapper targetURIs).1.pubMappers = e.pubMappers ∧
    (mapperPush e mapper targetURIs).1.broker = e.broker ∧
    (mapperPush e mapper targetURIs).2.mapper = mapper ∧
    (mapperPush e mapper targetURIs).2.targets = targetURIs ∧
    (∀ u, u ∈ (mapperPush e mapper targetURIs).2.clients ↔ u ∈ targetURIs) := by
  obtain ⟨h1, h2, h3, h4⟩ := connectTarget_fold targetURIs e []
  refine ⟨h1, h2, h3, rfl, rfl, ?_⟩
  intro u
  show u ∈ (targetURIs.foldl connectTarget (e, [])).2 ↔ _
  rw [h4]; simp

/-- Subscribing through the context at the last position changes at most that
context's subscription records. -/
theorem subscribeWithMapperContext_last (e : Engine) (old : List SubMapperContext)
    (c : SubMapperContext) (mc : MapperContext) (channelName : String)
    (hsub : e.subMappers = old ++ [c]) :
    (∃ c1 : SubMapperContext,
      (subscribeWithMapperContext e old.length mc channelName).subMappers = old ++ [c1] ∧
      c1.toMapperContext = c.toMapperContext) ∧
    (subscribeWithMapperContext e old.length mc channelName).pubMappers = e.pubMappers ∧
    (subscribeWithMapperContext e old.length mc channelName).broker = e.broker := by
  unfold subscribeWithMapperContext
  cases mc.targetClient channelName with
  | none => exact ⟨⟨c, by simpa using hsub, rfl⟩, rfl, rfl⟩
  | some uri =>
    simp only []
    split
    · refine ⟨⟨{ c with subscriptions := assignKey channelName c.subscriptions }, ?_, rfl⟩, ?_, ?_⟩
      · simp [hsub, modify_length_append_singleton]
      · simp
      · simp
    · refine ⟨⟨{ c with subscriptions := assignKey channelName c.subscriptions }, ?_, rfl⟩, ?_, ?_⟩
      · simp [hsub, modify_length_append_singleton]
      · simp
      · simp

/-- The function `subMapperPush` appends one context built from the target
list and keeps the earlier sub contexts, the pub contexts and the broker. -/
theorem subMapperPush_spec (e : Engine) (mapper : Mapper) (targetURIs : List String) :
    (∃ c : SubMapperContext,
      (subMapperPush e mapper targetURIs).subMappers = e.subMappers ++ [c] ∧
      c.mapper = mapper ∧ c.targets = targetURIs ∧ (∀ u, u ∈ c.clients ↔ u ∈ targetURIs)) ∧
    (subMapperPush e mapper targetURIs).pubMappers = e.pubMappers ∧
    (subMapperPush e mapper targetURIs).broker = e.broker := by
  obtain ⟨h1, h2, h3, h4, h5, h6⟩ := mapperPush_spec e mapper targetURIs
  unfold subMapperPush
  simp only []
  have key := foldl_invariant
    (fun acc : Engine =>
      (∃ c1 : SubMapperContext, acc.subMappers = e.subMappers ++ [c1] ∧
        c1.toMapperContext = (mapperPush e mapper targetURIs).2) ∧
      acc.pubMappers = e.pubMappers ∧ acc.broker = e.broker)
    (fun acc c => subscribeWithMapperContext acc e.subMappers.length
      (mapperPush e mapper targetURIs).2 c)
    (by
      rintro acc ch ⟨⟨c1, hc1, hc1'⟩, hp, hb⟩
      obtain ⟨⟨c2, hc2, hc2'⟩, hp2, hb2⟩ := subscribeWithMapperContext_last acc e.subMappers c1
        (mapperPush e mapper targetURIs).2 ch hc1
      exact ⟨⟨c2, hc2, hc2'.trans hc1'⟩, hp2.trans hp, hb2.trans hb⟩)
    (getAllSubscriptions
      { (mapperPush e mapper targetURIs).1 with
        subMappers := (mapperPush e mapper targetURIs).1.subMappers ++
          [{ toMapperContext := (mapperPush e mapper targetURIs).2, subscriptions := [] }] })
    { (mapperPush e mapper targetURIs).1 with
      subMappers := (mapperPush e mapper targetURIs).1.subMappers ++
        [{ toMapperContext := (mapperPush e mapper targetURIs).2, subscriptions := [] }] }
    ⟨⟨_, by rw [h1], rfl⟩, h2, h3⟩
  obtain ⟨⟨c1, hc1, hc1'⟩, hp, hb⟩ := key
  refine ⟨⟨c1, hc1, ?_, ?_, ?_⟩, hp, hb⟩
  · rw [hc1']; exact h4
  · rw [hc1']; exact h5
  · rw [hc1']; exact h6

/-- The function `pubMapperPush` appends the context built from the target
list and keeps the sub contexts and the broker. -/
theorem pubMapperPush_spec (e : Engine) (mapper : Mapper) (targetURIs : List String) :
    (∃ c : MapperContext,
      (pubMapperPush e mapper targetURIs).pubMappers = e.pubMappers ++ [c] ∧
      c.mapper = mapper ∧ c.targets = targetURIs ∧ (∀ u, u ∈ c.clients ↔ u ∈ targetURIs)) ∧
    (pubMapperPush e mapper targetURIs).subMappers = e.subMappers ∧
    (pubMapperPush e mapper targetURIs).broker = e.broker := by
  obtain ⟨h1, h2, h3, h4, h5, h6⟩ := mapperPush_spec e mapper targetURIs
  unfold pubMapperPush
  exact ⟨⟨_, by simp only []; rw [h2], h4, h5, h6⟩, h1, h3⟩

/-- The cleanup of unused sockets keeps the two sequences and the broker. -/
theorem cleanupUnusedTargetSockets_spec (e : Engine) :
    (cleanupUnusedTargetSockets e).subMappers = e.subMappers ∧
    (cleanupUnusedTargetSockets e).pubMappers = e.pubMappers ∧
    (cleanupUnusedTargetSockets e).broker = e.broker := by
  unfold cleanupUnusedTargetSockets
  simp only []
  apply foldl_invariant (fun acc : Engine =>
    acc.subMappers = e.subMappers ∧ acc.pubMappers = e.pubMappers ∧ acc.broker = e.broker)
  · rintro acc u ⟨h1, h2, h3⟩
    split
    · exact ⟨h1, h2, h3⟩
    · exact ⟨by simpa using h1, by simpa using h2, by simpa using h3⟩
  · exact ⟨rfl, rfl, rfl⟩

/-- The function `pubMapperShift` drops the oldest pub context only. -/
theorem pubMapperShift_spec (e : Engine) :
    (pubMapperShift e).pubMappers = e.pubMappers.tail ∧
    (pubMapperShift e).subMappers = e.subMappers ∧
    (pubMapperShift e).broker = e.broker := by
  obtain ⟨h1, h2, h3⟩ := cleanupUnusedTargetSockets_spec { e with pubMappers := e.pubMappers.tail }
  exact ⟨h2, h1, h3⟩

/-- The loop over `pubMapperShift` ends, with enough rounds, when only the
newest `bound` pub contexts are left. -/
theorem shiftPubWhile_spec (bound : Nat) (fuel : Nat) (e : Engine)
    (hfuel : e.pubMappers.length ≤ fuel + bound) :
    (shiftPubWhile bound fuel e).pubMappers =
      e.pubMappers.drop (e.pubMappers.length - bound) ∧
    (shiftPubWhile bound fuel e).subMappers = e.subMappers ∧
    (shiftPubWhile bound fuel e).broker = e.broker := by
  induction fuel generalizing e with
  | zero =>
    have h0 : e.pubMappers.length - bound = 0 := by omega
    simp [shiftPubWhile, h0]
  | succ n ih =>
    unfold shiftPubWhile
    by_cases hgt : e.pubMappers.length > bound
    · rw [if_pos hgt]
      obtain ⟨h1, h2, h3⟩ := pubMapperShift_spec e
      have hlen : (pubMapperShift e).pubMappers.length ≤ n + bound := by
        rw [h1, List.length_tail]; omega
      obtain ⟨i1, i2, i3⟩ := ih (pubMapperShift e) hlen
      refine ⟨?_, i2.trans h2, i3.trans h3⟩
      rw [i1, h1, List.length_tail]
      have hk : e.pubMappers.length - bound = (e.pubMappers.length - 1 - bound) + 1 := by omega
      rw [hk]
      cases hl : e.pubMappers with
      | nil => simp
      | cons a l => simp
    · rw [if_neg hgt]
      have h0 : e.pubMappers.length - bound = 0 := by omega
      simp [h0]

/-- Unsubscribing through a context that was shifted out keeps the two
sequences and the broker. -/
theorem unsubscribeWithMapperContext_detached (e : Engine) (mc : MapperContext)
    (channelName : String) :
    (unsubscribeWithMapperContext e none mc channelName).subMappers = e.subMappers ∧
    (unsubscribeWithMapperContext e none mc channelName).pubMappers = e.pubMappers ∧
    (unsubscribeWithMapperContext e none mc channelName).broker = e.broker := by
  unfold unsubscribeWithMapperContext
  simp only []
  cases mc.targetClient channelName with
  | none => exact ⟨rfl, rfl, rfl⟩
  | some uri =>
    simp only []
    split
    · exact ⟨rfl, rfl, rfl⟩
    · exact ⟨by simp, by simp, by simp⟩

/-- On a non-empty sequence `subMapperShift` returns, having dropped the oldest
sub context only. -/
theorem subMapperShift_spec (e : Engine) (c : SubMapperContext) (rest : List SubMapperContext)
    (hsub : e.subMappers = c :: rest) :
    ∃ e1, subMapperShift e = some e1 ∧ e1.subMappers = rest ∧
      e1.pubMappers = e.pubMappers ∧ e1.broker = e.broker := by
  unfold subMapperShift
  simp only [hsub]
  refine ⟨_, rfl, ?_⟩
  have key := foldl_invariant
    (fun acc : Engine =>
      acc.subMappers = rest ∧ acc.pubMappers = e.pubMappers ∧ acc.broker = e.broker)
    (fun acc ch => unsubscribeWithMapperContext acc none c.toMapperContext ch)
    (by
      rintro acc ch ⟨h1, h2, h3⟩
      obtain ⟨u1, u2, u3⟩ := unsubscribeWithMapperContext_detached acc c.toMapperContext ch
      exact ⟨u1.trans h1, u2.trans h2, u3.trans h3⟩)
    (getAllSubscriptions e) { e with subMappers := rest } ⟨rfl, rfl, rfl⟩
  obtain ⟨k1, k2, k3⟩ := key
  obtain ⟨c1, c2, c3⟩ := cleanupUnusedTargetSockets_spec
    ((getAllSubscriptions e).foldl
      (fun acc ch => unsubscribeWithMapperContext acc none c.toMapperContext ch)
      { e with subMappers := rest })
  exact ⟨c1.trans k1, c2.trans k2, c3.trans k3⟩

/-- The loop over `subMapperShift` returns, with enough rounds, when only the
newest `bound` sub contexts are left. -/
theorem shiftSubWhile_spec (bound : Nat) (fuel : Nat) (e : Engine)
    (hfuel : e.subMappers.length ≤ fuel + bound) :
    ∃ e1, shiftSubWhile bound fuel e = some e1 ∧
      e1.subMappers = e.subMappers.drop (e.subMappers.length - bound) ∧
      e1.pubMappers = e.pubMappers ∧ e1.broker = e.broker := by
  induction fuel generalizing e with
  | zero =>
    have h0 : e.subMappers.length - bound = 0 := by omega
    exact ⟨e, rfl, by simp [h0], rfl, rfl⟩
  | succ n ih =>
    unfold shiftSubWhile
    by_cases hgt : e.subMappers.length > bound
    · rw [if_pos hgt]
      cases hl : e.subMappers with
      | nil => rw [hl] at hgt; simp at hgt
      | cons c rest =>
        obtain ⟨e1, he1, h1, h2, h3⟩ := subMapperShift_spec e c rest hl
        rw [he1]
        simp only []
        have hlen : e1.subMappers.length ≤ n + bound := by
          rw [h1]; rw [hl] at hfuel; simp at hfuel; omega
        obtain ⟨e2, he2, i1, i2, i3⟩ := ih e1 hlen
        refine ⟨e2, he2, ?_, i2.trans h2, i3.trans h3⟩
        rw [i1, h1]
        rw [hl] at hgt
        simp only [List.length_cons] at hgt ⊢
        have hk : rest.length + 1 - bound = (rest.length - bound) + 1 := by omega
        rw [hk, List.drop_succ_cons]
    · rw [if_neg hgt]
      have h0 : e.subMappers.length - bound = 0 := by omega
      exact ⟨e, rfl, by simp [h0], rfl, rfl⟩

/-- Keeping the last element of a non-empty list. -/
theorem drop_length_pred {α : Type} (l : List α) (h : l ≠ []) :
    l.drop (l.length - 1) = [l.getLast h] := by
  have hd := List.dropLast_append_getLast h
  have hlen : l.length - 1 = l.dropLast.length := by simp
  rw [hlen]
  conv_lhs => rw [← hd]
  simp

/-- The function `sendClientState` emits one report and otherwise only clears
the retry timer of the previous report. -/
theorem sendClientState_spec (st : Coordinator) (stateName : String) :
    (sendClientState st stateName).stateEmits = st.stateEmits ++
      [StateEmit.clientSetState (stateName ++ ":" ++ jsonStringify st.serverInstances)] ∧
    (sendClientState st stateName).clusterClient = st.clusterClient ∧
    (sendClientState st stateName).serverInstances = st.serverInstances ∧
    (sendClientState st stateName).processedMessagesLookup = st.processedMessagesLookup := by
  unfold sendClientState Coordinator.clearTimeout
  cases st.sendClientStateTimeout <;> exact ⟨rfl, rfl, rfl, rfl⟩

/-! ### The convergence protocol -/

/-- The two convergence reports of one snapshot are different strings. -/
theorem updatedPubs_ne_updatedSubs (x y : String) : "updatedPubs:" ++ x ≠ "updatedSubs:" ++ y := by
  intro h
  have h2 := congrArg String.data h
  simp only [String.data_append] at h2
  have h3 := congrArg (fun l => l.get? 7) h2
  simp at h3

/-- Only the empty list serialises to `[]`. -/
theorem jsonStringify_eq_empty (xs : List String) (h : jsonStringify xs = "[]") : xs = [] := by
  cases xs with
  | nil => rfl
  | cons x rest =>
    exfalso
    have h2 := congrArg (fun s => s.data.length) h
    cases rest with
    | nil =>
      simp [jsonStringify, quoteJSONString, List.intercalate, List.intersperse] at h2
    | cons y rest2 =>
      simp [jsonStringify, quoteJSONString, List.intercalate, List.intersperse] at h2

/-- C3: a membership packet that passes the acceptance rule makes
`addNewSubMapping` append exactly one sub context, built from the packet's
endpoint list with the built-in mapper, at the tail of `subMappers`; the sub
contexts present before stay in place and in order, `pubMappers` is unchanged,
and the state `updatedSubs:` followed by the serialised new list is reported. -/
theorem addNewSubMapping_appends (st : Coordinator) (data : UpdatePacket)
    (htime : data.time > st.latestSnapshotTime)
    (hdiff : jsonStringify data.serverInstances ≠ st.latestServerInstancesSnapshot) :
    (∃ c : SubMapperContext,
      (addNewSubMapping st data).clusterClient.subMappers = st.clusterClient.subMappers ++ [c] ∧
      c.mapper = serverMapper ∧ c.targets = data.serverInstances ∧
      (∀ u, u ∈ c.clients ↔ u ∈ data.serverInstances)) ∧
    (addNewSubMapping st data).clusterClient.pubMappers = st.clusterClient.pubMappers ∧
    (addNewSubMapping st data).stateEmits = st.stateEmits ++
      [StateEmit.clientSetState ("updatedSubs:" ++ jsonStringify data.serverInstances)] ∧
    (addNewSubMapping st data).serverInstances = data.serverInstances := by
  have hacc : updateServerCluster st data =
      (true, { st with latestServerInstancesSnapshot := jsonStringify data.serverInstances,
                       serverInstances := data.serverInstances,
                       latestSnapshotTime := data.time }) := by
    unfold updateServerCluster
    simp only []
    rw [if_pos ⟨htime, hdiff⟩]
  unfold addNewSubMapping
  simp only [hacc, if_true]
  obtain ⟨hc, hp, _⟩ := subMapperPush_spec st.clusterClient serverMapper data.serverInstances
  obtain ⟨s1, s2, s3, _⟩ := sendClientState_spec
    { st with latestServerInstancesSnapshot := jsonStringify data.serverInstances,
              serverInstances := data.serverInstances,
              latestSnapshotTime := data.time,
              clusterClient := subMapperPush st.clusterClient serverMapper data.serverInstances }
    "updatedSubs"
  refine ⟨?_, ?_, ?_, ?_⟩
  · rw [s2]; exact hc
  · rw [s2]; exact hp
  · rw [s1]; rfl
  · rw [s3]

/-- C4: on a convergence broadcast whose state is `updatedSubs:` followed by
the serialisation of the current endpoint list, the handler returns with
`pubMappers` holding exactly one context, built from the current endpoint list
with the built-in mapper, `subMappers` unchanged, and `updatedPubs:` followed by
the same serialisation reported. -/
theorem converge_updatedSubs_collapses_pubs (st : Coordinator) :
    ∃ st1, clientStatesConverge st ("updatedSubs:" ++ jsonStringify st.serverInstances) =
        some st1 ∧
      (∃ c : MapperContext, st1.clusterClient.pubMappers = [c] ∧
        c.mapper = serverMapper ∧ c.targets = st.serverInstances ∧
        (∀ u, u ∈ c.clients ↔ u ∈ st.serverInstances)) ∧
      st1.clusterClient.subMappers = st.clusterClient.subMappers ∧
      st1.stateEmits = st.stateEmits ++
        [StateEmit.clientSetState ("updatedPubs:" ++ jsonStringify st.serverInstances)] ∧
      st1.serverInstances = st.serverInstances := by
  unfold clientStatesConverge
  rw [if_pos rfl]
  refine ⟨_, rfl, ?_⟩
  obtain ⟨⟨c, hc, hm, ht, hk⟩, hs, _⟩ :=
    pubMapperPush_spec st.clusterClient serverMapper st.serverInstances
  obtain ⟨w1, w2, _⟩ := shiftPubWhile_spec 1
    (pubMapperPush st.clusterClient serverMapper st.serverInstances).pubMappers.length
    (pubMapperPush st.clusterClient serverMapper st.serverInstances) (by omega)
  obtain ⟨s1, s2, s3, _⟩ := sendClientState_spec
    { st with clusterClient := (shiftPubWhile 1
        (pubMapperPush st.clusterClient serverMapper st.serverInstances).pubMappers.length
        (pubMapperPush st.clusterClient serverMapper st.serverInstances)) }
    "updatedPubs"
  refine ⟨⟨c, ?_, hm, ht, hk⟩, ?_, ?_, ?_⟩
  · show (sendClientState _ "updatedPubs").clusterClient.pubMappers = [c]
    rw [s2]
    show (shiftPubWhile 1 _ _).pubMappers = [c]
    rw [w1, hc]
    simp
  · show (sendClientState _ "updatedPubs").clusterClient.subMappers = _
    rw [s2]
    show (shiftPubWhile 1 _ _).subMappers = _
    rw [w2, hs]
  · show (sendClientState _ "updatedPubs").stateEmits = _
    rw [s1]; rfl
  · show (sendClientState _ "updatedPubs").serverInstances = _
    rw [s3]

/-- C5: with both sequences non-empty, on a convergence broadcast whose state
is `updatedPubs:` followed by the serialisation of the current endpoint list,
the handler returns with `subMappers` and `pubMappers` each holding exactly the
context that was last in the sequence before, and `active:` followed by the
serialisation reported. -/
theorem converge_updatedPubs_collapses_both (st : Coordinator)
    (hsub : st.clusterClient.subMappers ≠ []) (hpub : st.clusterClient.pubMappers ≠ []) :
    ∃ st1, clientStatesConverge st ("updatedPubs:" ++ jsonStringify st.serverInstances) =
        some st1 ∧
      st1.clusterClient.subMappers = [st.clusterClient.subMappers.getLast hsub] ∧
      st1.clusterClient.pubMappers = [st.clusterClient.pubMappers.getLast hpub] ∧
      st1.stateEmits = st.stateEmits ++
        [StateEmit.clientSetState ("active:" ++ jsonStringify st.serverInstances)] := by
  unfold clientStatesConverge
  rw [if_neg (updatedPubs_ne_updatedSubs _ _), if_pos rfl]
  unfold completeMappingUpdates
  simp only []
  obtain ⟨w1, w2, _⟩ := shiftPubWhile_spec 1 st.clusterClient.pubMappers.length
    st.clusterClient (by omega)
  obtain ⟨e2, he2, v1, v2, _⟩ := shiftSubWhile_spec 1
    (shiftPubWhile 1 st.clusterClient.pubMappers.length st.clusterClient).subMappers.length
    (shiftPubWhile 1 st.clusterClient.pubMappers.length st.clusterClient) (by omega)
  rw [he2]
  obtain ⟨s1, s2, _⟩ := sendClientState_spec { st with clusterClient := e2 } "active"
  refine ⟨_, rfl, ?_, ?_, ?_⟩
  · show (sendClientState _ "active").clusterClient.subMappers = _
    rw [s2]
    show e2.subMappers = _
    rw [v1, w2]
    exact drop_length_pred _ hsub
  · show (sendClientState _ "active").clusterClient.pubMappers = _
    rw [s2]
    show e2.pubMappers = _
    rw [v2, w1]
    exact drop_length_pred _ hpub
  · show (sendClientState _ "active").stateEmits = _
    rw [s1]; rfl

/-- C6: whatever the state before, a successful join response with a
non-negative time makes the join callback return with `subMappers` and
`pubMappers` each holding exactly one context, whose target list is the
response's endpoint list, with an empty cache, and with `active:` followed by
the serialisation of that list reported. -/
theorem join_resets_to_single_contexts (st : Coordinator) (data : UpdatePacket)
    (htime : 0 ≤ data.time) :
    ∃ st1, clientJoinClusterCallback st (some data) = some st1 ∧
      (∃ c : SubMapperContext, st1.clusterClient.subMappers = [c] ∧
        c.targets = data.serverInstances) ∧
      (∃ c : MapperContext, st1.clusterClient.pubMappers = [c] ∧
        c.targets = data.serverInstances) ∧
      st1.processedMessagesLookup = [] ∧
      st1.stateEmits = st.stateEmits ++
        [StateEmit.clientSetState ("active:" ++ jsonStringify data.serverInstances)] ∧
      st1.serverInstances = data.serverInstances := by
  -- resetState returns, with both sequences empty
  obtain ⟨w1, w2, _⟩ := shiftPubWhile_spec 0 st.clusterClient.pubMappers.length
    st.clusterClient (by omega)
  obtain ⟨e2, he2, v1, v2, _⟩ := shiftSubWhile_spec 0
    (shiftPubWhile 0 st.clusterClient.pubMappers.length st.clusterClient).subMappers.length
    (shiftPubWhile 0 st.clusterClient.pubMappers.length st.clusterClient) (by omega)
  have hsub0 : e2.subMappers = [] := by rw [v1]; simp
  have hpub0 : e2.pubMappers = [] := by rw [v2, w1]; simp
  have hreset : resetState st =
      some { st with clusterClient := e2, latestSnapshotTime := -1,
                     latestServerInstancesSnapshot := "[]", serverInstances := [],
                     processedMessagesLookup := [] } := by
    unfold resetState
    simp only []
    rw [he2]
  -- the snapshot stored afterwards is the response's, by value
  have hupd : ∀ st0 : Coordinator, st0.latestSnapshotTime = -1 →
      st0.latestServerInstancesSnapshot = "[]" → st0.serverInstances = [] →
      (updateServerCluster st0 data).2.serverInstances = data.serverInstances ∧
      (updateServerCluster st0 data).2.clusterClient = st0.clusterClient ∧
      (updateServerCluster st0 data).2.processedMessagesLookup = st0.processedMessagesLookup ∧
      (updateServerCluster st0 data).2.stateEmits = st0.stateEmits := by
    intro st0 h1 h2 h3
    unfold updateServerCluster
    simp only []
    by_cases hc : data.time > st0.latestSnapshotTime ∧
        jsonStringify data.serverInstances ≠ st0.latestServerInstancesSnapshot
    · rw [if_pos hc]; exact ⟨rfl, rfl, rfl, rfl⟩
    · rw [if_neg hc]
      refine ⟨?_, rfl, rfl, rfl⟩
      have hgt : data.time > st0.latestSnapshotTime := by rw [h1]; omega
      have heq : jsonStringify data.serverInstances = "[]" := by
        by_contra hne
        exact hc ⟨hgt, by rw [h2]; exact hne⟩
      rw [h3, jsonStringify_eq_empty _ heq]
  unfold clientJoinClusterCallback
  simp only [hreset]
  obtain ⟨u1, u2, u3, u4⟩ := hupd
    { st with clusterClient := e2, latestSnapshotTime := -1,
              latestServerInstancesSnapshot := "[]", serverInstances := [],
              processedMessagesLookup := [] } rfl rfl rfl
  generalize updateServerCluster
    { st with clusterClient := e2, latestSnapshotTime := -1,
              latestServerInstancesSnapshot := "[]", serverInstances := [],
              processedMessagesLookup := [] } data = r at u1 u2 u3 u4 ⊢
  obtain ⟨⟨c, hc, _, hct, _⟩, hp, _⟩ :=
    subMapperPush_spec r.2.clusterClient serverMapper r.2.serverInstances
  obtain ⟨⟨d, hd, _, hdt, _⟩, hs, _⟩ :=
    pubMapperPush_spec (subMapperPush r.2.clusterClient serverMapper r.2.serverInstances)
      serverMapper r.2.serverInstances
  obtain ⟨s1, s2, s3, s4⟩ := sendClientState_spec
    { r.2 with clusterClient :=
        (pubMapperPush (subMapperPush r.2.clusterClient serverMapper r.2.serverInstances)
          serverMapper r.2.serverInstances) } "active"
  refine ⟨_, rfl, ⟨c, ?_, ?_⟩, ⟨d, ?_, ?_⟩, ?_, ?_, ?_⟩
  · rw [s2]
    show (pubMapperPush _ serverMapper _).subMappers = [c]
    rw [hs, hc, u2]
    show e2.subMappers ++ [c] = [c]
    rw [hsub0]; rfl
  · rw [hct, u1]
  · rw [s2]
    show (pubMapperPush _ serverMapper _).pubMappers = [d]
    rw [hd, hp, u2]
    show e2.pubMappers ++ [d] = [d]
    rw [hpub0]; rfl
  · rw [hdt, u1]
  · rw [s4]
    show r.2.processedMessagesLookup = []
    rw [u3]
  · rw [s1]
    show r.2.stateEmits ++ _ = _
    rw [u4]
    show st.stateEmits ++ [StateEmit.clientSetState ("active" ++ ":" ++ jsonStringify r.2.serverInstances)] = _
    rw [u1]; rfl
  · rw [s3]
    show r.2.serverInstances = _
    rw [u1]

/-- The notification `sampleGrowth` reaches a coordinator that joined with one
endpoint: the state `updatedSubs` is reported with the two endpoints. -/
theorem addNewSubMapping_appends_witness :
    (addNewSubMapping sampleJoined sampleGrowth).stateEmits = sampleJoined.stateEmits ++
      [StateEmit.clientSetState ("updatedSubs:" ++ jsonStringify sampleGrowth.serverInstances)] :=
  (addNewSubMapping_appends sampleJoined sampleGrowth (by decide) (by decide)).2.2.1

/-- The broadcast `updatedPubs` reaches a coordinator with two sub contexts and
one pub context: one of each is left. -/
theorem converge_updatedPubs_collapses_both_witness :
    sampleUpdatedPubs.clusterClient.subMappers.length = 2 ∧
    ∃ st1, clientStatesConverge sampleUpdatedPubs
        ("updatedPubs:" ++ jsonStringify sampleUpdatedPubs.serverInstances) = some st1 ∧
      st1.clusterClient.subMappers.length = 1 ∧ st1.clusterClient.pubMappers.length = 1 := by
  refine ⟨by decide, ?_⟩
  obtain ⟨st1, h, h1, h2, _⟩ := converge_updatedPubs_collapses_both sampleUpdatedPubs
    (List.ne_nil_of_length_pos (by decide)) (List.ne_nil_of_length_pos (by decide))
  exact ⟨st1, h, by rw [h1]; rfl, by rw [h2]; rfl⟩

/-- A second join response reaches a coordinator in the middle of a transition:
the cache is empty afterwards and the endpoint list is the response's. -/
theorem join_resets_to_single_contexts_witness :
    ∃ st1, clientJoinClusterCallback sampleGrown (some sampleJoin) = some st1 ∧
      st1.processedMessagesLookup = [] ∧ st1.serverInstances = ["ws://a:1"] := by
  obtain ⟨st1, h, _, _, h3, _, h5⟩ :=
    join_resets_to_single_contexts sampleGrown sampleJoin (by decide)
  exact ⟨st1, h, h3, h5⟩

/-! ### What the mapper computes for a channel name that is not a numeric literal -/

/-- A number is below two to the power of its bit length. -/
theorem lt_two_pow_bitLengthAux (fuel n : Nat) (h : n ≤ fuel) : n < 2 ^ bitLengthAux fuel n := by
  induction fuel generalizing n with
  | zero =>
    have : n = 0 := by omega
    subst this; simp [bitLengthAux]
  | succ k ih =>
    unfold bitLengthAux
    by_cases hn : n = 0
    · simp [hn]
    · rw [if_neg hn]
      have h2 : n / 2 ≤ k := by omega
      have := ih (n / 2) h2
      rw [pow_succ]
      omega

/-- A number below `2 ^ k` has at most `k` binary digits. -/
theorem bitLengthAux_le_of_lt (fuel n k : Nat) (h : n < 2 ^ k) : bitLengthAux fuel n ≤ k := by
  induction fuel generalizing n k with
  | zero => simp [bitLengthAux]
  | succ f ih =>
    unfold bitLengthAux
    by_cases hn : n = 0
    · simp [hn]
    · rw [if_neg hn]
      cases k with
      | zero => simp at h; omega
      | succ k1 =>
        have h2 : n / 2 < 2 ^ k1 := by
          rw [pow_succ] at h; omega
        have := ih (n / 2) k1 h2
        omega

/-- The binary exponent of an integer below `2 ^ 53` is at most `52`. -/
theorem floorLog2_le (v D : Nat) (hv : v < 2 ^ 53) (hD : 0 < D) : floorLog2 (v * D) D ≤ 52 := by
  unfold floorLog2
  simp only []
  have hDlt : D < 2 ^ bitLength D := lt_two_pow_bitLengthAux D D (le_refl _)
  have ha : v * D < 2 ^ (53 + bitLength D) := by
    rw [pow_add]
    exact Nat.mul_lt_mul'' hv hDlt
  have hbl : bitLength (v * D) ≤ 53 + bitLength D := bitLengthAux_le_of_lt _ _ _ ha
  by_cases h0 : (0 : Int) ≤ (bitLength (v * D) : Int) - (bitLength D : Int)
  · rw [if_pos h0]
    by_cases hfits : decide (D * 2 ^ ((bitLength (v * D) : Int) - (bitLength D : Int)).toNat ≤
        v * D) = true
    · rw [if_pos hfits]
      have hle : D * 2 ^ ((bitLength (v * D) : Int) - (bitLength D : Int)).toNat ≤ v * D := by
        simpa using hfits
      have h3 : 2 ^ ((bitLength (v * D) : Int) - (bitLength D : Int)).toNat ≤ v := by
        rw [Nat.mul_comm] at hle
        exact Nat.le_of_mul_le_mul_right hle hD
      have h4 : ((bitLength (v * D) : Int) - (bitLength D : Int)).toNat < 53 := by
        by_contra hc
        have : 2 ^ 53 ≤ 2 ^ ((bitLength (v * D) : Int) - (bitLength D : Int)).toNat :=
          Nat.pow_le_pow_right (by norm_num) (by omega)
        omega
      omega
    · rw [if_neg hfits]; omega
  · rw [if_neg h0]
    split <;> omega

/-- Rounding to a double is exact on an integer below `2 ^ 53`, whatever
denominator it is written with. -/
theorem roundDouble_int (v : Int) (D : Nat) (hD : 0 < D) (hv : v.natAbs < 2 ^ 53) :
    ∃ D1 : Nat, 0 < D1 ∧ roundDouble (v * D) D = JSNumber.fin (v * D1) D1 := by
  by_cases hv0 : v = 0
  · exact ⟨1, by norm_num, by simp [roundDouble, hv0]⟩
  · have hn : ¬ (v * (D : Int) = 0 ∨ D = 0) := by
      rintro (h | h)
      · rcases Int.mul_eq_zero.mp h with h | h
        · exact hv0 h
        · omega
      · omega
    have ha : (v * (D : Int)).natAbs = v.natAbs * D := by
      rw [Int.natAbs_mul, Int.natAbs_ofNat]
    have he := floorLog2_le v.natAbs D hv hD
    have hsign : (v * (D : Int) < 0) ↔ v < 0 := by
      constructor
      · intro h
        by_contra hc
        have : 0 ≤ v * (D : Int) := Int.mul_nonneg (by omega) (by omega)
        omega
      · intro h
        exact Int.mul_neg_of_neg_of_pos h (by omega)
    unfold roundDouble
    rw [if_neg hn]
    simp only [ha]
    generalize floorLog2 (v.natAbs * D) D = e at he
    by_cases hq : (0 : Int) ≤ max e (-1022) - 52
    · have hq0 : max e (-1022) - 52 = 0 := by omega
      refine ⟨1, by norm_num, ?_⟩
      simp only [hq0, le_refl, if_true, Int.toNat_zero, pow_zero, Nat.mul_one,
        Nat.mul_mod_left, Nat.mul_div_cancel _ hD, true_and]
      have hc : ¬ (D < 2 * 0 ∨ 2 * 0 = D ∧ v.natAbs % 2 = 1) := by omega
      have hbig : ¬ (2 ^ 1024 ≤ v.natAbs) := fun h =>
        Nat.lt_irrefl _ (Nat.lt_of_lt_of_le hv
          (Nat.le_trans (Nat.pow_le_pow_right (by norm_num) (by norm_num)) h))
      simp only [hc, if_false]
      rw [if_neg hbig]
      congr 1
      by_cases hneg : v < 0
      · rw [if_pos (hsign.mpr hneg)]; omega
      · rw [if_neg (fun h => hneg (hsign.mp h))]; omega
    · simp only [hq, if_false, false_and]
      generalize hK : 2 ^ (-(max e (-1022) - 52)).toNat = K
      have hKpos : 0 < K := by rw [← hK]; exact pow_pos (by norm_num) _
      have hrw : v.natAbs * D * K = (v.natAbs * K) * D := by ring
      have hc : ¬ (D < 2 * 0 ∨ 2 * 0 = D ∧ v.natAbs * K % 2 = 1) := by omega
      refine ⟨K, hKpos, ?_⟩
      simp only [hrw, Nat.mul_mod_left, Nat.mul_div_cancel _ hD, hc, if_false]
      congr 1
      by_cases hneg : v < 0
      · rw [if_pos (hsign.mpr hneg)]
        push_cast
        rw [abs_of_neg hneg]; ring
      · rw [if_neg (fun h => hneg (hsign.mp h))]
        push_cast
        rw [abs_of_nonneg (by omega)]

/-- Subtraction is exact on integers when the difference is below `2 ^ 53`. -/
theorem jsSub_int (v w : Int) (D E : Nat) (hD : 0 < D) (hE : 0 < E)
    (h : (v - w).natAbs < 2 ^ 53) :
    ∃ F : Nat, 0 < F ∧
      jsSub (JSNumber.fin (v * D) D) (JSNumber.fin (w * E) E) = JSNumber.fin ((v - w) * F) F := by
  have hrw : v * (D : Int) * (E : Int) - w * (E : Int) * (D : Int) =
      (v - w) * ((D * E : Nat) : Int) := by push_cast; ring
  show ∃ F : Nat, 0 < F ∧ roundDouble (v * D * E - w * E * D) (D * E) = _
  rw [hrw]
  exact roundDouble_int (v - w) (D * E) (Nat.mul_pos hD hE) h

/-- Addition is exact on integers when the sum is below `2 ^ 53`. -/
theorem jsAdd_int (v w : Int) (D E : Nat) (hD : 0 < D) (hE : 0 < E)
    (h : (v + w).natAbs < 2 ^ 53) :
    ∃ F : Nat, 0 < F ∧
      jsAdd (JSNumber.fin (v * D) D) (JSNumber.fin (w * E) E) = JSNumber.fin ((v + w) * F) F := by
  have hrw : v * (D : Int) * (E : Int) + w * (E : Int) * (D : Int) =
      (v + w) * ((D * E : Nat) : Int) := by push_cast; ring
  show ∃ F : Nat, 0 < F ∧ roundDouble (v * D * E + w * E * D) (D * E) = _
  rw [hrw]
  exact roundDouble_int (v + w) (D * E) (Nat.mul_pos hD hE) h

/-- ToInt32 of an integer, whatever denominator it is written with. -/
theorem toInt32_int (v : Int) (F : Nat) (hF : 0 < F) :
    toInt32 (JSNumber.fin (v * F) F) = wrap32 v := by
  have hF0 : ¬ F = 0 := by omega
  have ha : (v * (F : Int)).natAbs / F = v.natAbs := by
    rw [Int.natAbs_mul, Int.natAbs_ofNat, Nat.mul_div_cancel _ hF]
  show (if F = 0 then 0 else wrap32 (if v * (F : Int) < 0 then
    -(((v * (F : Int)).natAbs / F : Nat) : Int) else (((v * (F : Int)).natAbs / F : Nat) : Int))) = _
  rw [if_neg hF0, ha]
  congr 1
  by_cases hneg : v < 0
  · rw [if_pos (Int.mul_neg_of_neg_of_pos hneg (by omega))]; omega
  · have : ¬ v * (F : Int) < 0 := by
      have : 0 ≤ v * (F : Int) := Int.mul_nonneg (by omega) (by omega)
      omega
    rw [if_neg this]; omega

/-- One round of the loop on a 32-bit hash and a code unit is one round of the
rolling hash. -/
theorem hashStep_int (h : Int) (ch : Nat) (hlo : -2147483648 ≤ h) (hhi : h < 2147483648)
    (hch : ch < 65536) :
    hashStep (JSNumber.fin h 1) ch = JSNumber.fin (wrap32 (h * 31 + (ch : Int))) 1 := by
  have h1 : toInt32 (JSNumber.fin h 1) = h := by
    have := toInt32_int h 1 (by norm_num)
    simp only [Nat.cast_one, mul_one] at this
    rw [this]; unfold wrap32; simp only []; split <;> omega
  have hw : -2147483648 ≤ wrap32 (h * 32) ∧ wrap32 (h * 32) < 2147483648 := by
    unfold wrap32; simp only []; split <;> omega
  obtain ⟨F, hF, hsub⟩ := jsSub_int (wrap32 (h * 32)) h 1 1 (by norm_num) (by norm_num) (by omega)
  obtain ⟨G, hG, hadd⟩ := jsAdd_int (wrap32 (h * 32) - h) (ch : Int) F 1 hF (by norm_num)
    (by omega)
  simp only [Nat.cast_one, mul_one] at hsub hadd
  unfold hashStep
  simp only [h1]
  rw [hsub, hadd, toInt32_int _ G hG]
  congr 1
  unfold wrap32
  simp only []
  split <;> split <;> split <;> omega

/-- From a 32-bit hash on, the loop is the rolling hash. -/
theorem foldl_hashStep_int (rest : List Nat) (h : Int) (hlo : -2147483648 ≤ h)
    (hhi : h < 2147483648) (hunits : ∀ u ∈ rest, u < 65536) :
    rest.foldl hashStep (JSNumber.fin h 1) =
      JSNumber.fin (rest.foldl (fun (hash : Int) (ch : Nat) => wrap32 (hash * 31 + (ch : Int))) h)
        1 := by
  induction rest generalizing h with
  | nil => rfl
  | cons u rest ih =>
    rw [List.foldl_cons, List.foldl_cons,
      hashStep_int h u hlo hhi (hunits u (List.mem_cons_self _ _))]
    have hw : -2147483648 ≤ wrap32 (h * 31 + (u : Int)) ∧
        wrap32 (h * 31 + (u : Int)) < 2147483648 := by
      unfold wrap32; simp only []; split <;> omega
    exact ih _ hw.1 hw.2 (fun x hx => hunits x (List.mem_cons_of_mem _ hx))

/-- For a channel name that is not a numeric literal the first round leaves
`0`, so the hash is the rolling hash of the name without its first code unit. -/
theorem channelHash_of_nonNumeric (u : Nat) (rest : List Nat)
    (hnan : stringToNumber (u :: rest) = JSNumber.nan) (hunits : ∀ x ∈ rest, x < 65536) :
    channelHash (u :: rest) = JSNumber.fin (rollingHash rest) 1 := by
  unfold channelHash rollingHash
  rw [hnan, List.foldl_cons]
  have h0 : hashStep JSNumber.nan u = JSNumber.fin 0 1 := rfl
  rw [h0]
  exact foldl_hashStep_int rest 0 (by norm_num) (by norm_num) hunits

/-- The remainder of a natural number by a positive array length. -/
theorem jsRem_nat (n m : Nat) (hm : ¬ m = 0) :
    jsRem (JSNumber.fin (n : Int) 1) m = JSNumber.fin ((n % m : Nat) : Int) 1 := by
  have hc : ¬ (m = 0 ∨ 1 = 0) := by omega
  have hn : ¬ ((n : Int) < 0) := by omega
  show (if m = 0 ∨ 1 = 0 then JSNumber.nan
    else JSNumber.fin (if (n : Int) < 0 then -(((n : Int).natAbs % (m * 1) : Nat) : Int)
      else (((n : Int).natAbs % (m * 1) : Nat) : Int)) 1) = _
  rw [if_neg hc, if_neg hn, Int.natAbs_ofNat, Nat.mul_one]

/-- Array access with a natural number as key. -/
theorem jsIndex_nat (E : List String) (r : Nat) :
    jsIndex E (JSNumber.fin (r : Int) 1) = E.get? r := by
  have hc : ¬ (1 = 0 ∨ (r : Int) < 0 ∨ (r : Int).natAbs % 1 ≠ 0) := by omega
  show (if 1 = 0 ∨ (r : Int) < 0 ∨ (r : Int).natAbs % 1 ≠ 0 then none
    else E.get? ((r : Int).natAbs / 1)) = _
  rw [if_neg hc, Int.natAbs_ofNat, Nat.div_one]

/-- For a channel name that is not a numeric literal and a non-empty endpoint
list, the mapper returns the endpoint that the rolling hash of the name without
its first code unit selects. -/
theorem serverMapperUnits_of_nonNumeric (u : Nat) (rest : List Nat) (E : List String)
    (hnan : stringToNumber (u :: rest) = JSNumber.nan) (hunits : ∀ x ∈ rest, x < 65536)
    (hE : E ≠ []) :
    serverMapperUnits (u :: rest) E = E.get? ((rollingHash rest).natAbs % E.length) := by
  have hlen : ¬ E.length = 0 := by
    intro h; exact hE (List.length_eq_zero.mp h)
  unfold serverMapperUnits
  rw [channelHash_of_nonNumeric u rest hnan hunits]
  show jsIndex E (jsRem (JSNumber.fin ((rollingHash rest).natAbs : Int) 1) E.length) = _
  rw [jsRem_nat _ _ hlen, jsIndex_nat]

/-- Every UTF-16 code unit of a string is below `65536`. -/
theorem utf16_lt (cs : List Char) : ∀ x ∈ utf16 cs, x < 65536 := by
  induction cs with
  | nil => intro x hx; simp [utf16] at hx
  | cons c cs ih =>
    intro x hx
    unfold utf16 at hx
    by_cases hc : c.toNat < 65536
    · rw [if_pos hc] at hx
      rcases List.mem_cons.mp hx with h | h
      · omega
      · exact ih x h
    · rw [if_neg hc] at hx
      have hv : c.toNat < 1114112 := by
        have := c.valid
        rcases this with h | ⟨_, h⟩
        · have : c.toNat < 55296 := h
          omega
        · exact h
      rcases List.mem_cons.mp hx with h | h
      · omega
      · rcases List.mem_cons.mp h with h2 | h2
        · omega
        · exact ih x h2

/-- The mapper on a channel name that is not a numeric literal: the endpoint
selected by the rolling hash of the name without its first code unit. -/
theorem serverMapper_of_nonNumeric (channelName : String) (E : List String)
    (hnan : stringToNumber (utf16 channelName.data) = JSNumber.nan) (hE : E ≠ []) :
    serverMapper channelName E =
      E.get? ((rollingHash (utf16 channelName.data).tail).natAbs % E.length) := by
  unfold serverMapper
  have hall := utf16_lt channelName.data
  cases hu : utf16 channelName.data with
  | nil => rw [hu] at hnan; exact absurd hnan (by decide)
  | cons u rest =>
    rw [hu] at hnan hall
    exact serverMapperUnits_of_nonNumeric u rest E hnan
      (fun x hx => hall x (List.mem_cons_of_mem _ hx)) hE

/-- The channel `ab` is not a numeric literal: the endpoint is the one the
rolling hash of `b` selects. -/
theorem serverMapper_of_nonNumeric_witness :
    serverMapper "ab" ["x", "y"] =
      ["x", "y"].get? ((rollingHash (utf16 "ab".data).tail).natAbs % ["x", "y"].length) :=
  serverMapper_of_nonNumeric "ab" ["x", "y"] (by decide) (by decide)

/-! ### The mapper always selects an element of a non-empty list -/

/-- Whatever the channel name, the hash is an integer written with
denominator `1`. -/
theorem channelHash_int (units : List Nat) : ∃ i : Int, channelHash units = JSNumber.fin i 1 := by
  rcases List.eq_nil_or_concat units with h | ⟨l, a, h⟩
  · subst h; exact ⟨0, rfl⟩
  · subst h
    unfold channelHash
    rw [List.concat_eq_append, List.foldl_append]
    exact ⟨_, rfl⟩

/-- On a non-empty list the mapper returns the element at an index within
bounds. -/
theorem serverMapperUnits_get (units : List Nat) (E : List String) (hE : E ≠ []) :
    ∃ k : Nat, k < E.length ∧ serverMapperUnits units E = E.get? k := by
  have hlen : ¬ E.length = 0 := fun h => hE (List.length_eq_zero.mp h)
  obtain ⟨i, hi⟩ := channelHash_int units
  refine ⟨i.natAbs % E.length, Nat.mod_lt _ (by omega), ?_⟩
  unfold serverMapperUnits
  rw [hi]
  show jsIndex E (jsRem (JSNumber.fin (i.natAbs : Int) 1) E.length) = _
  rw [jsRem_nat _ _ hlen, jsIndex_nat]

/-- On a non-empty list the mapper returns one of its elements. -/
theorem serverMapper_mem (channelName : String) (E : List String) (hE : E ≠ []) :
    ∃ uri, serverMapper channelName E = some uri ∧ uri ∈ E := by
  obtain ⟨k, hk, h⟩ := serverMapperUnits_get (utf16 channelName.data) E hE
  refine ⟨E.get ⟨k, hk⟩, ?_, List.get_mem _ _ _⟩
  unfold serverMapper
  rw [h, List.get?_eq_get hk]

/-- A context pushed with the built-in mapper and a non-empty list finds its
target client for every channel. -/
theorem targetClient_of_nonempty (e : Engine) (E : List String) (hE : E ≠ [])
    (channelName : String) :
    ∃ uri, uri ∈ E ∧ (mapperPush e serverMapper E).2.targetClient channelName = some uri := by
  obtain ⟨_, _, _, hm, ht, hk⟩ := mapperPush_spec e serverMapper E
  obtain ⟨uri, hu, hmem⟩ := serverMapper_mem channelName E hE
  refine ⟨uri, hmem, ?_⟩
  unfold MapperContext.targetClient MapperContext.resolve
  rw [hm, ht, hu]
  simp only []
  rw [if_pos ((hk uri).mpr hmem)]

/-! ### Publishing -/

/-- The effects of the fan-out of `publish` over a list of contexts. -/
theorem publish_fold (l : List MapperContext) (e : Engine) (channelName : String)
    (data : Packet) :
    (l.foldl (fun acc mc => publishWithMapperContext acc mc channelName data) e) =
      { e with log := e.log ++ l.map (fun mc =>
          match mc.targetClient channelName with
          | some uri => Effect.publish uri channelName data
          | none => Effect.error channelName) } := by
  induction l generalizing e with
  | nil => simp
  | cons mc l ih =>
    rw [List.foldl_cons, ih]
    unfold publishWithMapperContext
    cases h : mc.targetClient channelName <;> simp [Engine.emit, h]

/-- C11: `publish` goes through the pub contexts in order and, for each, either
forwards the packet unchanged on the connection the context resolves the
channel to, or emits one `NoMatchingTargetError`; nothing else changes, and
the forwards and the errors together are as many as the pub contexts. -/
theorem publish_fans_out (e : Engine) (channelName : String) (data : Packet) :
    publish e channelName data =
      { e with log := e.log ++ e.pubMappers.map (fun mc =>
          match mc.targetClient channelName with
          | some uri => Effect.publish uri channelName data
          | none => Effect.error channelName) } ∧
    (((publish e channelName data).log.drop e.log.length).countP Effect.isPublish +
      ((publish e channelName data).log.drop e.log.length).countP Effect.isError =
        e.pubMappers.length) := by
  have h := publish_fold e.pubMappers e channelName data
  refine ⟨h, ?_⟩
  unfold publish
  rw [h]
  simp only [List.drop_left]
  generalize e.pubMappers = l
  induction l with
  | nil => rfl
  | cons mc l ih =>
    simp only [List.map_cons, List.countP_cons, List.length_cons]
    cases h : mc.targetClient channelName
    · simp only [Effect.isPublish, Effect.isError]
      simp only [Bool.false_eq_true, if_false, if_true]
      omega
    · simp only [Effect.isPublish, Effect.isError]
      simp only [Bool.false_eq_true, if_false, if_true]
      omega

/-! ### Contexts with and without endpoints -/

/-- C16: a context pushed with an empty endpoint list has no clients and no
targets; subscribing a channel through it only emits a `NoMatchingTargetError`
(no subscription is recorded, nothing is sent), publishing through it only
emits a `NoMatchingTargetError` (nothing is forwarded), and both return. -/
theorem empty_context_reports_no_target (e0 : Engine) (mapper : Mapper) (channelName : String) :
    (mapperPush e0 mapper []).2.clients = [] ∧
    (mapperPush e0 mapper []).2.targets = [] ∧
    (∀ (e : Engine) (self : Nat),
      subscribeWithMapperContext e self (mapperPush e0 mapper []).2 channelName =
        e.emit (Effect.error channelName)) ∧
    (∀ (e : Engine) (data : Packet),
      publishWithMapperContext e (mapperPush e0 mapper []).2 channelName data =
        e.emit (Effect.error channelName)) ∧
    (∀ (e : Engine), (e.emit (Effect.error channelName)).subMappers = e.subMappers ∧
      (e.emit (Effect.error channelName)).sockets = e.sockets ∧
      (e.emit (Effect.error channelName)).log = e.log ++ [Effect.error channelName]) := by
  have ht : (mapperPush e0 mapper []).2.targetClient channelName = none := by
    unfold MapperContext.targetClient
    cases (mapperPush e0 mapper []).2.resolve channelName with
    | none => rfl
    | some uri =>
      have : ¬ uri ∈ (mapperPush e0 mapper []).2.clients := by
        show ¬ uri ∈ ([] : List String)
        simp
      simp only []
      rw [if_neg this]
  refine ⟨rfl, rfl, ?_, ?_, ?_⟩
  · intro e self; unfold subscribeWithMapperContext; rw [ht]
  · intro e data; unfold publishWithMapperContext; rw [ht]
  · intro e; exact ⟨rfl, rfl, rfl⟩

/-- C19: on a single-element endpoint list the mapper returns that element for
every channel name, and publishing through a context built from the single
endpoint forwards the packet on that endpoint and does nothing else. -/
theorem serverMapper_single (channelName e : String) :
    serverMapper channelName [e] = some e ∧
    (∀ (eng eng0 : Engine) (data : Packet),
      publishWithMapperContext eng (mapperPush eng0 serverMapper [e]).2 channelName data =
        eng.emit (Effect.publish e channelName data)) := by
  have hm : serverMapper channelName [e] = some e := by
    obtain ⟨uri, hu, hmem⟩ := serverMapper_mem channelName [e] (by simp)
    rw [hu, List.mem_singleton.mp hmem]
  refine ⟨hm, ?_⟩
  intro eng eng0 data
  obtain ⟨uri, hmem, ht⟩ := targetClient_of_nonempty eng0 [e] (by simp) channelName
  unfold publishWithMapperContext
  rw [ht, List.mem_singleton.mp hmem]

/-- C20: a context pushed with the built-in mapper and a non-empty endpoint
list finds, for every channel name, a target client among its clients, and
subscribing, unsubscribing or publishing through it emits no
`NoMatchingTargetError`. -/
theorem nonempty_context_finds_target (e0 : Engine) (E : List String) (hE : E ≠ [])
    (channelName : String) :
    ∃ uri, uri ∈ E ∧ uri ∈ (mapperPush e0 serverMapper E).2.clients ∧
      (mapperPush e0 serverMapper E).2.targetClient channelName = some uri ∧
      (∀ (e : Engine) (self : Nat),
        (subscribeWithMapperContext e self (mapperPush e0 serverMapper E).2 channelName).log.filter
          Effect.isError = e.log.filter Effect.isError) ∧
      (∀ (e : Engine) (self : Option Nat),
        (unsubscribeWithMapperContext e self (mapperPush e0 serverMapper E).2 channelName).log.filter
          Effect.isError = e.log.filter Effect.isError) ∧
      (∀ (e : Engine) (data : Packet),
        (publishWithMapperContext e (mapperPush e0 serverMapper E).2 channelName data).log.filter
          Effect.isError = e.log.filter Effect.isError) := by
  obtain ⟨uri, hmem, ht⟩ := targetClient_of_nonempty e0 E hE channelName
  obtain ⟨_, _, _, _, _, hk⟩ := mapperPush_spec e0 serverMapper E
  refine ⟨uri, hmem, (hk uri).mpr hmem, ht, ?_, ?_, ?_⟩
  · intro e self
    unfold subscribeWithMapperContext
    rw [ht]
    simp only []
    split <;> simp [Effect.isError]
  · intro e self
    unfold unsubscribeWithMapperContext
    rw [ht]
    cases self <;> simp only [] <;> split <;> simp [Effect.isError]
  · intro e data
    unfold publishWithMapperContext
    rw [ht]
    simp [Effect.isError]

/-! ### Snapshots are not re-accepted -/

/-- C17: right after `updateServerCluster` accepted the packet `p`, it rejects
every packet whose time is not later than `p`'s or whose endpoint list
serialises as `p`'s does. -/
theorem accepted_snapshot_not_reaccepted (st : Coordinator) (p q : UpdatePacket)
    (hacc : (updateServerCluster st p).1 = true)
    (hq : q.time ≤ p.time ∨
      jsonStringify q.serverInstances = jsonStringify p.serverInstances) :
    (updateServerCluster (updateServerCluster st p).2 q).1 = false := by
  have hp : p.time > st.latestSnapshotTime ∧
      jsonStringify p.serverInstances ≠ st.latestServerInstancesSnapshot := by
    by_contra hc
    unfold updateServerCluster at hacc
    simp only [] at hacc
    rw [if_neg hc] at hacc
    exact Bool.noConfusion hacc
  have hst : (updateServerCluster st p).2 =
      { st with latestServerInstancesSnapshot := jsonStringify p.serverInstances,
                serverInstances := p.serverInstances,
                latestSnapshotTime := p.time } := by
    unfold updateServerCluster
    simp only []
    rw [if_pos hp]
  rw [hst]
  unfold updateServerCluster
  simp only []
  have hc : ¬ (q.time > p.time ∧
      jsonStringify q.serverInstances ≠ jsonStringify p.serverInstances) := by
    rintro ⟨h1, h2⟩
    rcases hq with h | h
    · omega
    · exact h2 h
  rw [if_neg hc]

/-- The packet `sampleGrowth` is accepted after the join; the same list with a
later time is then rejected. -/
theorem accepted_snapshot_not_reaccepted_witness :
    (updateServerCluster (updateServerCluster sampleJoined sampleGrowth).2
      { serverInstances := ["ws://a:1", "ws://b:1"], time := 9 }).1 = false :=
  accepted_snapshot_not_reaccepted sampleJoined sampleGrowth
    { serverInstances := ["ws://a:1", "ws://b:1"], time := 9 } (by decide) (Or.inr rfl)

/-- The endpoint list `[ws://a:1, ws://b:1]` is not empty: the channel `x` finds
a target in a context built from it. -/
theorem nonempty_context_finds_target_witness :
    ∃ uri, uri ∈ ["ws://a:1", "ws://b:1"] ∧
      (mapperPush (Engine.create sampleBroker) serverMapper
        ["ws://a:1", "ws://b:1"]).2.targetClient "x" = some uri := by
  obtain ⟨uri, h1, _, h3, _⟩ := nonempty_context_finds_target (Engine.create sampleBroker)
    ["ws://a:1", "ws://b:1"] (by decide) "x"
  exact ⟨uri, h1, h3⟩

/-! ### The active channels -/

/-- Membership in a key list after an insertion. -/
theorem mem_insertKey (x k : String) (ks : List String) :
    x ∈ insertKey k ks ↔ x = k ∨ x ∈ ks := by
  unfold insertKey
  by_cases h : k ∈ ks
  · rw [if_pos h]
    constructor
    · exact fun hx => Or.inr hx
    · rintro (hx | hx)
      · rw [hx]; exact h
      · exact hx
  · rw [if_neg h, List.mem_append, List.mem_singleton]
    constructor
    · rintro (hx | hx)
      · exact Or.inr hx
      · exact Or.inl hx
    · rintro (hx | hx)
      · exact Or.inr hx
      · exact Or.inl hx

/-- An insertion keeps a key list free of duplicates. -/
theorem nodup_insertKey (k : String) (ks : List String) (h : ks.Nodup) :
    (insertKey k ks).Nodup := by
  unfold insertKey
  by_cases hk : k ∈ ks
  · rw [if_pos hk]; exact h
  · rw [if_neg hk]
    exact List.Nodup.append h (List.nodup_singleton k)
      (by
        intro a ha hb
        rw [List.mem_singleton] at hb
        exact hk (hb ▸ ha))

/-- Inserting a list of keys one by one. -/
theorem insertKey_fold (l : List String) (acc : List String) :
    (∀ x, x ∈ l.foldl (fun m c => insertKey c m) acc ↔ x ∈ acc ∨ x ∈ l) ∧
    (acc.Nodup → (l.foldl (fun m c => insertKey c m) acc).Nodup) := by
  induction l generalizing acc with
  | nil => simp
  | cons a l ih =>
    rw [List.foldl_cons]
    obtain ⟨h1, h2⟩ := ih (insertKey a acc)
    refine ⟨?_, fun hn => h2 (nodup_insertKey a acc hn)⟩
    intro x
    rw [h1, mem_insertKey, List.mem_cons]
    constructor
    · rintro ((h | h) | h)
      · exact Or.inr (Or.inl h)
      · exact Or.inl h
      · exact Or.inr (Or.inr h)
    · rintro (h | h | h)
      · exact Or.inl (Or.inr h)
      · exact Or.inl (Or.inl h)
      · exact Or.inr h

/-- Membership in a key list after an assignment. -/
theorem mem_assignKey (x k : String) (ks : List String) :
    x ∈ assignKey k ks ↔ (x = k ∧ k ≠ "__proto__") ∨ x ∈ ks := by
  unfold assignKey
  by_cases hk : k = "__proto__"
  · rw [if_pos hk]
    constructor
    · exact fun h => Or.inr h
    · rintro (⟨_, h⟩ | h)
      · exact absurd hk h
      · exact h
  · rw [if_neg hk, mem_insertKey]
    constructor
    · rintro (h | h)
      · exact Or.inl ⟨h, hk⟩
      · exact Or.inr h
    · rintro (⟨h, _⟩ | h)
      · exact Or.inl h
      · exact Or.inr h

/-- An assignment keeps a key list free of duplicates. -/
theorem nodup_assignKey (k : String) (ks : List String) (h : ks.Nodup) :
    (assignKey k ks).Nodup := by
  unfold assignKey
  split
  · exact h
  · exact nodup_insertKey k ks h

/-- The name `__proto__` is inherited. -/
theorem inherited_proto : inherited "__proto__" = true := by decide

/-- A name that is not inherited is assigned like any key. -/
theorem assignKey_of_not_inherited (k : String) (ks : List String) (hk : inherited k = false) :
    assignKey k ks = insertKey k ks := by
  unfold assignKey
  have hne : k ≠ "__proto__" := by
    intro h
    rw [h, inherited_proto] at hk
    cases hk
  rw [if_neg hne]

/-- The test `if (obj[k])`: an own key or an inherited name. -/
theorem truthyKey_eq_true (ks : List String) (k : String) :
    truthyKey ks k = true ↔ k ∈ ks ∨ inherited k = true := by
  unfold truthyKey
  simp

/-- Where the name is not inherited, the test `if (obj[k])` is the test for an
own key. -/
theorem truthyKey_of_not_inherited (ks : List String) (k : String) (hk : inherited k = false) :
    truthyKey ks k = true ↔ k ∈ ks := by
  rw [truthyKey_eq_true, hk]
  simp

/-- Assigning a list of keys one by one. -/
theorem assignKey_fold (l : List String) (acc : List String) :
    (∀ x, x ∈ l.foldl (fun m c => assignKey c m) acc ↔
      x ∈ acc ∨ (x ∈ l ∧ x ≠ "__proto__")) ∧
    (acc.Nodup → (l.foldl (fun m c => assignKey c m) acc).Nodup) := by
  induction l generalizing acc with
  | nil => simp
  | cons a l ih =>
    rw [List.foldl_cons]
    obtain ⟨h1, h2⟩ := ih (assignKey a acc)
    refine ⟨?_, fun hn => h2 (nodup_assignKey a acc hn)⟩
    intro x
    rw [h1, mem_assignKey, List.mem_cons]
    constructor
    · rintro ((⟨h, hp⟩ | h) | ⟨h, hp⟩)
      · exact Or.inr ⟨Or.inl h, by rw [h]; exact hp⟩
      · exact Or.inl h
      · exact Or.inr ⟨Or.inr h, hp⟩
    · rintro (h | ⟨h | h, hp⟩)
      · exact Or.inl (Or.inr h)
      · exact Or.inl (Or.inl ⟨h, by rw [← h]; exact hp⟩)
      · exact Or.inr ⟨h, hp⟩

/-- The order of `Object.keys` is a rearrangement of the own keys. -/
theorem objectKeys_perm (ks : List String) : (objectKeys ks).Perm ks := by
  unfold objectKeys
  have h1 := List.perm_insertionSort (fun a b : String => (arrayIndex a).getD 0 ≤ (arrayIndex b).getD 0)
    (ks.filter (fun k => (arrayIndex k).isSome))
  have h2 : ks.filter (fun k => (arrayIndex k).isNone) =
      ks.filter (fun k => !(arrayIndex k).isSome) := by
    apply List.filter_congr
    intro k _
    cases arrayIndex k <;> rfl
  rw [h2]
  exact (List.Perm.append_right _ h1).trans (List.filter_append_perm _ ks)

/-- A name is listed by `Object.keys` exactly when it is an own key. -/
theorem mem_objectKeys (ks : List String) (x : String) : x ∈ objectKeys ks ↔ x ∈ ks :=
  (objectKeys_perm ks).mem_iff

/-- The list of `Object.keys` has no duplicates when the own keys have none. -/
theorem nodup_objectKeys (ks : List String) (h : ks.Nodup) : (objectKeys ks).Nodup :=
  (objectKeys_perm ks).nodup_iff.mpr h

/-- The channels of the broker's bookkeeping, each once, but for the name
`__proto__`, which `channelMap[channelName] = true` does not store. -/
theorem getAllBrokerSubscriptions_spec (b : Broker) :
    (getAllBrokerSubscriptions b).Nodup ∧
    (∀ c, c ∈ getAllBrokerSubscriptions b ↔
      c ≠ "__proto__" ∧ ∃ w ∈ b.subscriptions, c ∈ w.2) := by
  unfold getAllBrokerSubscriptions
  have key : ∀ (l : List (String × List String)) (acc : List String),
      (acc.Nodup → (l.foldl (fun channelMap w =>
        w.2.foldl (fun m c => assignKey c m) channelMap) acc).Nodup) ∧
      (∀ c, c ∈ l.foldl (fun channelMap w =>
        w.2.foldl (fun m c => assignKey c m) channelMap) acc ↔
          c ∈ acc ∨ (c ≠ "__proto__" ∧ ∃ w ∈ l, c ∈ w.2)) := by
    intro l
    induction l with
    | nil => intro acc; simp
    | cons w l ih =>
      intro acc
      rw [List.foldl_cons]
      obtain ⟨h1, h2⟩ := ih (w.2.foldl (fun m c => assignKey c m) acc)
      obtain ⟨f1, f2⟩ := assignKey_fold w.2 acc
      refine ⟨fun hn => h1 (f2 hn), ?_⟩
      intro c
      rw [h2, f1]
      constructor
      · rintro ((h | ⟨h, hp⟩) | ⟨hp, w1, hw1, h⟩)
        · exact Or.inl h
        · exact Or.inr ⟨hp, w, List.mem_cons_self _ _, h⟩
        · exact Or.inr ⟨hp, w1, List.mem_cons_of_mem _ hw1, h⟩
      · rintro (h | ⟨hp, w1, hw1, h⟩)
        · exact Or.inl (Or.inl h)
        · rcases List.mem_cons.mp hw1 with rfl | hw
          · exact Or.inl (Or.inr ⟨h, hp⟩)
          · exact Or.inr ⟨hp, w1, hw, h⟩
  obtain ⟨h1, h2⟩ := key b.subscriptions []
  refine ⟨nodup_objectKeys _ (h1 List.nodup_nil), ?_⟩
  intro c
  rw [mem_objectKeys, h2]
  simp

/-- Appending the names of a list that a test does not hold for. -/
theorem append_uncovered_fold (p : String → Bool) (l : List String) (acc : List String) :
    (∀ x, x ∈ l.foldl (fun subs c => if p c then subs else subs ++ [c]) acc ↔
      x ∈ acc ∨ (x ∈ l ∧ p x = false)) ∧
    (acc.Nodup → l.Nodup → (∀ x ∈ l, x ∈ acc → p x = true) →
      (l.foldl (fun subs c => if p c then subs else subs ++ [c]) acc).Nodup) := by
  induction l generalizing acc with
  | nil => simp
  | cons a l ih =>
    rw [List.foldl_cons]
    by_cases ha : p a = true
    · rw [if_pos ha]
      obtain ⟨h1, h2⟩ := ih acc
      refine ⟨?_, ?_⟩
      · intro x
        rw [h1]
        constructor
        · rintro (h | ⟨h, hb⟩)
          · exact Or.inl h
          · exact Or.inr ⟨List.mem_cons_of_mem _ h, hb⟩
        · rintro (h | ⟨h, hb⟩)
          · exact Or.inl h
          · rcases List.mem_cons.mp h with rfl | h3
            · rw [ha] at hb; cases hb
            · exact Or.inr ⟨h3, hb⟩
      · intro hn hl hcov
        exact h2 hn (List.nodup_cons.mp hl).2
          (fun x hx hxa => hcov x (List.mem_cons_of_mem _ hx) hxa)
    · rw [if_neg ha]
      have haf : p a = false := by simpa using ha
      obtain ⟨h1, h2⟩ := ih (acc ++ [a])
      refine ⟨?_, ?_⟩
      · intro x
        rw [h1, List.mem_append, List.mem_singleton]
        constructor
        · rintro ((h | h) | ⟨h, hb⟩)
          · exact Or.inl h
          · exact Or.inr ⟨h ▸ List.mem_cons_self _ _, h ▸ haf⟩
          · exact Or.inr ⟨List.mem_cons_of_mem _ h, hb⟩
        · rintro (h | ⟨h, hb⟩)
          · exact Or.inl (Or.inl h)
          · rcases List.mem_cons.mp h with h3 | h3
            · exact Or.inl (Or.inr h3)
            · exact Or.inr ⟨h3, hb⟩
      · intro hn hl hcov
        have hna : a ∉ acc := fun h => ha (hcov a (List.mem_cons_self _ _) h)
        refine h2 ?_ (List.nodup_cons.mp hl).2 ?_
        · exact List.Nodup.append hn (List.nodup_singleton a)
            (by
              intro y hy hb
              rw [List.mem_singleton] at hb
              exact hna (hb ▸ hy))
        · intro x hx hxa
          rcases List.mem_append.mp hxa with h | h
          · exact hcov x (List.mem_cons_of_mem _ hx) h
          · rw [List.mem_singleton] at h
            exact absurd (h ▸ hx) (List.nodup_cons.mp hl).1

/-- Pushing the names of a list that `channelsLookup` does not yet read as
truthy: the names not inherited are added, each once. -/
theorem pushUnseen_fold (l : List String) (acc : List String) :
    (∀ x, x ∈ l.foldl (fun subs c => if truthyKey subs c then subs else subs ++ [c]) acc ↔
      x ∈ acc ∨ (x ∈ l ∧ inherited x = false)) ∧
    (acc.Nodup →
      (l.foldl (fun subs c => if truthyKey subs c then subs else subs ++ [c]) acc).Nodup) := by
  induction l generalizing acc with
  | nil => simp
  | cons a l ih =>
    rw [List.foldl_cons]
    by_cases ha : truthyKey acc a = true
    · rw [if_pos ha]
      obtain ⟨h1, h2⟩ := ih acc
      refine ⟨?_, h2⟩
      intro x
      rw [h1]
      constructor
      · rintro (h | ⟨h, hb⟩)
        · exact Or.inl h
        · exact Or.inr ⟨List.mem_cons_of_mem _ h, hb⟩
      · rintro (h | ⟨h, hb⟩)
        · exact Or.inl h
        · rcases List.mem_cons.mp h with rfl | h3
          · exact Or.inl ((truthyKey_of_not_inherited acc x hb).mp ha)
          · exact Or.inr ⟨h3, hb⟩
    · rw [if_neg ha]
      have hn : ¬ (a ∈ acc ∨ inherited a = true) := fun h => ha ((truthyKey_eq_true acc a).mpr h)
      have hna : a ∉ acc := fun h => hn (Or.inl h)
      have hni : inherited a = false := by
        cases hi : inherited a
        · rfl
        · exact absurd (Or.inr hi) hn
      obtain ⟨h1, h2⟩ := ih (acc ++ [a])
      refine ⟨?_, ?_⟩
      · intro x
        rw [h1, List.mem_append, List.mem_singleton]
        constructor
        · rintro ((h | h) | ⟨h, hb⟩)
          · exact Or.inl h
          · exact Or.inr ⟨h ▸ List.mem_cons_self _ _, h ▸ hni⟩
          · exact Or.inr ⟨List.mem_cons_of_mem _ h, hb⟩
        · rintro (h | ⟨h, hb⟩)
          · exact Or.inl (Or.inl h)
          · rcases List.mem_cons.mp h with h3 | h3
            · exact Or.inl (Or.inr h3)
            · exact Or.inr ⟨h3, hb⟩
      · intro hnd
        exact h2 (List.Nodup.append hnd (List.nodup_singleton a)
          (by
            intro y hy hb
            rw [List.mem_singleton] at hb
            exact hna (hb ▸ hy)))

/-- One pass of the visit of `getAllSubscriptions` over the clients of a
context. -/
theorem visit_fold (e : Engine) (cl : List String) (acc : List String × List String)
    (hinv : ∀ u ∈ acc.1, ∀ x ∈ (e.socket u).subscriberLookup, inherited x = false → x ∈ acc.2) :
    (∀ u ∈ (cl.foldl (fun (acc : List String × List String) (clientURI : String) =>
        if clientURI ∈ acc.1 then acc
        else (acc.1 ++ [clientURI],
          (e.socket clientURI).subscriberLookup.foldl
            (fun subs c => if truthyKey subs c then subs else subs ++ [c]) acc.2)) acc).1,
      ∀ x ∈ (e.socket u).subscriberLookup, inherited x = false →
        x ∈ (cl.foldl (fun (acc : List String × List String) (clientURI : String) =>
          if clientURI ∈ acc.1 then acc
          else (acc.1 ++ [clientURI],
            (e.socket clientURI).subscriberLookup.foldl
              (fun subs c => if truthyKey subs c then subs else subs ++ [c]) acc.2)) acc).2) ∧
    (∀ x, x ∈ (cl.foldl (fun (acc : List String × List String) (clientURI : String) =>
        if clientURI ∈ acc.1 then acc
        else (acc.1 ++ [clientURI],
          (e.socket clientURI).subscriberLookup.foldl
            (fun subs c => if truthyKey subs c then subs else subs ++ [c]) acc.2)) acc).2 ↔
      x ∈ acc.2 ∨ (inherited x = false ∧ ∃ u ∈ cl, x ∈ (e.socket u).subscriberLookup)) ∧
    (acc.2.Nodup →
      (cl.foldl (fun (acc : List String × List String) (clientURI : String) =>
        if clientURI ∈ acc.1 then acc
        else (acc.1 ++ [clientURI],
          (e.socket clientURI).subscriberLookup.foldl
            (fun subs c => if truthyKey subs c then subs else subs ++ [c]) acc.2)) acc).2.Nodup) := by
  induction cl generalizing acc with
  | nil => exact ⟨hinv, by simp, fun h => h⟩
  | cons u cl ih =>
    rw [List.foldl_cons]
    by_cases hu : u ∈ acc.1
    · rw [if_pos hu]
      obtain ⟨i1, i2, i3⟩ := ih acc hinv
      refine ⟨i1, ?_, i3⟩
      intro x
      rw [i2]
      constructor
      · rintro (h | ⟨hx, v, hv, h⟩)
        · exact Or.inl h
        · exact Or.inr ⟨hx, v, List.mem_cons_of_mem _ hv, h⟩
      · rintro (h | ⟨hx, v, hv, h⟩)
        · exact Or.inl h
        · rcases List.mem_cons.mp hv with rfl | hv1
          · exact Or.inl (hinv v hu x h hx)
          · exact Or.inr ⟨hx, v, hv1, h⟩
    · rw [if_neg hu]
      obtain ⟨f1, f2⟩ := pushUnseen_fold (e.socket u).subscriberLookup acc.2
      have hinv2 : ∀ v ∈ (acc.1 ++ [u],
          (e.socket u).subscriberLookup.foldl
            (fun subs c => if truthyKey subs c then subs else subs ++ [c]) acc.2).1,
          ∀ x ∈ (e.socket v).subscriberLookup, inherited x = false →
            x ∈ (acc.1 ++ [u],
              (e.socket u).subscriberLookup.foldl
                (fun subs c => if truthyKey subs c then subs else subs ++ [c]) acc.2).2 := by
        intro v hv x hx hi
        show x ∈ (e.socket u).subscriberLookup.foldl
          (fun subs c => if truthyKey subs c then subs else subs ++ [c]) acc.2
        rw [f1]
        rcases List.mem_append.mp hv with h | h
        · exact Or.inl (hinv v h x hx hi)
        · rw [List.mem_singleton.mp h] at hx; exact Or.inr ⟨hx, hi⟩
      obtain ⟨i1, i2, i3⟩ := ih _ hinv2
      refine ⟨i1, ?_, fun hn => i3 (f2 hn)⟩
      intro x
      rw [i2]
      show (x ∈ (e.socket u).subscriberLookup.foldl
        (fun subs c => if truthyKey subs c then subs else subs ++ [c]) acc.2 ∨ _) ↔ _
      rw [f1]
      constructor
      · rintro ((h | ⟨h, hx⟩) | ⟨hx, v, hv, h⟩)
        · exact Or.inl h
        · exact Or.inr ⟨hx, u, List.mem_cons_self _ _, h⟩
        · exact Or.inr ⟨hx, v, List.mem_cons_of_mem _ hv, h⟩
      · rintro (h | ⟨hx, v, hv, h⟩)
        · exact Or.inl (Or.inl h)
        · rcases List.mem_cons.mp hv with rfl | hv1
          · exact Or.inl (Or.inr ⟨h, hx⟩)
          · exact Or.inr ⟨hx, v, hv1, h⟩

/-- The visit of `getAllSubscriptions` over the sub contexts. -/
theorem visit_contexts_fold (e : Engine) (l : List SubMapperContext)
    (acc : List String × List String)
    (hinv : ∀ u ∈ acc.1, ∀ x ∈ (e.socket u).subscriberLookup, inherited x = false → x ∈ acc.2) :
    (∀ u ∈ (l.foldl (fun acc mc => mc.clients.foldl
        (fun (acc : List String × List String) (clientURI : String) =>
          if clientURI ∈ acc.1 then acc
          else (acc.1 ++ [clientURI],
            (e.socket clientURI).subscriberLookup.foldl
              (fun subs c => if truthyKey subs c then subs else subs ++ [c]) acc.2))
        acc) acc).1,
      ∀ x ∈ (e.socket u).subscriberLookup, inherited x = false →
        x ∈ (l.foldl (fun acc mc => mc.clients.foldl
          (fun (acc : List String × List String) (clientURI : String) =>
            if clientURI ∈ acc.1 then acc
            else (acc.1 ++ [clientURI],
              (e.socket clientURI).subscriberLookup.foldl
                (fun subs c => if truthyKey subs c then subs else subs ++ [c]) acc.2))
          acc) acc).2) ∧
    (∀ x, x ∈ (l.foldl (fun acc mc => mc.clients.foldl
        (fun (acc : List String × List String) (clientURI : String) =>
          if clientURI ∈ acc.1 then acc
          else (acc.1 ++ [clientURI],
            (e.socket clientURI).subscriberLookup.foldl
              (fun subs c => if truthyKey subs c then subs else subs ++ [c]) acc.2))
        acc) acc).2 ↔
      x ∈ acc.2 ∨ (inherited x = false ∧
        ∃ mc ∈ l, ∃ u ∈ mc.clients, x ∈ (e.socket u).subscriberLookup)) ∧
    (acc.2.Nodup →
      (l.foldl (fun acc mc => mc.clients.foldl
        (fun (acc : List String × List String) (clientURI : String) =>
          if clientURI ∈ acc.1 then acc
          else (acc.1 ++ [clientURI],
            (e.socket clientURI).subscriberLookup.foldl
              (fun subs c => if truthyKey subs c then subs else subs ++ [c]) acc.2))
        acc) acc).2.Nodup) := by
  induction l generalizing acc with
  | nil => exact ⟨hinv, by simp, fun h => h⟩
  | cons mc l ih =>
    rw [List.foldl_cons]
    obtain ⟨v1, v2, v3⟩ := visit_fold e mc.clients acc hinv
    obtain ⟨i1, i2, i3⟩ := ih _ v1
    refine ⟨i1, ?_, fun hn => i3 (v3 hn)⟩
    intro x
    rw [i2, v2]
    constructor
    · rintro ((h | ⟨hx, u, hu, h⟩) | ⟨hx, mc1, hmc1, u, hu, h⟩)
      · exact Or.inl h
      · exact Or.inr ⟨hx, mc, List.mem_cons_self _ _, u, hu, h⟩
      · exact Or.inr ⟨hx, mc1, List.mem_cons_of_mem _ hmc1, u, hu, h⟩
    · rintro (h | ⟨hx, mc1, hmc1, u, hu, h⟩)
      · exact Or.inl (Or.inl h)
      · rcases List.mem_cons.mp hmc1 with rfl | hm
        · exact Or.inl (Or.inr ⟨hx, u, hu, h⟩)
        · exact Or.inr ⟨hx, mc1, hm, u, hu, h⟩

/-- What `getAllSubscriptions` returns: a list without duplicates whose
elements are the channels that are not inherited names and are subscribed on a
connection that some sub context references or occur in the broker's
subscription bookkeeping. -/
theorem getAllSubscriptions_spec (e : Engine) :
    (getAllSubscriptions e).Nodup ∧
    (∀ c, c ∈ getAllSubscriptions e ↔
      inherited c = false ∧
      ((∃ mc ∈ e.subMappers, ∃ uri ∈ mc.clients, c ∈ (e.socket uri).subscriberLookup) ∨
        (∃ w ∈ e.broker.subscriptions, c ∈ w.2))) := by
  obtain ⟨_, v2, v3⟩ := visit_contexts_fold e e.subMappers ([], []) (by simp)
  obtain ⟨b1, b2⟩ := getAllBrokerSubscriptions_spec e.broker
  unfold getAllSubscriptions
  simp only []
  obtain ⟨a1, a2⟩ := append_uncovered_fold
    (truthyKey (e.subMappers.foldl (fun acc mc => mc.clients.foldl
        (fun (acc : List String × List String) (clientURI : String) =>
          if clientURI ∈ acc.1 then acc
          else (acc.1 ++ [clientURI],
            (e.socket clientURI).subscriberLookup.foldl
              (fun subs c => if truthyKey subs c then subs else subs ++ [c]) acc.2))
        acc) ([], [])).2)
    (getAllBrokerSubscriptions e.broker)
    (e.subMappers.foldl (fun acc mc => mc.clients.foldl
        (fun (acc : List String × List String) (clientURI : String) =>
          if clientURI ∈ acc.1 then acc
          else (acc.1 ++ [clientURI],
            (e.socket clientURI).subscriberLookup.foldl
              (fun subs c => if truthyKey subs c then subs else subs ++ [c]) acc.2))
        acc) ([], [])).2
  refine ⟨a2 (v3 List.nodup_nil) b1
    (fun x _ h => (truthyKey_eq_true _ x).mpr (Or.inl h)), ?_⟩
  intro c
  rw [a1, v2, b2]
  constructor
  · rintro ((h | ⟨hi, h⟩) | ⟨⟨_, h⟩, ht⟩)
    · simp at h
    · exact ⟨hi, Or.inl h⟩
    · have hn := Bool.eq_false_iff.mp ht
      rw [Ne, truthyKey_eq_true] at hn
      refine ⟨?_, Or.inr h⟩
      cases hi : inherited c
      · rfl
      · exact absurd (Or.inr hi) hn
  · rintro ⟨hi, h | h⟩
    · exact Or.inl (Or.inr ⟨hi, h⟩)
    · by_cases hc : ∃ mc ∈ e.subMappers, ∃ u ∈ mc.clients, c ∈ (e.socket u).subscriberLookup
      · exact Or.inl (Or.inr ⟨hi, hc⟩)
      · have hp : c ≠ "__proto__" := by
          intro hh
          rw [hh, inherited_proto] at hi
          cases hi
        refine Or.inr ⟨⟨hp, h⟩, ?_⟩
        cases ht : truthyKey _ c
        · rfl
        · exfalso
          rcases (truthyKey_eq_true _ c).mp ht with hh | hh
          · rw [v2] at hh
            rcases hh with hh | ⟨_, hh⟩
            · simp at hh
            · exact hc hh
          · rw [hi] at hh; cases hh

/-! ### Sockets after the elementary updates -/

/-- Reading a socket after one socket was replaced. -/
theorem socket_setSocket (e : Engine) (u : String) (s : Socket) (v : String) :
    (e.setSocket u s).socket v = if v = u then s else e.socket v := by
  have hfound : ∀ l : List (String × Socket), (l.any fun p => decide (p.1 = u)) = true →
      (l.map fun p => if p.1 = u then (u, s) else p).find? (fun p => decide (p.1 = u)) =
        some (u, s) := by
    intro l
    induction l with
    | nil => intro h; simp at h
    | cons a l ih =>
      intro h
      by_cases ha : a.1 = u
      · simp only [List.map_cons, ha, if_true, List.find?_cons, decide_True]
      · have h2 : (l.any fun p => decide (p.1 = u)) = true := by
          simpa [List.any_cons, ha] using h
        simp only [List.map_cons, ha, if_false, List.find?_cons, decide_False]
        exact ih h2
  have hother : ∀ l : List (String × Socket), v ≠ u →
      (l.map fun p => if p.1 = u then (u, s) else p).find? (fun p => decide (p.1 = v)) =
        l.find? (fun p => decide (p.1 = v)) := by
    intro l hv
    induction l with
    | nil => rfl
    | cons a l ih =>
      by_cases ha : a.1 = u
      · have hav : ¬ a.1 = v := fun h => hv (h ▸ ha)
        have huv : ¬ u = v := fun h => hv h.symm
        simp only [List.map_cons, ha, if_true, List.find?_cons, huv, hav, decide_False]
        exact ih
      · by_cases hav : a.1 = v
        · rw [List.map_cons, if_neg ha]
          simp only [List.find?_cons, hav, decide_True]
        · rw [List.map_cons, if_neg ha]
          simp only [List.find?_cons, hav, decide_False]
          exact ih
  have hnone : ∀ l : List (String × Socket), (l.any fun p => decide (p.1 = u)) = false →
      l.find? (fun p => decide (p.1 = u)) = none := by
    intro l
    induction l with
    | nil => intro _; rfl
    | cons a l ih =>
      intro h
      have ha : ¬ a.1 = u := by
        intro hh; simp [List.any_cons, hh] at h
      have h2 : (l.any fun p => decide (p.1 = u)) = false := by
        simpa [List.any_cons, ha] using h
      simp only [List.find?_cons, ha, decide_False]
      exact ih h2
  unfold Engine.socket Engine.setSocket
  by_cases hany : (e.sockets.any fun p => decide (p.1 = u)) = true
  · rw [if_pos hany]
    by_cases hv : v = u
    · rw [if_pos hv, hv]
      show Option.getD (Option.map Prod.snd
        ((e.sockets.map fun p => if p.1 = u then (u, s) else p).find?
          (fun p => decide (p.1 = u)))) Socket.empty = s
      rw [hfound e.sockets hany]; rfl
    · rw [if_neg hv]
      show Option.getD (Option.map Prod.snd
        ((e.sockets.map fun p => if p.1 = u then (u, s) else p).find?
          (fun p => decide (p.1 = v)))) Socket.empty = _
      rw [hother e.sockets hv]
  · rw [if_neg hany]
    have hany2 := Bool.eq_false_iff.mpr hany
    show Option.getD (Option.map Prod.snd
      ((e.sockets ++ [(u, s)]).find? (fun p => decide (p.1 = v)))) Socket.empty = _
    rw [List.find?_append]
    by_cases hv : v = u
    · rw [if_pos hv, hv, hnone e.sockets hany2]
      simp
    · rw [if_neg hv]
      have huv : ¬ u = v := fun h => hv h.symm
      cases hf : e.sockets.find? (fun p => decide (p.1 = v)) with
      | none => simp [huv]
      | some p => simp

/-- Emitting an effect leaves the sockets alone. -/
@[simp] theorem socket_emit (e : Engine) (x : Effect) (v : String) :
    (e.emit x).socket v = e.socket v := rfl

/-- Changing a sub context leaves the sockets alone. -/
@[simp] theorem socket_updateSub (e : Engine) (i : Nat)
    (f : SubMapperContext → SubMapperContext) (v : String) :
    (e.updateSub i f).socket v = e.socket v := rfl

/-- The sockets after `_subscribeWithMapperContext`: the target socket holds the
channel and gets a watcher for it unless it has one; the others are untouched. -/
theorem socket_subscribeWithMapperContext (e : Engine) (self : Nat) (mc : MapperContext)
    (x : String) (v : String) :
    (subscribeWithMapperContext e self mc x).socket v =
      if mc.targetClient x = some v then
        { subscriberLookup := insertKey x (e.socket v).subscriberLookup,
          watcherLookup :=
            if (e.socket v).watcherLookup.count x = 0 then (e.socket v).watcherLookup ++ [x]
            else (e.socket v).watcherLookup }
      else e.socket v := by
  unfold subscribeWithMapperContext
  cases ht : mc.targetClient x with
  | none => simp
  | some u =>
    simp only []
    by_cases hw : (e.socket u).watcherLookup.count x = 0
    · rw [if_pos hw]
      rw [socket_setSocket]
      by_cases hv : v = u
      · subst hv
        simp [socket_setSocket, hw]
      · have : ¬ u = v := fun h => hv h.symm
        simp [socket_setSocket, hv, this]
    · rw [if_neg hw]
      by_cases hv : v = u
      · subst hv
        simp [socket_setSocket, hw]
      · have : ¬ u = v := fun h => hv h.symm
        simp [socket_setSocket, hv, this]

/-- The sockets after `_unsubscribeWithMapperContext`: a socket either is
untouched or loses the channel and its watchers. -/
theorem socket_unsubscribeWithMapperContext (e : Engine) (self : Option Nat)
    (mc : MapperContext) (x : String) (v : String) :
    (unsubscribeWithMapperContext e self mc x).socket v = e.socket v ∨
    (unsubscribeWithMapperContext e self mc x).socket v =
      { subscriberLookup := removeKey x (e.socket v).subscriberLookup,
        watcherLookup := removeKey x (e.socket v).watcherLookup } := by
  unfold unsubscribeWithMapperContext
  cases ht : mc.targetClient x with
  | none => cases self <;> exact Or.inl rfl
  | some u =>
    cases self with
    | none =>
      simp only []
      split
      · exact Or.inl rfl
      · rw [socket_setSocket]
        by_cases hv : v = u
        · subst hv; right; simp
        · left; simp [hv]
    | some i =>
      simp only []
      split
      · exact Or.inl rfl
      · rw [socket_setSocket]
        by_cases hv : v = u
        · subst hv; right; simp
        · left; simp [hv]

/-! ### A pushed sub context takes over the active channels -/

/-- The connections made by `_mapperPush` leave every socket as it is. -/
theorem socket_mapperPush (e : Engine) (mapper : Mapper) (targetURIs : List String)
    (v : String) : (mapperPush e mapper targetURIs).1.socket v = e.socket v := by
  have key : ∀ (l : List String) (acc : Engine × List String),
      (l.foldl connectTarget acc).1.socket v = acc.1.socket v := by
    intro l
    induction l with
    | nil => intro acc; rfl
    | cons u l ih =>
      intro acc
      rw [List.foldl_cons, ih]
      show ((acc.1.emit (Effect.connect u)).setSocket u (acc.1.socket u)).socket v = _
      rw [socket_setSocket]
      by_cases hv : v = u
      · rw [if_pos hv, hv]
      · rw [if_neg hv]; rfl
  exact key targetURIs (e, [])

/-- Subscribing a channel through the context at the last position, when its
target client is found, records the channel in that context. -/
theorem subscribeWithMapperContext_last_record (e : Engine) (old : List SubMapperContext)
    (c : SubMapperContext) (mc : MapperContext) (x u : String)
    (hsub : e.subMappers = old ++ [c]) (ht : mc.targetClient x = some u) :
    (subscribeWithMapperContext e old.length mc x).subMappers =
      old ++ [{ c with subscriptions := assignKey x c.subscriptions }] := by
  unfold subscribeWithMapperContext
  rw [ht]
  simp only []
  split <;> simp [hsub, modify_length_append_singleton]

/-- Subscribing a list of channels through the context at the last position,
which finds a target client for every channel: every channel of the list but
`__proto__` is recorded in the context, every channel of the list is subscribed
on its target socket, and what was recorded or subscribed before stays. -/
theorem subscribe_fold_last (mc : MapperContext) (old : List SubMapperContext)
    (hfind : ∀ x, ∃ u, mc.targetClient x = some u)
    (L : List String) (acc : Engine) (c0 : SubMapperContext)
    (hsub : acc.subMappers = old ++ [c0]) :
    ∃ c1 : SubMapperContext,
      (L.foldl (fun a x => subscribeWithMapperContext a old.length mc x) acc).subMappers =
        old ++ [c1] ∧
      (∀ x, (x ∈ c0.subscriptions ∨ (x ∈ L ∧ x ≠ "__proto__")) → x ∈ c1.subscriptions) ∧
      (∀ x v, (x ∈ (acc.socket v).subscriberLookup ∨ (x ∈ L ∧ mc.targetClient x = some v)) →
        x ∈ ((L.foldl (fun a x => subscribeWithMapperContext a old.length mc x) acc).socket
          v).subscriberLookup) := by
  induction L generalizing acc c0 with
  | nil =>
    refine ⟨c0, hsub, ?_, ?_⟩
    · rintro x (h | ⟨h, _⟩)
      · exact h
      · cases h
    · rintro x v (h | ⟨h, _⟩)
      · exact h
      · cases h
  | cons a L ih =>
    rw [List.foldl_cons]
    obtain ⟨u, hu⟩ := hfind a
    have hrec := subscribeWithMapperContext_last_record acc old c0 mc a u hsub hu
    obtain ⟨c1, h1, h2, h3⟩ := ih (subscribeWithMapperContext acc old.length mc a) _ hrec
    refine ⟨c1, h1, ?_, ?_⟩
    · rintro x (h | ⟨h, hp⟩)
      · exact h2 x (Or.inl ((mem_assignKey x a c0.subscriptions).mpr (Or.inr h)))
      · rcases List.mem_cons.mp h with rfl | h4
        · exact h2 x (Or.inl ((mem_assignKey x x c0.subscriptions).mpr (Or.inl ⟨rfl, hp⟩)))
        · exact h2 x (Or.inr ⟨h4, hp⟩)
    · intro x v hx
      have hstep := socket_subscribeWithMapperContext acc old.length mc a v
      rcases hx with h | ⟨h, hv⟩
      · apply h3 x v
        left
        rw [hstep]
        split
        · exact (mem_insertKey x a _).mpr (Or.inr h)
        · exact h
      · rcases List.mem_cons.mp h with rfl | h4
        · apply h3 x v
          left
          rw [hstep, if_pos hv]
          exact (mem_insertKey x x _).mpr (Or.inl rfl)
        · exact h3 x v (Or.inr ⟨h4, hv⟩)

/-- What `subMapperPush(serverMapper, E)` does for the active channels when
`E` is non-empty: the new context is the last of `subMappers`, and every
channel that is not an inherited name and is active in the state before the
push (subscribed on a connection of a sub context, or held by the local broker)
has a subscription record in the new context and is subscribed on the
connection that `serverMapper` selects for it in `E`. -/
theorem subMapperPush_subscribes_active (e : Engine) (E : List String) (hE : E ≠ []) :
    ∃ ctx : SubMapperContext,
      (subMapperPush e serverMapper E).subMappers = e.subMappers ++ [ctx] ∧
      ∀ c, inherited c = false →
        ((∃ mc ∈ e.subMappers, ∃ uri ∈ mc.clients, c ∈ (e.socket uri).subscriberLookup) ∨
          (∃ w ∈ e.broker.subscriptions, c ∈ w.2)) →
        c ∈ ctx.subscriptions ∧
        ∃ uri, serverMapper c E = some uri ∧ uri ∈ E ∧
          c ∈ ((subMapperPush e serverMapper E).socket uri).subscriberLookup := by
  obtain ⟨m1, _, m3, m4, m5, m6⟩ := mapperPush_spec e serverMapper E
  have hfind : ∀ x, ∃ u, (mapperPush e serverMapper E).2.targetClient x = some u := by
    intro x
    obtain ⟨u, _, hu⟩ := targetClient_of_nonempty e E hE x
    exact ⟨u, hu⟩
  -- the engine right after the context is appended
  have hsub1 : ({ (mapperPush e serverMapper E).1 with
      subMappers := (mapperPush e serverMapper E).1.subMappers ++
        [{ toMapperContext := (mapperPush e serverMapper E).2, subscriptions := [] }] } :
        Engine).subMappers =
      e.subMappers ++ [{ toMapperContext := (mapperPush e serverMapper E).2,
                         subscriptions := [] }] := by
    show (mapperPush e serverMapper E).1.subMappers ++ _ = _
    rw [m1]
  obtain ⟨c1, h1, h2, h3⟩ := subscribe_fold_last (mapperPush e serverMapper E).2 e.subMappers
    hfind
    (getAllSubscriptions { (mapperPush e serverMapper E).1 with
      subMappers := (mapperPush e serverMapper E).1.subMappers ++
        [{ toMapperContext := (mapperPush e serverMapper E).2, subscriptions := [] }] })
    _ _ hsub1
  refine ⟨c1, h1, ?_⟩
  intro c hi hc
  have hp : c ≠ "__proto__" := by
    intro hh
    rw [hh, inherited_proto] at hi
    cases hi
  -- an active channel before the push is one after the context is appended
  have hc1 : c ∈ getAllSubscriptions { (mapperPush e serverMapper E).1 with
      subMappers := (mapperPush e serverMapper E).1.subMappers ++
        [{ toMapperContext := (mapperPush e serverMapper E).2, subscriptions := [] }] } := by
    rw [(getAllSubscriptions_spec _).2]
    refine ⟨hi, ?_⟩
    rcases hc with ⟨mc, hmc, uri, huri, hx⟩ | hb
    · left
      refine ⟨mc, ?_, uri, huri, ?_⟩
      · rw [hsub1]; exact List.mem_append_left _ hmc
      · show c ∈ ((mapperPush e serverMapper E).1.socket uri).subscriberLookup
        rw [socket_mapperPush]; exact hx
    · right
      show ∃ w ∈ (mapperPush e serverMapper E).1.broker.subscriptions, c ∈ w.2
      rw [m3]; exact hb
  obtain ⟨uri, hmem, huri⟩ := targetClient_of_nonempty e E hE c
  have hres : serverMapper c E = some uri := by
    unfold MapperContext.targetClient MapperContext.resolve at huri
    rw [m4, m5] at huri
    cases hs : serverMapper c E with
    | none => rw [hs] at huri; cases huri
    | some w =>
      rw [hs] at huri
      simp only [] at huri
      split at huri
      · exact huri
      · cases huri
  exact ⟨h2 c (Or.inr ⟨hc1, hp⟩), uri, hres, hmem, h3 c uri (Or.inr ⟨hc1, huri⟩)⟩

/-! ### The set of connections follows the contexts -/

@[simp] theorem Engine.emit_targetClients (e : Engine) (x : Effect) :
    (e.emit x).targetClients = e.targetClients := rfl

@[simp] theorem Engine.setSocket_targetClients (e : Engine) (u : String) (s : Socket) :
    (e.setSocket u s).targetClients = e.targetClients := by
  unfold Engine.setSocket; split <;> rfl

@[simp] theorem Engine.updateSub_targetClients (e : Engine) (i : Nat)
    (f : SubMapperContext → SubMapperContext) :
    (e.updateSub i f).targetClients = e.targetClients := rfl

/-- The keys of `targetClients` after the connections of `_mapperPush`. -/
theorem targetClients_mapperPush (e : Engine) (mapper : Mapper) (targetURIs : List String) :
    ∀ u, u ∈ (mapperPush e mapper targetURIs).1.targetClients ↔
      u ∈ e.targetClients ∨ u ∈ targetURIs := by
  have key : ∀ (l : List String) (acc : Engine × List String) (u : String),
      u ∈ (l.foldl connectTarget acc).1.targetClients ↔ u ∈ acc.1.targetClients ∨ u ∈ l := by
    intro l
    induction l with
    | nil => intro acc u; simp
    | cons a l ih =>
      intro acc u
      rw [List.foldl_cons, ih]
      have hstep : (connectTarget acc a).1.targetClients = insertKey a acc.1.targetClients := by
        simp [connectTarget]
      rw [hstep, mem_insertKey, List.mem_cons]
      constructor
      · rintro ((h | h) | h)
        · exact Or.inr (Or.inl h)
        · exact Or.inl h
        · exact Or.inr (Or.inr h)
      · rintro (h | h | h)
        · exact Or.inl (Or.inr h)
        · exact Or.inl (Or.inl h)
        · exact Or.inr h
  exact key targetURIs (e, [])

/-- Subscribing through a context changes neither `targetClients` nor the
clients of any sub context. -/
theorem subscribeWithMapperContext_clients (e : Engine) (self : Nat) (mc : MapperContext)
    (x : String) :
    (subscribeWithMapperContext e self mc x).targetClients = e.targetClients ∧
    (subscribeWithMapperContext e self mc x).subMappers.map (fun c => c.clients) =
      e.subMappers.map (fun c => c.clients) ∧
    (subscribeWithMapperContext e self mc x).pubMappers = e.pubMappers := by
  have hmod : ∀ (l : List SubMapperContext) (i : Nat) (f : SubMapperContext → SubMapperContext),
      (∀ c, (f c).clients = c.clients) →
      (l.modify f i).map (fun c => c.clients) = l.map (fun c => c.clients) := by
    intro l
    induction l with
    | nil => intro i f _; simp
    | cons a l ih =>
      intro i f hf
      cases i with
      | zero => simp [hf]
      | succ n => simp [List.modify_succ_cons, ih n f hf]
  unfold subscribeWithMapperContext
  cases mc.targetClient x with
  | none => exact ⟨rfl, rfl, rfl⟩
  | some u =>
    simp only []
    split
    · refine ⟨by simp, ?_, by simp⟩
      simp only [Engine.setSocket_subMappers, Engine.emit_subMappers, Engine.updateSub_subMappers]
      exact hmod _ _ _ (fun _ => rfl)
    · refine ⟨by simp, ?_, by simp⟩
      simp only [Engine.setSocket_subMappers, Engine.emit_subMappers, Engine.updateSub_subMappers]
      exact hmod _ _ _ (fun _ => rfl)

/-- Unsubscribing through a context changes neither `targetClients` nor the
clients of any sub context. -/
theorem unsubscribeWithMapperContext_clients (e : Engine) (self : Option Nat)
    (mc : MapperContext) (x : String) :
    (unsubscribeWithMapperContext e self mc x).targetClients = e.targetClients ∧
    (unsubscribeWithMapperContext e self mc x).subMappers.map (fun c => c.clients) =
      e.subMappers.map (fun c => c.clients) ∧
    (unsubscribeWithMapperContext e self mc x).pubMappers = e.pubMappers := by
  have hmod : ∀ (l : List SubMapperContext) (i : Nat) (f : SubMapperContext → SubMapperContext),
      (∀ c, (f c).clients = c.clients) →
      (l.modify f i).map (fun c => c.clients) = l.map (fun c => c.clients) := by
    intro l
    induction l with
    | nil => intro i f _; simp
    | cons a l ih =>
      intro i f hf
      cases i with
      | zero => simp [hf]
      | succ n => simp [List.modify_succ_cons, ih n f hf]
  unfold unsubscribeWithMapperContext
  cases self with
  | none =>
    simp only []
    cases mc.targetClient x with
    | none => exact ⟨rfl, rfl, rfl⟩
    | some u =>
      simp only []
      split
      · exact ⟨rfl, rfl, rfl⟩
      · exact ⟨by simp, by simp, by simp⟩
  | some i =>
    simp only []
    cases mc.targetClient x with
    | none => exact ⟨rfl, hmod _ _ _ (fun _ => rfl), rfl⟩
    | some u =>
      simp only []
      split
      · exact ⟨rfl, hmod _ _ _ (fun _ => rfl), rfl⟩
      · refine ⟨by simp, ?_, by simp⟩
        simp only [Engine.setSocket_subMappers, Engine.emit_subMappers,
          Engine.updateSub_subMappers]
        exact hmod _ _ _ (fun _ => rfl)

/-- The cleanup keeps exactly the keys of `targetClients` that some context of
either sequence has in its clients map. -/
theorem targetClients_cleanup (e : Engine) :
    ∀ u, u ∈ (cleanupUnusedTargetSockets e).targetClients ↔
      u ∈ e.targetClients ∧
        u ∈ (e.subMappers.map (fun mc => mc.clients)).flatten ++
          (e.pubMappers.map (fun mc => mc.clients)).flatten := by
  have key : ∀ (req l : List String) (acc : Engine) (u : String),
      u ∈ (l.foldl (fun acc targetURI =>
        if targetURI ∈ req then acc
        else
          let a := (acc.emit (Effect.disconnect targetURI)).setSocket targetURI
            { acc.socket targetURI with subscriberLookup := [] }
          { a with targetClients := removeKey targetURI a.targetClients }) acc).targetClients ↔
        u ∈ acc.targetClients ∧ (u ∈ req ∨ u ∉ l) := by
    intro req l
    induction l with
    | nil => intro acc u; simp
    | cons a l ih =>
      intro acc u
      rw [List.foldl_cons, ih]
      by_cases ha : a ∈ req
      · rw [if_pos ha]
        constructor
        · rintro ⟨h1, h2⟩
          refine ⟨h1, ?_⟩
          rcases h2 with h | h
          · exact Or.inl h
          · by_cases hua : u = a
            · exact Or.inl (hua ▸ ha)
            · exact Or.inr (fun hm => (List.mem_cons.mp hm).elim hua h)
        · rintro ⟨h1, h2⟩
          refine ⟨h1, ?_⟩
          rcases h2 with h | h
          · exact Or.inl h
          · exact Or.inr (fun hm => h (List.mem_cons_of_mem _ hm))
      · rw [if_neg ha]
        simp only [Engine.setSocket_targetClients, Engine.emit_targetClients, removeKey,
          List.mem_filter, decide_eq_true_eq, ne_eq, decide_not, Bool.not_eq_true',
          decide_eq_false_iff_not]
        constructor
        · rintro ⟨⟨h1, hne⟩, h2⟩
          refine ⟨h1, ?_⟩
          rcases h2 with h | h
          · exact Or.inl h
          · exact Or.inr (fun hm => (List.mem_cons.mp hm).elim hne h)
        · rintro ⟨h1, h2⟩
          rcases h2 with h | h
          · exact ⟨⟨h1, fun hua => ha (hua ▸ h)⟩, Or.inl h⟩
          · exact ⟨⟨h1, fun hua => h (hua ▸ List.mem_cons_self _ _)⟩,
              Or.inr (fun hm => h (List.mem_cons_of_mem _ hm))⟩
  intro u
  unfold cleanupUnusedTargetSockets
  simp only []
  rw [key]
  constructor
  · rintro ⟨h1, h2⟩
    rcases h2 with h | h
    · exact ⟨h1, h⟩
    · exact absurd h1 h
  · rintro ⟨h1, h2⟩
    exact ⟨h1, Or.inl h2⟩

/-- After the cleanup, `targetClients` holds exactly the clients of the
contexts, provided it held at least those before. -/
theorem cleanup_targetClients_iff (e : Engine)
    (hsup : ∀ u, ((∃ mc ∈ e.subMappers, u ∈ mc.clients) ∨ (∃ mc ∈ e.pubMappers, u ∈ mc.clients)) →
      u ∈ e.targetClients) :
    ∀ u, u ∈ (cleanupUnusedTargetSockets e).targetClients ↔
      ((∃ mc ∈ (cleanupUnusedTargetSockets e).subMappers, u ∈ mc.clients) ∨
        (∃ mc ∈ (cleanupUnusedTargetSockets e).pubMappers, u ∈ mc.clients)) := by
  obtain ⟨c1, c2, _⟩ := cleanupUnusedTargetSockets_spec e
  intro u
  rw [c1, c2, targetClients_cleanup]
  have hreq : u ∈ (e.subMappers.map (fun mc => mc.clients)).flatten ++
      (e.pubMappers.map (fun mc => mc.clients)).flatten ↔
      ((∃ mc ∈ e.subMappers, u ∈ mc.clients) ∨ (∃ mc ∈ e.pubMappers, u ∈ mc.clients)) := by
    simp only [List.mem_append, List.mem_flatten, List.mem_map]
    constructor
    · rintro (⟨l, ⟨mc, hmc, rfl⟩, hu⟩ | ⟨l, ⟨mc, hmc, rfl⟩, hu⟩)
      · exact Or.inl ⟨mc, hmc, hu⟩
      · exact Or.inr ⟨mc, hmc, hu⟩
    · rintro (⟨mc, hmc, hu⟩ | ⟨mc, hmc, hu⟩)
      · exact Or.inl ⟨_, ⟨mc, hmc, rfl⟩, hu⟩
      · exact Or.inr ⟨_, ⟨mc, hmc, rfl⟩, hu⟩
  rw [hreq]
  constructor
  · exact fun h => h.2
  · exact fun h => ⟨hsup u h, h⟩

/-- Some sub context has the URI among its clients: a property of the list of
client maps only. -/
theorem exists_sub_client_iff (l : List SubMapperContext) (u : String) :
    (∃ mc ∈ l, u ∈ mc.clients) ↔ ∃ cl ∈ l.map (fun c => c.clients), u ∈ cl := by
  simp only [List.mem_map]
  constructor
  · rintro ⟨mc, hmc, hu⟩; exact ⟨_, ⟨mc, hmc, rfl⟩, hu⟩
  · rintro ⟨cl, ⟨mc, hmc, rfl⟩, hu⟩; exact ⟨mc, hmc, hu⟩

/-- C14: in every state that pushes, shifts, subscribes, unsubscribes and
publishes reach from a new client, a URI is a key of `targetClients` exactly
when some context in `subMappers` or `pubMappers` has it in its clients map. -/
theorem targetClients_iff_referenced (e : Engine) (hr : Reachable e) :
    ∀ u, u ∈ e.targetClients ↔
      ((∃ mc ∈ e.subMappers, u ∈ mc.clients) ∨ (∃ mc ∈ e.pubMappers, u ∈ mc.clients)) := by
  induction hr with
  | create b => intro u; simp [Engine.create]
  | subMapperPush e mapper targetURIs _ ih =>
    intro u
    obtain ⟨⟨c, hc, _, _, hk⟩, hp, _⟩ := subMapperPush_spec e mapper targetURIs
    have htc : (subMapperPush e mapper targetURIs).targetClients =
        (mapperPush e mapper targetURIs).1.targetClients := by
      unfold subMapperPush
      simp only []
      exact foldl_invariant
        (fun acc : Engine => acc.targetClients = (mapperPush e mapper targetURIs).1.targetClients)
        _ (fun acc x h => (subscribeWithMapperContext_clients acc _ _ x).1.trans h) _ _ rfl
    rw [htc, targetClients_mapperPush, hc, hp, ih u]
    constructor
    · rintro ((⟨mc, hmc, h⟩ | h) | h)
      · exact Or.inl ⟨mc, List.mem_append_left _ hmc, h⟩
      · exact Or.inr h
      · exact Or.inl ⟨c, List.mem_append_right _ (List.mem_singleton.mpr rfl), (hk u).mpr h⟩
    · rintro (⟨mc, hmc, h⟩ | h)
      · rcases List.mem_append.mp hmc with h1 | h1
        · exact Or.inl (Or.inl ⟨mc, h1, h⟩)
        · rw [List.mem_singleton.mp h1] at h
          exact Or.inr ((hk u).mp h)
      · exact Or.inl (Or.inr h)
  | pubMapperPush e mapper targetURIs _ ih =>
    intro u
    obtain ⟨⟨c, hc, _, _, hk⟩, hs, _⟩ := pubMapperPush_spec e mapper targetURIs
    have htc : (pubMapperPush e mapper targetURIs).targetClients =
        (mapperPush e mapper targetURIs).1.targetClients := rfl
    rw [htc, targetClients_mapperPush, hc, hs, ih u]
    constructor
    · rintro ((h | ⟨mc, hmc, h⟩) | h)
      · exact Or.inl h
      · exact Or.inr ⟨mc, List.mem_append_left _ hmc, h⟩
      · exact Or.inr ⟨c, List.mem_append_right _ (List.mem_singleton.mpr rfl), (hk u).mpr h⟩
    · rintro (h | ⟨mc, hmc, h⟩)
      · exact Or.inl (Or.inl h)
      · rcases List.mem_append.mp hmc with h1 | h1
        · exact Or.inl (Or.inr ⟨mc, h1, h⟩)
        · rw [List.mem_singleton.mp h1] at h
          exact Or.inr ((hk u).mp h)
  | subMapperShift e e1 _ hshift ih =>
    unfold subMapperShift at hshift
    simp only [] at hshift
    cases hl : e.subMappers with
    | nil =>
      rw [hl] at hshift
      simp only [] at hshift
      split at hshift
      · rw [← Option.some.inj hshift]
        exact cleanup_targetClients_iff e (fun u h => (ih u).mpr h)
      · cases hshift
    | cons c rest =>
      rw [hl] at hshift
      simp only [] at hshift
      rw [← Option.some.inj hshift]
      apply cleanup_targetClients_iff
      have key := foldl_invariant
        (fun acc : Engine => acc.targetClients = e.targetClients ∧
          acc.subMappers.map (fun c => c.clients) = rest.map (fun c => c.clients) ∧
          acc.pubMappers = e.pubMappers)
        (fun acc x => unsubscribeWithMapperContext acc none c.toMapperContext x)
        (by
          rintro acc x ⟨h1, h2, h3⟩
          obtain ⟨u1, u2, u3⟩ := unsubscribeWithMapperContext_clients acc none c.toMapperContext x
          exact ⟨u1.trans h1, u2.trans h2, u3.trans h3⟩)
        (getAllSubscriptions e) { e with subMappers := rest } ⟨rfl, rfl, rfl⟩
      obtain ⟨k1, k2, k3⟩ := key
      intro u hu
      rw [k1, ih u, hl]
      rcases hu with h | h
      · rw [exists_sub_client_iff, k2, ← exists_sub_client_iff] at h
        obtain ⟨mc, hmc, hx⟩ := h
        exact Or.inl ⟨mc, List.mem_cons_of_mem _ hmc, hx⟩
      · rw [k3] at h; exact Or.inr h
  | pubMapperShift e _ ih =>
    unfold pubMapperShift
    apply cleanup_targetClients_iff
    intro u hu
    show u ∈ e.targetClients
    rw [ih u]
    rcases hu with h | ⟨mc, hmc, hx⟩
    · exact Or.inl h
    · exact Or.inr ⟨mc, List.mem_of_mem_tail hmc, hx⟩
  | subscribe e channelName _ ih =>
    intro u
    have key := foldl_invariant
      (fun acc : Engine => acc.targetClients = e.targetClients ∧
        acc.subMappers.map (fun c => c.clients) = e.subMappers.map (fun c => c.clients) ∧
        acc.pubMappers = e.pubMappers)
      (fun acc (p : Nat × SubMapperContext) =>
        subscribeWithMapperContext acc p.1 p.2.toMapperContext channelName)
      (by
        rintro acc p ⟨h1, h2, h3⟩
        obtain ⟨u1, u2, u3⟩ := subscribeWithMapperContext_clients acc p.1 p.2.toMapperContext
          channelName
        exact ⟨u1.trans h1, u2.trans h2, u3.trans h3⟩)
      e.subMappers.enum e ⟨rfl, rfl, rfl⟩
    obtain ⟨k1, k2, k3⟩ := key
    show u ∈ (e.subMappers.enum.foldl _ e).targetClients ↔
      ((∃ mc ∈ (e.subMappers.enum.foldl _ e).subMappers, u ∈ mc.clients) ∨
        (∃ mc ∈ (e.subMappers.enum.foldl _ e).pubMappers, u ∈ mc.clients))
    rw [k1, k3, exists_sub_client_iff, k2, ← exists_sub_client_iff]
    exact ih u
  | unsubscribe e channelName _ ih =>
    intro u
    have key := foldl_invariant
      (fun acc : Engine => acc.targetClients = e.targetClients ∧
        acc.subMappers.map (fun c => c.clients) = e.subMappers.map (fun c => c.clients) ∧
        acc.pubMappers = e.pubMappers)
      (fun acc (p : Nat × SubMapperContext) =>
        unsubscribeWithMapperContext acc (some p.1) p.2.toMapperContext channelName)
      (by
        rintro acc p ⟨h1, h2, h3⟩
        obtain ⟨u1, u2, u3⟩ := unsubscribeWithMapperContext_clients acc (some p.1)
          p.2.toMapperContext channelName
        exact ⟨u1.trans h1, u2.trans h2, u3.trans h3⟩)
      e.subMappers.enum e ⟨rfl, rfl, rfl⟩
    obtain ⟨k1, k2, k3⟩ := key
    show u ∈ (e.subMappers.enum.foldl _ e).targetClients ↔
      ((∃ mc ∈ (e.subMappers.enum.foldl _ e).subMappers, u ∈ mc.clients) ∨
        (∃ mc ∈ (e.subMappers.enum.foldl _ e).pubMappers, u ∈ mc.clients))
    rw [k1, k3, exists_sub_client_iff, k2, ← exists_sub_client_iff]
    exact ih u
  | publish e channelName data _ ih =>
    intro u
    rw [show publish e channelName data = _ from publish_fold e.pubMappers e channelName data]
    exact ih u
  | brokerChange e b _ ih => exact ih

/-! ### One watcher per connection and channel -/

/-- The cleanup leaves the watchers of every socket as they are. -/
theorem watchers_cleanup (e : Engine) (v : String) :
    ((cleanupUnusedTargetSockets e).socket v).watcherLookup = (e.socket v).watcherLookup := by
  unfold cleanupUnusedTargetSockets
  simp only []
  apply foldl_invariant (fun acc : Engine =>
    (acc.socket v).watcherLookup = (e.socket v).watcherLookup)
  · intro acc u h
    split
    · exact h
    · show (((acc.emit (Effect.disconnect u)).setSocket u
        { acc.socket u with subscriberLookup := [] }).socket v).watcherLookup = _
      rw [socket_setSocket]
      by_cases hv : v = u
      · rw [if_pos hv]
        show (acc.socket u).watcherLookup = _
        rw [← hv]; exact h
      · rw [if_neg hv]; exact h
  · rfl

/-- Subscribing through a context keeps every watcher count at most one, never
lowers one, and leaves the target socket with a watcher for the channel. -/
theorem watchers_subscribeWithMapperContext (e : Engine) (self : Nat) (mc : MapperContext)
    (x : String) (v ch : String) :
    (((e.socket v).watcherLookup.count ch ≤ 1 →
      ((subscribeWithMapperContext e self mc x).socket v).watcherLookup.count ch ≤ 1) ∧
    (e.socket v).watcherLookup.count ch ≤
      ((subscribeWithMapperContext e self mc x).socket v).watcherLookup.count ch) ∧
    (mc.targetClient x = some v →
      1 ≤ ((subscribeWithMapperContext e self mc x).socket v).watcherLookup.count x) := by
  rw [socket_subscribeWithMapperContext]
  by_cases ht : mc.targetClient x = some v
  · rw [if_pos ht]
    simp only []
    by_cases hw : (e.socket v).watcherLookup.count x = 0
    · rw [if_pos hw]
      refine ⟨⟨?_, ?_⟩, fun _ => ?_⟩
      · intro h
        rw [List.count_append]
        by_cases hch : ch = x
        · subst hch; simp [hw]
        · have : List.count ch [x] = 0 := by
            rw [List.count_eq_zero]; simp [hch]
          omega
      · rw [List.count_append]; omega
      · rw [List.count_append]; simp
    · rw [if_neg hw]
      exact ⟨⟨fun h => h, le_refl _⟩, fun _ => by omega⟩
  · rw [if_neg ht]
    exact ⟨⟨fun h => h, le_refl _⟩, fun h => absurd h ht⟩

/-- Unsubscribing through a context never raises a watcher count. -/
theorem watchers_unsubscribeWithMapperContext (e : Engine) (self : Option Nat)
    (mc : MapperContext) (x : String) (v ch : String) :
    ((unsubscribeWithMapperContext e self mc x).socket v).watcherLookup.count ch ≤
      (e.socket v).watcherLookup.count ch := by
  rcases socket_unsubscribeWithMapperContext e self mc x v with h | h
  · rw [h]
  · rw [h]
    exact List.Sublist.count_le (List.filter_sublist _) ch

/-- C12: in every state that the operations of the client reach from a new
client, each connection has at most one watcher registered per channel; and
right after `subscribe` of a channel, every connection that some sub context
resolves the channel to has exactly one watcher for it, however many contexts
resolve the channel to that connection. -/
theorem watcher_at_most_one (e : Engine) (hr : Reachable e) :
    (∀ v ch, (e.socket v).watcherLookup.count ch ≤ 1) ∧
    (∀ x v, (∃ mc ∈ e.subMappers, mc.targetClient x = some v) →
      ((subscribe e x).socket v).watcherLookup.count x = 1) := by
  have hinv : ∀ e : Engine, Reachable e → ∀ v ch, (e.socket v).watcherLookup.count ch ≤ 1 := by
    intro e hr
    induction hr with
    | create b => intro v ch; simp [Engine.create, Engine.socket, Socket.empty]
    | subMapperPush e mapper targetURIs _ ih =>
      intro v ch
      unfold subMapperPush
      simp only []
      apply foldl_invariant (fun acc : Engine => (acc.socket v).watcherLookup.count ch ≤ 1)
      · intro acc x h
        exact (watchers_subscribeWithMapperContext acc _ _ x v ch).1.1 h
      · show ((mapperPush e mapper targetURIs).1.socket v).watcherLookup.count ch ≤ 1
        rw [socket_mapperPush]; exact ih v ch
    | pubMapperPush e mapper targetURIs _ ih =>
      intro v ch
      show ((mapperPush e mapper targetURIs).1.socket v).watcherLookup.count ch ≤ 1
      rw [socket_mapperPush]; exact ih v ch
    | subMapperShift e e1 _ hshift ih =>
      intro v ch
      unfold subMapperShift at hshift
      simp only [] at hshift
      cases hl : e.subMappers with
      | nil =>
        rw [hl] at hshift
        simp only [] at hshift
        split at hshift
        · rw [← Option.some.inj hshift, watchers_cleanup]; exact ih v ch
        · cases hshift
      | cons c rest =>
        rw [hl] at hshift
        simp only [] at hshift
        rw [← Option.some.inj hshift, watchers_cleanup]
        apply foldl_invariant (fun acc : Engine => (acc.socket v).watcherLookup.count ch ≤ 1)
        · intro acc x h
          exact le_trans (watchers_unsubscribeWithMapperContext acc none _ x v ch) h
        · exact ih v ch
    | pubMapperShift e _ ih =>
      intro v ch
      unfold pubMapperShift
      rw [watchers_cleanup]; exact ih v ch
    | subscribe e channelName _ ih =>
      intro v ch
      unfold subscribe
      apply foldl_invariant (fun acc : Engine => (acc.socket v).watcherLookup.count ch ≤ 1)
      · intro acc p h
        exact (watchers_subscribeWithMapperContext acc _ _ channelName v ch).1.1 h
      · exact ih v ch
    | unsubscribe e channelName _ ih =>
      intro v ch
      unfold unsubscribe
      apply foldl_invariant (fun acc : Engine => (acc.socket v).watcherLookup.count ch ≤ 1)
      · intro acc p h
        exact le_trans (watchers_unsubscribeWithMapperContext acc _ _ channelName v ch) h
      · exact ih v ch
    | publish e channelName data _ ih =>
      intro v ch
      rw [show publish e channelName data = _ from publish_fold e.pubMappers e channelName data]
      exact ih v ch
    | brokerChange e b _ ih => exact ih
  refine ⟨hinv e hr, ?_⟩
  rintro x v ⟨mc, hmc, ht⟩
  have hle := hinv (subscribe e x) (Reachable.subscribe e x hr) v x
  have hge : ∀ (l : List (Nat × SubMapperContext)) (acc : Engine),
      (∃ p ∈ l, p.2.targetClient x = some v) →
      1 ≤ ((l.foldl (fun acc p => subscribeWithMapperContext acc p.1 p.2.toMapperContext x)
        acc).socket v).watcherLookup.count x := by
    intro l
    induction l with
    | nil => rintro acc ⟨p, hp, _⟩; cases hp
    | cons a l ih =>
      rintro acc ⟨p, hp, hpt⟩
      rw [List.foldl_cons]
      rcases List.mem_cons.mp hp with rfl | hp1
      · have h1 := (watchers_subscribeWithMapperContext acc p.1 p.2.toMapperContext x v x).2 hpt
        exact foldl_invariant
          (fun a : Engine => 1 ≤ (a.socket v).watcherLookup.count x) _
          (fun a q hq => le_trans hq
            (watchers_subscribeWithMapperContext a q.1 q.2.toMapperContext x v x).1.2) l _ h1
      · exact ih _ ⟨p, hp1, hpt⟩
  have hex : ∃ p ∈ e.subMappers.enum, p.2.targetClient x = some v := by
    obtain ⟨i, hi, hget⟩ := List.mem_iff_getElem.mp hmc
    refine ⟨(i, mc), ?_, ht⟩
    rw [List.mk_mem_enum_iff_getElem?, List.getElem?_eq_getElem hi, hget]
  have := hge e.subMappers.enum e hex
  unfold subscribe
  unfold subscribe at hle
  omega

/-! ### Load balance on the channels `a0` … `a99` -/

/-- None of the channel names `a0` … `a99` is a numeric literal. -/
theorem channelNames_nonNumeric :
    ∀ c ∈ channelNames, stringToNumber (utf16 c.data) = JSNumber.nan := by
  decide

/-- C18: for the channel names `a0` … `a99` and any two-element endpoint list,
the number of channels the mapper assigns to the first endpoint and the number
it assigns to the second differ by less than `10` (10% of the `100` channels);
with two different endpoints each gets exactly `50`. -/
theorem channel_names_balanced (x y : String) :
    (((channelNames.filter (fun c => decide (serverMapper c [x, y] = some x))).length : Int) -
      ((channelNames.filter (fun c => decide (serverMapper c [x, y] = some y))).length :
        Int)).natAbs < 10 ∧
    (x ≠ y →
      (channelNames.filter (fun c => decide (serverMapper c [x, y] = some x))).length = 50 ∧
      (channelNames.filter (fun c => decide (serverMapper c [x, y] = some y))).length = 50) := by
  have hidx : ∀ c ∈ channelNames, serverMapper c [x, y] =
      [x, y].get? ((rollingHash (utf16 c.data).tail).natAbs % 2) := fun c hc =>
    serverMapper_of_nonNumeric c [x, y] (channelNames_nonNumeric c hc) (by simp)
  have hcount : x ≠ y →
      (channelNames.filter (fun c => decide (serverMapper c [x, y] = some x))).length = 50 ∧
      (channelNames.filter (fun c => decide (serverMapper c [x, y] = some y))).length = 50 := by
    intro hxy
    have hyx : ¬ y = x := fun h => hxy h.symm
    have h0 : channelNames.filter (fun c => decide (serverMapper c [x, y] = some x)) =
        channelNames.filter
          (fun c => decide ((rollingHash (utf16 c.data).tail).natAbs % 2 = 0)) := by
      apply List.filter_congr
      intro c hc
      rw [hidx c hc]
      rcases Nat.mod_two_eq_zero_or_one (rollingHash (utf16 c.data).tail).natAbs with h | h
      · rw [h]; simp
      · rw [h]; simp [hyx]
    have h1 : channelNames.filter (fun c => decide (serverMapper c [x, y] = some y)) =
        channelNames.filter
          (fun c => decide ((rollingHash (utf16 c.data).tail).natAbs % 2 = 1)) := by
      apply List.filter_congr
      intro c hc
      rw [hidx c hc]
      rcases Nat.mod_two_eq_zero_or_one (rollingHash (utf16 c.data).tail).natAbs with h | h
      · rw [h]; simp [hxy]
      · rw [h]; simp
    rw [h0, h1]
    exact ⟨by decide, by decide⟩
  refine ⟨?_, hcount⟩
  by_cases hxy : x = y
  · subst hxy; simp
  · obtain ⟨a, b⟩ := hcount hxy
    rw [a, b]; decide

/-- The state `sampleShared` is reached by two pushes and a subscribe. -/
theorem sampleShared_reachable : Reachable sampleShared :=
  Reachable.subscribe _ _
    (Reachable.subMapperPush _ _ _ (Reachable.subMapperPush _ _ _ (Reachable.create _)))

/-- Two contexts resolve `x` to `ws://a:1`: that socket has one watcher for `x`. -/
theorem watcher_at_most_one_witness :
    sampleShared.subMappers.length = 2 ∧
    (sampleShared.socket "ws://a:1").watcherLookup.count "x" ≤ 1 :=
  ⟨by decide, (watcher_at_most_one sampleShared sampleShared_reachable).1 "ws://a:1" "x"⟩

/-- In `sampleShared` the only connection is the one both contexts reference. -/
theorem targetClients_iff_referenced_witness :
    "ws://a:1" ∈ sampleShared.targetClients ↔
      ((∃ mc ∈ sampleShared.subMappers, "ws://a:1" ∈ mc.clients) ∨
        (∃ mc ∈ sampleShared.pubMappers, "ws://a:1" ∈ mc.clients)) :=
  targetClients_iff_referenced sampleShared sampleShared_reachable "ws://a:1"

/-- The channel `x`, held by the broker while no endpoint was known, is
subscribed on `ws://a:1` once a context is pushed for that endpoint. -/
theorem subMapperPush_subscribes_active_witness :
    samplePending.log = [Effect.error "x", Effect.error "x"] ∧
    "x" ∈ ((subMapperPush samplePending serverMapper ["ws://a:1"]).socket
      "ws://a:1").subscriberLookup := by
  refine ⟨by decide, ?_⟩
  obtain ⟨ctx, _, hall⟩ := subMapperPush_subscribes_active samplePending ["ws://a:1"] (by decide)
  obtain ⟨_, uri, _, hmem, hs⟩ := hall "x" (by decide) (Or.inr (by decide))
  rw [List.mem_singleton.mp hmem] at hs
  exact hs

/-! ### The mapper's index, the context of a push, and ignored packets -/

/-- C25: for every channel name (the empty name, numeric names and names whose
hash is `-2^31` included) and every non-empty endpoint list, the index
`Math.abs(hash) % length` that `serverMapper` computes is a whole number `k`
with `k < length`, and the value returned is the element at `k`, a member of
the list. -/
theorem serverMapper_index_in_range (channelName : String) (E : List String) (hE : E ≠ []) :
    ∃ k : Nat, k < E.length ∧
      jsRem (jsAbs (channelHash (utf16 channelName.data))) E.length = JSNumber.fin (k : Int) 1 ∧
      serverMapper channelName E = E.get? k ∧
      ∃ uri, serverMapper channelName E = some uri ∧ uri ∈ E := by
  have hlen : ¬ E.length = 0 := fun h => hE (List.length_eq_zero.mp h)
  obtain ⟨i, hi⟩ := channelHash_int (utf16 channelName.data)
  have hk : i.natAbs % E.length < E.length := Nat.mod_lt _ (by omega)
  have hrem : jsRem (jsAbs (channelHash (utf16 channelName.data))) E.length =
      JSNumber.fin ((i.natAbs % E.length : Nat) : Int) 1 := by
    rw [hi]
    show jsRem (JSNumber.fin (i.natAbs : Int) 1) E.length = _
    rw [jsRem_nat _ _ hlen]
  have hget : serverMapper channelName E = E.get? (i.natAbs % E.length) := by
    unfold serverMapper serverMapperUnits
    rw [hrem, jsIndex_nat]
  refine ⟨i.natAbs % E.length, hk, hrem, hget, E.get ⟨_, hk⟩, ?_, List.get_mem _ _ _⟩
  rw [hget, List.get?_eq_get hk]

/-- The mapper's index on the empty name, a numeric name and a long name. -/
theorem serverMapper_index_in_range_witness :
    ∃ k : Nat, k < ["ws://a:1", "ws://b:2", "ws://c:3"].length ∧
      jsRem (jsAbs (channelHash (utf16 "".data))) ["ws://a:1", "ws://b:2", "ws://c:3"].length =
        JSNumber.fin (k : Int) 1 ∧
      serverMapper "" ["ws://a:1", "ws://b:2", "ws://c:3"] =
        ["ws://a:1", "ws://b:2", "ws://c:3"].get? k ∧
      ∃ uri, serverMapper "" ["ws://a:1", "ws://b:2", "ws://c:3"] = some uri ∧
        uri ∈ ["ws://a:1", "ws://b:2", "ws://c:3"] :=
  serverMapper_index_in_range "" ["ws://a:1", "ws://b:2", "ws://c:3"] (by decide)

/-- A context without clients finds no target client. -/
theorem targetClient_no_clients (mc : MapperContext) (h : mc.clients = [])
    (channelName : String) : mc.targetClient channelName = none := by
  unfold MapperContext.targetClient
  cases mc.resolve channelName with
  | none => rfl
  | some uri => simp [h]

/-- Subscribing through the context at the last position adds at most the
channel to that context's records. -/
theorem subscribeWithMapperContext_last_subs (e : Engine) (old : List SubMapperContext)
    (c : SubMapperContext) (mc : MapperContext) (channelName : String)
    (hsub : e.subMappers = old ++ [c]) :
    ∃ subs : List String,
      (subscribeWithMapperContext e old.length mc channelName).subMappers =
        old ++ [{ c with subscriptions := subs }] ∧
      (∀ x ∈ subs, x ∈ c.subscriptions ∨ (x = channelName ∧ mc.targetClient x ≠ none)) := by
  cases ht : mc.targetClient channelName with
  | none =>
    refine ⟨c.subscriptions, ?_, fun x hx => Or.inl hx⟩
    unfold subscribeWithMapperContext
    rw [ht]
    simpa using hsub
  | some u =>
    refine ⟨assignKey channelName c.subscriptions,
      subscribeWithMapperContext_last_record e old c mc channelName u hsub ht, ?_⟩
    intro x hx
    rcases (mem_assignKey x channelName c.subscriptions).mp hx with ⟨h, _⟩ | h
    · subst h
      exact Or.inr ⟨rfl, by rw [ht]; simp⟩
    · exact Or.inl h

/-- Subscribing a list of channels through the context at the last position
records only channels of the list. -/
theorem subscribe_fold_last_subs (mc : MapperContext) (old : List SubMapperContext)
    (L : List String) (acc : Engine) (c0 : SubMapperContext)
    (hsub : acc.subMappers = old ++ [c0]) :
    ∃ subs : List String,
      (L.foldl (fun a x => subscribeWithMapperContext a old.length mc x) acc).subMappers =
        old ++ [{ c0 with subscriptions := subs }] ∧
      (∀ x ∈ subs, x ∈ c0.subscriptions ∨ (x ∈ L ∧ mc.targetClient x ≠ none)) := by
  induction L generalizing acc c0 with
  | nil => exact ⟨c0.subscriptions, hsub, fun x hx => Or.inl hx⟩
  | cons a L ih =>
    obtain ⟨s1, h1, h1'⟩ := subscribeWithMapperContext_last_subs acc old c0 mc a hsub
    obtain ⟨s2, h2, h2'⟩ := ih (subscribeWithMapperContext acc old.length mc a)
      { c0 with subscriptions := s1 } h1
    refine ⟨s2, h2, ?_⟩
    intro x hx
    rcases h2' x hx with h | ⟨h, hf⟩
    · rcases h1' x h with h | ⟨h, hf⟩
      · exact Or.inl h
      · exact Or.inr ⟨by rw [h]; exact List.mem_cons_self _ _, hf⟩
    · exact Or.inr ⟨List.mem_cons_of_mem _ h, hf⟩

/-- Where `breakDownURI` returns for every URI of `E`, the context
`_mapperPush` creates has targets `E` and a client map whose keys are exactly
the URIs of `E`; `pubMapperPush` appends it to `pubMappers` and `subMapperPush`
appends it to `subMappers`, with no record but those of active channels it
subscribed, and the earlier elements stay.  For the empty list the context has
no clients, no targets and (as a sub context) no subscription records. -/
theorem mapperPush_appends_context (e : Engine) (mapper : Mapper) (E : List String) :
    ((mapperPush e mapper E).2.targets = E ∧
      (∀ u, u ∈ (mapperPush e mapper E).2.clients ↔ u ∈ E)) ∧
    (pubMapperPush e mapper E).pubMappers = e.pubMappers ++ [(mapperPush e mapper E).2] ∧
    (∃ subs : List String,
      (subMapperPush e mapper E).subMappers =
        e.subMappers ++ [{ toMapperContext := (mapperPush e mapper E).2, subscriptions := subs }] ∧
      (∀ x ∈ subs, (mapperPush e mapper E).2.targetClient x ≠ none)) ∧
    (pubMapperPush e mapper []).pubMappers =
      e.pubMappers ++ [{ mapper := mapper, clients := [], targets := [] }] ∧
    (subMapperPush e mapper []).subMappers =
      e.subMappers ++ [{ mapper := mapper, clients := [], targets := [], subscriptions := [] }] := by
  obtain ⟨h1, h2, _, _, h5, h6⟩ := mapperPush_spec e mapper E
  have hsubs : ∀ E1 : List String, ∃ subs : List String,
      (subMapperPush e mapper E1).subMappers =
        e.subMappers ++ [{ toMapperContext := (mapperPush e mapper E1).2, subscriptions := subs }] ∧
      (∀ x ∈ subs, (mapperPush e mapper E1).2.targetClient x ≠ none) := by
    intro E1
    obtain ⟨g1, _⟩ := mapperPush_spec e mapper E1
    unfold subMapperPush
    simp only []
    obtain ⟨subs, hs, hs'⟩ := subscribe_fold_last_subs (mapperPush e mapper E1).2 e.subMappers
      (getAllSubscriptions
        { (mapperPush e mapper E1).1 with
          subMappers := (mapperPush e mapper E1).1.subMappers ++
            [{ toMapperContext := (mapperPush e mapper E1).2, subscriptions := [] }] })
      { (mapperPush e mapper E1).1 with
        subMappers := (mapperPush e mapper E1).1.subMappers ++
          [{ toMapperContext := (mapperPush e mapper E1).2, subscriptions := [] }] }
      { toMapperContext := (mapperPush e mapper E1).2, subscriptions := [] }
      (by rw [g1])
    refine ⟨subs, hs, ?_⟩
    intro x hx
    rcases hs' x hx with h | ⟨_, h⟩
    · cases h
    · exact h
  refine ⟨⟨h5, h6⟩, ?_, hsubs E, ?_, ?_⟩
  · unfold pubMapperPush
    simp only []
    rw [h2]
  · rfl
  · obtain ⟨subs, hs, hs'⟩ := hsubs []
    rw [hs]
    cases subs with
    | nil => rfl
    | cons x rest =>
      exact absurd (targetClient_no_clients (mapperPush e mapper []).2 rfl x)
        (hs' x (List.mem_cons_self _ _))

/-- Where `url.parse` gives every URI a host, the `forEach` of `_mapperPush`
comes to its end, having connected to each URI in turn. -/
theorem connectTargets_of_hosts (parse : String → ParsedURI) (targetURIs : List String)
    (acc : Engine × List String) (h : ∀ u ∈ targetURIs, (parse u).host ≠ none) :
    connectTargets parse targetURIs acc = (targetURIs.foldl connectTarget acc, true) := by
  induction targetURIs generalizing acc with
  | nil => rfl
  | cons u rest ih =>
    have hu := h u (List.mem_cons_self _ _)
    cases hh : (parse u).host with
    | none => exact absurd hh hu
    | some host =>
      have hb : ∃ o, breakDownURI parse u = some o := by
        unfold breakDownURI
        rw [hh]
        exact ⟨_, rfl⟩
      obtain ⟨o, ho⟩ := hb
      unfold connectTargets
      rw [ho]
      simp only []
      rw [ih _ (fun v hv => h v (List.mem_cons_of_mem _ hv)), List.foldl_cons]

/-- The `forEach` of `_mapperPush` leaves the two sequences as they are, and it
does not come to its end where `url.parse` gives some URI no host. -/
theorem connectTargets_frame (parse : String → ParsedURI) (targetURIs : List String)
    (acc : Engine × List String) :
    (connectTargets parse targetURIs acc).1.1.subMappers = acc.1.subMappers ∧
    (connectTargets parse targetURIs acc).1.1.pubMappers = acc.1.pubMappers ∧
    ((∃ u ∈ targetURIs, (parse u).host = none) →
      (connectTargets parse targetURIs acc).2 = false) := by
  induction targetURIs generalizing acc with
  | nil => exact ⟨rfl, rfl, fun ⟨u, hu, _⟩ => by cases hu⟩
  | cons u rest ih =>
    unfold connectTargets
    cases hh : (parse u).host with
    | none =>
      have hb : breakDownURI parse u = none := by
        unfold breakDownURI
        rw [hh]
      rw [hb]
      exact ⟨rfl, rfl, fun _ => rfl⟩
    | some host =>
      have hb : ∃ o, breakDownURI parse u = some o := by
        unfold breakDownURI
        rw [hh]
        exact ⟨_, rfl⟩
      obtain ⟨o, ho⟩ := hb
      rw [ho]
      simp only []
      obtain ⟨i1, i2, i3⟩ := ih (connectTarget acc u)
      obtain ⟨c1, c2, _, _⟩ := connectTarget_fold [u] acc.1 acc.2
      refine ⟨i1.trans c1, i2.trans c2, ?_⟩
      rintro ⟨v, hv, hvn⟩
      rcases List.mem_cons.mp hv with hv | hv
      · rw [hv, hh] at hvn
        cases hvn
      · exact i3 ⟨v, hv, hvn⟩

/-- On a list of URIs each of which `url.parse` gives a host for, the three
pushes return, and they are `mapperPush`, `subMapperPush` and
`pubMapperPush`. -/
theorem mapperPushChecked_of_hosts (parse : String → ParsedURI) (e : Engine) (mapper : Mapper)
    (targetURIs : List String) (h : ∀ u ∈ targetURIs, (parse u).host ≠ none) :
    mapperPushChecked parse e mapper targetURIs =
      ((mapperPush e mapper targetURIs).1, some (mapperPush e mapper targetURIs).2) ∧
    subMapperPushChecked parse e mapper targetURIs = (subMapperPush e mapper targetURIs, true) ∧
    pubMapperPushChecked parse e mapper targetURIs = (pubMapperPush e mapper targetURIs, true) := by
  have h1 : mapperPushChecked parse e mapper targetURIs =
      ((mapperPush e mapper targetURIs).1, some (mapperPush e mapper targetURIs).2) := by
    unfold mapperPushChecked mapperPush
    simp only []
    rw [connectTargets_of_hosts parse targetURIs (e, []) h]
    rfl
  refine ⟨h1, ?_, ?_⟩
  · unfold subMapperPushChecked
    rw [h1]
    rfl
  · unfold pubMapperPushChecked
    rw [h1]
    rfl

/-- On a list with a URI that `url.parse` gives no host for, `_mapperPush`
throws: no context is created and none is appended to either sequence. -/
theorem mapperPushChecked_throws (parse : String → ParsedURI) (e : Engine) (mapper : Mapper)
    (targetURIs : List String) (h : ∃ u ∈ targetURIs, (parse u).host = none) :
    (mapperPushChecked parse e mapper targetURIs).2 = none ∧
    subMapperPushChecked parse e mapper targetURIs =
      ((mapperPushChecked parse e mapper targetURIs).1, false) ∧
    pubMapperPushChecked parse e mapper targetURIs =
      ((mapperPushChecked parse e mapper targetURIs).1, false) ∧
    (mapperPushChecked parse e mapper targetURIs).1.subMappers = e.subMappers ∧
    (mapperPushChecked parse e mapper targetURIs).1.pubMappers = e.pubMappers := by
  obtain ⟨f1, f2, f3⟩ := connectTargets_frame parse targetURIs (e, [])
  have h2 : (mapperPushChecked parse e mapper targetURIs).2 = none := by
    unfold mapperPushChecked
    simp only []
    rw [f3 h]
    rfl
  have hpair : mapperPushChecked parse e mapper targetURIs =
      ((mapperPushChecked parse e mapper targetURIs).1, none) := by
    rw [← h2]
  refine ⟨h2, ?_, ?_, f1, f2⟩
  · unfold subMapperPushChecked
    rw [hpair]
  · unfold pubMapperPushChecked
    rw [hpair]

/-- The push of the list `["abc"]`, and of `["ws://a:1", "abc"]`, on a new
client: `breakDownURI` throws at `abc`, no context is created and neither
sequence grows; in the second list the connection to `ws://a:1` has been made
and filed before. -/
theorem mapperPush_throws_without_host :
    (mapperPushChecked sampleParse (Engine.create sampleBroker) serverMapper ["abc"]).2.isNone =
      true ∧
    (pubMapperPushChecked sampleParse (Engine.create sampleBroker) serverMapper ["abc"]).2 =
      false ∧
    (pubMapperPushChecked sampleParse (Engine.create sampleBroker) serverMapper
      ["abc"]).1.pubMappers.length = 0 ∧
    (subMapperPushChecked sampleParse (Engine.create sampleBroker) serverMapper ["abc"]).2 =
      false ∧
    (subMapperPushChecked sampleParse (Engine.create sampleBroker) serverMapper
      ["abc"]).1.subMappers.length = 0 ∧
    (pubMapperPushChecked sampleParse (Engine.create sampleBroker) serverMapper
      ["ws://a:1", "abc"]).2 = false ∧
    (pubMapperPushChecked sampleParse (Engine.create sampleBroker) serverMapper
      ["ws://a:1", "abc"]).1.pubMappers.length = 0 ∧
    (pubMapperPushChecked sampleParse (Engine.create sampleBroker) serverMapper
      ["ws://a:1", "abc"]).1.targetClients = ["ws://a:1"] ∧
    (pubMapperPushChecked sampleParse (Engine.create sampleBroker) serverMapper
      ["ws://a:1", "abc"]).1.log = [Effect.connect "ws://a:1"] := by
  decide

/-- C26: for every endpoint list `E` whose URIs `url.parse` each gives a host
for, `_mapperPush` returns and the context it creates has targets `E` and a
client map whose keys are exactly the URIs of `E`; `pubMapperPush` appends it
to `pubMappers` and `subMapperPush` appends it to `subMappers`, with no record
but those of active channels it subscribed, and the earlier elements stay.  For
the empty list the context has no clients, no targets and (as a sub context) no
subscription records. -/
theorem mapperPush_creates_context (parse : String → ParsedURI) (e : Engine) (mapper : Mapper)
    (E : List String) (hhost : ∀ u ∈ E, (parse u).host ≠ none) :
    (∃ mc : MapperContext,
      (mapperPushChecked parse e mapper E).2 = some mc ∧
      mc.mapper = mapper ∧ mc.targets = E ∧ (∀ u, u ∈ mc.clients ↔ u ∈ E) ∧
      (pubMapperPushChecked parse e mapper E).2 = true ∧
      (pubMapperPushChecked parse e mapper E).1.pubMappers = e.pubMappers ++ [mc] ∧
      (subMapperPushChecked parse e mapper E).2 = true ∧
      ∃ subs : List String,
        (subMapperPushChecked parse e mapper E).1.subMappers =
          e.subMappers ++ [{ toMapperContext := mc, subscriptions := subs }] ∧
        (∀ x ∈ subs, mc.targetClient x ≠ none)) ∧
    (pubMapperPushChecked parse e mapper []).2 = true ∧
    (pubMapperPushChecked parse e mapper []).1.pubMappers =
      e.pubMappers ++ [{ mapper := mapper, clients := [], targets := [] }] ∧
    (subMapperPushChecked parse e mapper []).2 = true ∧
    (subMapperPushChecked parse e mapper []).1.subMappers =
      e.subMappers ++ [{ mapper := mapper, clients := [], targets := [], subscriptions := [] }] := by
  obtain ⟨c1, c2, c3⟩ := mapperPushChecked_of_hosts parse e mapper E hhost
  obtain ⟨_, d2, d3⟩ := mapperPushChecked_of_hosts parse e mapper []
    (fun u hu => by cases hu)
  obtain ⟨⟨a1, a2⟩, a3, a4, a5, a6⟩ := mapperPush_appends_context e mapper E
  refine ⟨⟨(mapperPush e mapper E).2, ?_, rfl, a1, a2, ?_, ?_, ?_, ?_⟩, ?_, ?_, ?_, ?_⟩
  · rw [c1]
  · rw [c3]
  · rw [c3]; exact a3
  · rw [c2]
  · rw [c2]; exact a4
  · rw [d3]
  · rw [d3]; exact a5
  · rw [d2]
  · rw [d2]; exact a6

/-- The push of the two sample endpoints on a new client returns on both
sequences. -/
theorem mapperPush_creates_context_witness :
    (∀ u ∈ ["ws://a:1", "ws://b:1"], (sampleParse u).host ≠ none) ∧
      (pubMapperPushChecked sampleParse (Engine.create sampleBroker) serverMapper
        ["ws://a:1", "ws://b:1"]).2 = true ∧
      (subMapperPushChecked sampleParse (Engine.create sampleBroker) serverMapper
        ["ws://a:1", "ws://b:1"]).2 = true := by
  obtain ⟨⟨mc, _, _, _, _, h1, _, h2, _⟩, _⟩ := mapperPush_creates_context sampleParse
    (Engine.create sampleBroker) serverMapper ["ws://a:1", "ws://b:1"] (by decide)
  exact ⟨by decide, h1, h2⟩

/-- C27: a convergence broadcast whose state string is neither `updatedSubs:`
nor `updatedPubs:` followed by the serialisation of the current endpoint list
only answers the request: the sequences, the connections, the timers and the
reported states stay as they are. -/
theorem clientStatesConverge_ignores_other (st : Coordinator) (state : String)
    (hsubs : state ≠ "updatedSubs:" ++ jsonStringify st.serverInstances)
    (hpubs : state ≠ "updatedPubs:" ++ jsonStringify st.serverInstances) :
    clientStatesConverge st state = some { st with responses := st.responses + 1 } := by
  unfold clientStatesConverge
  rw [if_neg hsubs, if_neg hpubs]

/-- The echo of an `active` report and a report naming another snapshot are
ignored by a client that reported `updatedSubs`. -/
theorem clientStatesConverge_ignores_other_witness :
    clientStatesConverge sampleGrown "active:[\"ws://a:1\",\"ws://b:1\"]" =
        some { sampleGrown with responses := sampleGrown.responses + 1 } ∧
      clientStatesConverge sampleGrown "updatedSubs:[\"ws://a:1\"]" =
        some { sampleGrown with responses := sampleGrown.responses + 1 } :=
  ⟨clientStatesConverge_ignores_other sampleGrown _ (by decide) (by decide),
   clientStatesConverge_ignores_other sampleGrown _ (by decide) (by decide)⟩

/-- C28: a membership packet that fails the acceptance rule (its time is not
greater than the last accepted time, or its endpoint list serialises like the
last accepted one) only answers the request: `addNewSubMapping` leaves the
sequences, the connections, the stored snapshot and the reported states as they
are. -/
theorem addNewSubMapping_ignores_rejected (st : Coordinator) (data : UpdatePacket)
    (hrej : data.time ≤ st.latestSnapshotTime ∨
      jsonStringify data.serverInstances = st.latestServerInstancesSnapshot) :
    addNewSubMapping st data = { st with responses := st.responses + 1 } := by
  have hc : ¬ (data.time > st.latestSnapshotTime ∧
      jsonStringify data.serverInstances ≠ st.latestServerInstancesSnapshot) := by
    rintro ⟨h1, h2⟩
    rcases hrej with h | h
    · omega
    · exact h2 h
  unfold addNewSubMapping updateServerCluster
  simp only []
  rw [if_neg hc]
  simp

/-- A notification repeated with the accepted time, and a later one naming the
accepted endpoint list, are both ignored. -/
theorem addNewSubMapping_ignores_rejected_witness :
    addNewSubMapping sampleGrown sampleGrowth =
        { sampleGrown with responses := sampleGrown.responses + 1 } ∧
      addNewSubMapping sampleGrown { serverInstances := ["ws://a:1", "ws://b:1"], time := 9 } =
        { sampleGrown with responses := sampleGrown.responses + 1 } :=
  ⟨addNewSubMapping_ignores_rejected sampleGrown sampleGrowth (Or.inl (by decide)),
   addNewSubMapping_ignores_rejected sampleGrown _ (Or.inr (by decide))⟩

/-! ### The public unsubscribe when every context holds the channel -/

/-- Finding a target client is resolving to a key of the client map. -/
theorem targetClient_eq_some (mc : MapperContext) (x T : String) :
    mc.targetClient x = some T ↔ mc.resolve x = some T ∧ T ∈ mc.clients := by
  unfold MapperContext.targetClient
  cases mc.resolve x with
  | none => simp
  | some u =>
    by_cases hu : u ∈ mc.clients
    · simp only [hu, if_true, Option.some.injEq]
      constructor
      · intro h; subst h; exact ⟨rfl, hu⟩
      · exact fun h => h.1
    · simp only [hu, if_false]
      constructor
      · intro h; cases h
      · rintro ⟨h, h2⟩
        rw [Option.some.injEq] at h
        subst h
        exact absurd h2 hu

/-- Modifying the position right after a prefix. -/
theorem modify_length_append_cons {α : Type} (l : List α) (c : α) (r : List α) (f : α → α) :
    (l ++ c :: r).modify f l.length = l ++ f c :: r := by
  induction l with
  | nil => rfl
  | cons a l ih => simp [List.modify_succ_cons, ih]

/-- A removed key is no longer in the key list. -/
theorem not_mem_removeKey (x : String) (ks : List String) : x ∉ removeKey x ks := by
  unfold removeKey
  simp

/-- One step of the public `unsubscribe`, at the first context that still holds
the channel: the record is deleted, and the network unsubscribe is issued
unless a later context resolves the channel to the same connection. -/
theorem unsubscribe_step (acc : Engine) (pre : List SubMapperContext) (c : SubMapperContext)
    (rest : List SubMapperContext) (x T : String) (hx : inherited x = false)
    (hsub : acc.subMappers = pre ++ c :: rest)
    (hpre : ∀ c1 ∈ pre, x ∉ c1.subscriptions)
    (hrest : ∀ c1 ∈ rest, x ∈ c1.subscriptions ∧ ∃ T1, c1.targetClient x = some T1)
    (hT : c.targetClient x = some T) :
    (unsubscribeWithMapperContext acc (some pre.length) c.toMapperContext x).subMappers =
      (pre ++ [{ c with subscriptions := removeKey x c.subscriptions }]) ++ rest ∧
    ((∃ c1 ∈ rest, c1.targetClient x = some T) →
      (unsubscribeWithMapperContext acc (some pre.length) c.toMapperContext x).log = acc.log) ∧
    ((¬ ∃ c1 ∈ rest, c1.targetClient x = some T) →
      (unsubscribeWithMapperContext acc (some pre.length) c.toMapperContext x).log =
        acc.log ++ [Effect.unsubscribe T x, Effect.unwatch T x]) := by
  have hres : c.resolve x = some T := ((targetClient_eq_some _ x T).mp hT).1
  have hmod : (acc.updateSub pre.length
      (fun c => { c with subscriptions := removeKey x c.subscriptions })).subMappers =
      pre ++ { c with subscriptions := removeKey x c.subscriptions } :: rest := by
    rw [Engine.updateSub_subMappers, hsub, modify_length_append_cons]
  have hother : otherMappingHolds (acc.updateSub pre.length
      (fun c => { c with subscriptions := removeKey x c.subscriptions })) (some pre.length)
      (c.resolve x) x = true ↔ ∃ c1 ∈ rest, c1.targetClient x = some T := by
    rw [otherMappingHolds_iff, hmod]
    constructor
    · rintro ⟨j, cj, hget, hne, hr, hs⟩
      have hmem : cj ∈ pre ++ { c with subscriptions := removeKey x c.subscriptions } :: rest :=
        List.getElem?_mem hget
      rw [truthyKey_of_not_inherited _ _ hx] at hs
      rcases List.mem_append.mp hmem with h | h
      · exact absurd hs (hpre cj h)
      · rcases List.mem_cons.mp h with h | h
        · subst h
          exact absurd hs (not_mem_removeKey x c.subscriptions)
        · obtain ⟨_, T1, hT1⟩ := hrest cj h
          have h1 := (targetClient_eq_some _ x T1).mp hT1
          have : T1 = T := by
            have h2 : some T1 = some T := by rw [← h1.1, hr, hres]
            exact Option.some.inj h2
          subst this
          exact ⟨cj, h, hT1⟩
    · rintro ⟨c1, hmem, hT1⟩
      obtain ⟨k, hk⟩ := List.mem_iff_getElem?.mp hmem
      refine ⟨pre.length + (k + 1), c1, ?_, ?_, ?_,
        (truthyKey_of_not_inherited _ _ hx).mpr (hrest c1 hmem).1⟩
      · rw [List.getElem?_append_right (by omega)]
        simpa using hk
      · intro h
        rw [Option.some.injEq] at h
        omega
      · rw [((targetClient_eq_some _ x T).mp hT1).1, hres]
  unfold unsubscribeWithMapperContext
  simp only []
  rw [hT]
  simp only []
  by_cases ho : ∃ c1 ∈ rest, c1.targetClient x = some T
  · rw [if_pos (hother.mpr ho)]
    refine ⟨?_, fun _ => rfl, fun h => absurd ho h⟩
    rw [hmod]; simp
  · have hf : ¬ otherMappingHolds (acc.updateSub pre.length
        (fun c => { c with subscriptions := removeKey x c.subscriptions })) (some pre.length)
        (c.resolve x) x = true := fun h => ho (hother.mp h)
    rw [if_neg hf]
    refine ⟨?_, fun h => absurd h ho, fun _ => ?_⟩
    · simp only [Engine.setSocket_subMappers, Engine.emit_subMappers]
      rw [hmod]; simp
    · simp only [Engine.setSocket_log, Engine.emit_log, Engine.updateSub_log]
      simp

/-- The loop of the public `unsubscribe` over the contexts that still hold the
channel. -/
theorem unsubscribe_fold (x : String) (hx : inherited x = false)
    (rest : List SubMapperContext) :
    ∀ (pre : List SubMapperContext) (acc : Engine),
      acc.subMappers = pre ++ rest →
      (∀ c1 ∈ pre, x ∉ c1.subscriptions) →
      (∀ c1 ∈ rest, x ∈ c1.subscriptions ∧ ∃ T1, c1.targetClient x = some T1) →
      (∀ c1 ∈ ((rest.enumFrom pre.length).foldl
          (fun a p => unsubscribeWithMapperContext a (some p.1) p.2.toMapperContext x)
          acc).subMappers, x ∉ c1.subscriptions) ∧
      ∃ tail : List Effect,
        ((rest.enumFrom pre.length).foldl
          (fun a p => unsubscribeWithMapperContext a (some p.1) p.2.toMapperContext x)
          acc).log = acc.log ++ tail ∧
        (∀ T, (∃ c1 ∈ rest, c1.targetClient x = some T) →
          tail.count (Effect.unsubscribe T x) = 1) ∧
        (∀ T, (¬ ∃ c1 ∈ rest, c1.targetClient x = some T) →
          tail.count (Effect.unsubscribe T x) = 0) ∧
        (∀ eff ∈ tail, ∃ T, eff = Effect.unsubscribe T x ∨ eff = Effect.unwatch T x) := by
  induction rest with
  | nil =>
    intro pre acc hsub hpre _
    refine ⟨?_, [], by simp, ?_, ?_, ?_⟩
    · intro c1 hc1
      rw [List.enumFrom_nil, List.foldl_nil, hsub, List.append_nil] at hc1
      exact hpre c1 hc1
    · rintro T ⟨c1, h, _⟩; cases h
    · intro T _; rfl
    · intro eff h; cases h
  | cons c rest ih =>
    intro pre acc hsub hpre hrest
    obtain ⟨hcx, T, hT⟩ := hrest c (List.mem_cons_self _ _)
    have hrest1 : ∀ c1 ∈ rest, x ∈ c1.subscriptions ∧ ∃ T1, c1.targetClient x = some T1 :=
      fun c1 h => hrest c1 (List.mem_cons_of_mem _ h)
    obtain ⟨s1, s2, s3⟩ := unsubscribe_step acc pre c rest x T hx hsub hpre hrest1 hT
    have hpre1 : ∀ c1 ∈ pre ++ [{ c with subscriptions := removeKey x c.subscriptions }],
        x ∉ c1.subscriptions := by
      intro c1 h
      rcases List.mem_append.mp h with h | h
      · exact hpre c1 h
      · rw [List.mem_singleton] at h
        subst h
        exact not_mem_removeKey x c.subscriptions
    have hlen : (pre ++ [{ c with subscriptions := removeKey x c.subscriptions }]).length =
        pre.length + 1 := by simp
    obtain ⟨i1, tail, i2, i3, i4, i5⟩ := ih
      (pre ++ [{ c with subscriptions := removeKey x c.subscriptions }])
      (unsubscribeWithMapperContext acc (some pre.length) c.toMapperContext x) s1 hpre1 hrest1
    rw [hlen] at i1 i2
    rw [List.enumFrom_cons, List.foldl_cons]
    refine ⟨i1, ?_⟩
    by_cases ho : ∃ c1 ∈ rest, c1.targetClient x = some T
    · refine ⟨tail, ?_, ?_, ?_, i5⟩
      · rw [i2, s2 ho]
      · intro T1 _
        by_cases hT1 : ∃ c1 ∈ rest, c1.targetClient x = some T1
        · exact i3 T1 hT1
        · exfalso
          apply hT1
          rename_i h
          obtain ⟨c1, hm, hc1⟩ := h
          rcases List.mem_cons.mp hm with h | h
          · subst h
            rw [hT] at hc1
            rw [← Option.some.inj hc1]
            exact ho
          · exact ⟨c1, h, hc1⟩
      · intro T1 hT1
        exact i4 T1 (fun ⟨c1, hm, hc1⟩ => hT1 ⟨c1, List.mem_cons_of_mem _ hm, hc1⟩)
    · refine ⟨[Effect.unsubscribe T x, Effect.unwatch T x] ++ tail, ?_, ?_, ?_, ?_⟩
      · rw [i2, s3 ho, List.append_assoc]
      · intro T1 h
        obtain ⟨c1, hm, hc1⟩ := h
        rw [List.count_append]
        by_cases hTT : T1 = T
        · subst hTT
          rw [i4 T1 ho]
          simp [List.count_cons]
        · have hin : ∃ c1 ∈ rest, c1.targetClient x = some T1 := by
            rcases List.mem_cons.mp hm with h | h
            · subst h
              rw [hT] at hc1
              exact absurd (Option.some.inj hc1).symm hTT
            · exact ⟨c1, h, hc1⟩
          rw [i3 T1 hin]
          have hne : T ≠ T1 := fun h => hTT h.symm
          simp [List.count_cons, hne]
      · intro T1 hT1
        rw [List.count_append]
        have hne : T ≠ T1 := by
          intro h
          subst h
          exact hT1 ⟨c, List.mem_cons_self _ _, hT⟩
        rw [i4 T1 (fun ⟨c1, hm, hc1⟩ => hT1 ⟨c1, List.mem_cons_of_mem _ hm, hc1⟩)]
        simp [List.count_cons, hne]
      · intro eff h
        rcases List.mem_append.mp h with h | h
        · simp only [List.mem_cons, List.mem_singleton, List.not_mem_nil, or_false] at h
          rcases h with h | h
          · exact ⟨T, Or.inl h⟩
          · exact ⟨T, Or.inr h⟩
        · exact i5 eff h

/-- What the public `unsubscribe` does for a channel that is not an inherited
name, in an engine state where every sub context holds a subscription record
for the channel and resolves it to a connection of its client map: it issues
the network unsubscribe exactly once on each connection that some context
resolves the channel to and on no other connection, issues nothing else but the
matching unwatch, and leaves no sub context with a record for the channel. -/
theorem unsubscribe_once_per_connection (e : Engine) (x : String) (hx : inherited x = false)
    (hall : ∀ c ∈ e.subMappers, x ∈ c.subscriptions ∧ ∃ T, c.targetClient x = some T) :
    (∀ c ∈ (unsubscribe e x).subMappers, x ∉ c.subscriptions) ∧
    ∃ tail : List Effect,
      (unsubscribe e x).log = e.log ++ tail ∧
      (∀ T, (∃ c ∈ e.subMappers, c.targetClient x = some T) →
        tail.count (Effect.unsubscribe T x) = 1) ∧
      (∀ T, (¬ ∃ c ∈ e.subMappers, c.targetClient x = some T) →
        tail.count (Effect.unsubscribe T x) = 0) ∧
      (∀ eff ∈ tail, ∃ T, eff = Effect.unsubscribe T x ∨ eff = Effect.unwatch T x) := by
  have key := unsubscribe_fold x hx e.subMappers [] e (by simp) (by simp) hall
  simpa [unsubscribe, List.enum] using key

/-- Two sub contexts that share one connection and both hold `x`: one network
unsubscribe. -/
theorem unsubscribe_once_per_connection_witness :
    (∀ c ∈ sampleShared.subMappers,
        "x" ∈ c.subscriptions ∧ ∃ T, c.targetClient "x" = some T) ∧
      (∀ c ∈ (unsubscribe sampleShared "x").subMappers, "x" ∉ c.subscriptions) ∧
      ∃ tail : List Effect,
        (unsubscribe sampleShared "x").log = sampleShared.log ++ tail ∧
        (∀ T, (∃ c ∈ sampleShared.subMappers, c.targetClient "x" = some T) →
          tail.count (Effect.unsubscribe T "x") = 1) ∧
        (∀ T, (¬ ∃ c ∈ sampleShared.subMappers, c.targetClient "x" = some T) →
          tail.count (Effect.unsubscribe T "x") = 0) ∧
        (∀ eff ∈ tail, ∃ T, eff = Effect.unsubscribe T "x" ∨ eff = Effect.unwatch T "x") :=
  have h : ∀ c ∈ sampleShared.subMappers,
      "x" ∈ c.subscriptions ∧ ∃ T, c.targetClient "x" = some T := by
    intro c hc
    have hs : sampleShared.subMappers.map
        (fun c => (decide ("x" ∈ c.subscriptions), c.targetClient "x")) =
        [(true, some "ws://a:1"), (true, some "ws://a:1")] := by decide
    have := List.mem_map_of_mem (fun c => (decide ("x" ∈ c.subscriptions), c.targetClient "x")) hc
    rw [hs] at this
    simp only [List.mem_cons, Prod.mk.injEq, decide_eq_true_eq, List.mem_singleton,
      List.not_mem_nil, or_false, or_self] at this
    exact ⟨this.1, "ws://a:1", this.2⟩
  ⟨h, unsubscribe_once_per_connection sampleShared "x" (by decide) h⟩

/-! ### Subscription records are backed by issued subscribes -/

/-- An invariant of the accumulator survives a left fold whose steps may use
that their element is in the list. -/
theorem foldl_invariant_mem {α β : Type} (P : β → Prop) (f : β → α → β) (l : List α)
    (hf : ∀ b a, a ∈ l → P b → P (f b a)) (b : β) (hb : P b) : P (l.foldl f b) := by
  induction l generalizing b with
  | nil => exact hb
  | cons a l ih =>
    exact ih (fun b1 a1 h1 => hf b1 a1 (List.mem_cons_of_mem _ h1)) (f b a)
      (hf b a (List.mem_cons_self _ _) hb)

/-- An element of a list modified at one position is an old element or the
changed one. -/
theorem mem_modify {α : Type} (f : α → α) (l : List α) (i : Nat) (a : α)
    (h : a ∈ l.modify f i) : a ∈ l ∨ ∃ c, l[i]? = some c ∧ a = f c := by
  induction l generalizing i with
  | nil => simp at h
  | cons b l ih =>
    cases i with
    | zero =>
      rw [List.modify_zero_cons] at h
      rcases List.mem_cons.mp h with h | h
      · exact Or.inr ⟨b, by simp, h⟩
      · exact Or.inl (List.mem_cons_of_mem _ h)
    | succ n =>
      rw [List.modify_succ_cons] at h
      rcases List.mem_cons.mp h with h | h
      · exact Or.inl (h ▸ List.mem_cons_self _ _)
      · rcases ih n h with h | ⟨c, hc, hac⟩
        · exact Or.inl (List.mem_cons_of_mem _ h)
        · exact Or.inr ⟨c, by simpa using hc, hac⟩

/-- Mapping a list modified by a change that the mapped function does not see. -/
theorem map_modify_of_eq {α β : Type} (g : α → β) (f : α → α) (hf : ∀ c, g (f c) = g c)
    (l : List α) (i : Nat) : (l.modify f i).map g = l.map g := by
  induction l generalizing i with
  | nil => simp
  | cons a l ih =>
    cases i with
    | zero => simp [hf]
    | succ n => simp [List.modify_succ_cons, ih n]

/-- The records stay backed when the sub contexts stay and the log grows. -/
theorem RecordsIssued.of_same (e e1 : Engine) (hs : e1.subMappers = e.subMappers)
    (hl : ∀ eff ∈ e.log, eff ∈ e1.log) (h : RecordsIssued e) : RecordsIssued e1 := by
  intro c hc x hx
  rw [hs] at hc
  obtain ⟨T, h1, h2, h3⟩ := h c hc x hx
  exact ⟨T, h1, h2, hl _ h3⟩

/-- The connections of `_mapperPush` only add to the log. -/
theorem connectTarget_fold_log (targetURIs : List String) (e : Engine) (ks : List String) :
    ∀ eff ∈ e.log, eff ∈ (targetURIs.foldl connectTarget (e, ks)).1.log := by
  induction targetURIs generalizing e ks with
  | nil => exact fun eff h => h
  | cons a l ih =>
    intro eff h
    rw [List.foldl_cons]
    apply ih
    simp [connectTarget, h]

/-- The cleanup of unused sockets only adds to the log. -/
theorem cleanupUnusedTargetSockets_log (e : Engine) :
    ∀ eff ∈ e.log, eff ∈ (cleanupUnusedTargetSockets e).log := by
  unfold cleanupUnusedTargetSockets
  simp only []
  apply foldl_invariant (fun acc : Engine => ∀ eff ∈ e.log, eff ∈ acc.log)
  · intro acc u hacc eff h
    split
    · exact hacc eff h
    · simp [hacc eff h]
  · exact fun eff h => h

/-- Subscribing through a context only adds to the log. -/
theorem subscribeWithMapperContext_log (e : Engine) (self : Nat) (mc : MapperContext)
    (x : String) : ∀ eff ∈ e.log, eff ∈ (subscribeWithMapperContext e self mc x).log := by
  intro eff h
  unfold subscribeWithMapperContext
  cases mc.targetClient x with
  | none => simp [h]
  | some T =>
    simp only []
    split <;> simp [h]

/-- Unsubscribing through a context only adds to the log. -/
theorem unsubscribeWithMapperContext_log (e : Engine) (self : Option Nat) (mc : MapperContext)
    (x : String) : ∀ eff ∈ e.log, eff ∈ (unsubscribeWithMapperContext e self mc x).log := by
  intro eff h
  unfold unsubscribeWithMapperContext
  cases self <;> cases mc.targetClient x <;> simp only [] <;> (try split) <;> simp [h]

/-- Subscribing through the context at position `self` keeps the records
backed, and keeps every context's mapper, clients and targets. -/
theorem subscribeWithMapperContext_records (e : Engine) (self : Nat) (mc : MapperContext)
    (x : String) (hself : ∀ c, e.subMappers[self]? = some c → c.toMapperContext = mc)
    (h : RecordsIssued e) :
    RecordsIssued (subscribeWithMapperContext e self mc x) ∧
    (subscribeWithMapperContext e self mc x).subMappers.map (fun c => c.toMapperContext) =
      e.subMappers.map (fun c => c.toMapperContext) := by
  cases ht : mc.targetClient x with
  | none =>
    have he : subscribeWithMapperContext e self mc x = e.emit (Effect.error x) := by
      unfold subscribeWithMapperContext; rw [ht]
    rw [he]
    exact ⟨RecordsIssued.of_same e _ rfl (fun eff h1 => by simp [h1]) h, rfl⟩
  | some T =>
    have hsubs : (subscribeWithMapperContext e self mc x).subMappers =
        e.subMappers.modify
          (fun c => { c with subscriptions := assignKey x c.subscriptions }) self := by
      unfold subscribeWithMapperContext
      rw [ht]
      simp only []
      split <;> simp [Engine.updateSub]
    have hlog : Effect.subscribe T x ∈ (subscribeWithMapperContext e self mc x).log := by
      unfold subscribeWithMapperContext
      rw [ht]
      simp only []
      split <;> simp
    refine ⟨?_, ?_⟩
    · intro c hc y hy
      rw [hsubs] at hc
      rcases mem_modify _ _ _ _ hc with hc | ⟨c0, hc0, hcc⟩
      · obtain ⟨T1, h1, h2, h3⟩ := h c hc y hy
        exact ⟨T1, h1, h2, subscribeWithMapperContext_log e self mc x _ h3⟩
      · subst hcc
        rcases (mem_assignKey y x c0.subscriptions).mp hy with ⟨hy, _⟩ | hy
        · subst hy
          have h0 := hself c0 hc0
          have h1 := (targetClient_eq_some mc y T).mp ht
          rw [← h0] at h1
          exact ⟨T, h1.1, h1.2, hlog⟩
        · obtain ⟨T1, h1, h2, h3⟩ := h c0 (List.getElem?_mem hc0) y hy
          exact ⟨T1, h1, h2, subscribeWithMapperContext_log e self mc x _ h3⟩
    · rw [hsubs]
      exact map_modify_of_eq (fun c : SubMapperContext => c.toMapperContext)
        (fun c => { c with subscriptions := assignKey x c.subscriptions }) (fun _ => rfl) _ _

/-- Unsubscribing through a context keeps the records backed. -/
theorem unsubscribeWithMapperContext_records (e : Engine) (self : Option Nat)
    (mc : MapperContext) (x : String) (h : RecordsIssued e) :
    RecordsIssued (unsubscribeWithMapperContext e self mc x) := by
  cases self with
  | none =>
    exact RecordsIssued.of_same e _ (unsubscribeWithMapperContext_detached e mc x).1
      (unsubscribeWithMapperContext_log e none mc x) h
  | some i =>
    have hsubs : (unsubscribeWithMapperContext e (some i) mc x).subMappers =
        e.subMappers.modify
          (fun c => { c with subscriptions := removeKey x c.subscriptions }) i := by
      unfold unsubscribeWithMapperContext
      cases mc.targetClient x with
      | none => simp [Engine.updateSub]
      | some T =>
        simp only []
        split <;> simp [Engine.updateSub]
    intro c hc y hy
    rw [hsubs] at hc
    rcases mem_modify _ _ _ _ hc with hc | ⟨c0, hc0, hcc⟩
    · obtain ⟨T1, h1, h2, h3⟩ := h c hc y hy
      exact ⟨T1, h1, h2, unsubscribeWithMapperContext_log e (some i) mc x _ h3⟩
    · subst hcc
      have hy0 : y ∈ c0.subscriptions := by
        unfold removeKey at hy
        exact (List.mem_filter.mp hy).1
      obtain ⟨T1, h1, h2, h3⟩ := h c0 (List.getElem?_mem hc0) y hy0
      exact ⟨T1, h1, h2, unsubscribeWithMapperContext_log e (some i) mc x _ h3⟩

/-- Every operation of the engine keeps the records backed. -/
theorem recordsIssued_of_reachable (e : Engine) (h : Reachable e) : RecordsIssued e := by
  induction h with
  | create b => intro c hc; cases hc
  | subMapperPush e mapper targetURIs _ ih =>
    obtain ⟨h1, _⟩ := mapperPush_spec e mapper targetURIs
    unfold subMapperPush
    simp only []
    have key := foldl_invariant
      (fun acc : Engine => RecordsIssued acc ∧
        ∃ c1 : SubMapperContext, acc.subMappers = e.subMappers ++ [c1] ∧
          c1.toMapperContext = (mapperPush e mapper targetURIs).2)
      (fun acc c => subscribeWithMapperContext acc e.subMappers.length
        (mapperPush e mapper targetURIs).2 c)
      (by
        rintro acc ch ⟨hr, c1, hc1, hc1'⟩
        refine ⟨(subscribeWithMapperContext_records acc _ _ ch ?_ hr).1, ?_⟩
        · intro c hc
          rw [hc1] at hc
          simp at hc
          rw [← hc]; exact hc1'
        · obtain ⟨⟨c2, hc2, hc2'⟩, _, _⟩ := subscribeWithMapperContext_last acc e.subMappers c1
            (mapperPush e mapper targetURIs).2 ch hc1
          exact ⟨c2, hc2, hc2'.trans hc1'⟩)
      (getAllSubscriptions
        { (mapperPush e mapper targetURIs).1 with
          subMappers := (mapperPush e mapper targetURIs).1.subMappers ++
            [{ toMapperContext := (mapperPush e mapper targetURIs).2, subscriptions := [] }] })
      { (mapperPush e mapper targetURIs).1 with
        subMappers := (mapperPush e mapper targetURIs).1.subMappers ++
          [{ toMapperContext := (mapperPush e mapper targetURIs).2, subscriptions := [] }] }
      ⟨(by
        intro c hc x hx
        simp only [List.mem_append, List.mem_singleton] at hc
        rcases hc with hc | hc
        · rw [h1] at hc
          obtain ⟨T1, g1, g2, g3⟩ := ih c hc x hx
          exact ⟨T1, g1, g2, connectTarget_fold_log targetURIs e [] _ g3⟩
        · subst hc
          cases hx), ⟨_, by rw [h1], rfl⟩⟩
    exact key.1
  | pubMapperPush e mapper targetURIs _ ih =>
    exact RecordsIssued.of_same e _ (pubMapperPush_spec e mapper targetURIs).2.1
      (connectTarget_fold_log targetURIs e []) ih
  | subMapperShift e e1 _ hs ih =>
    unfold subMapperShift at hs
    simp only [] at hs
    cases hsub : e.subMappers with
    | nil =>
      rw [hsub] at hs
      simp only [] at hs
      split at hs
      · rw [← Option.some.inj hs]
        exact RecordsIssued.of_same e _ (cleanupUnusedTargetSockets_spec e).1
          (cleanupUnusedTargetSockets_log e) ih
      · cases hs
    | cons c rest =>
      rw [hsub] at hs
      simp only [] at hs
      rw [← Option.some.inj hs]
      have hrest : RecordsIssued { e with subMappers := rest } := by
        intro c1 hc1 x hx
        exact ih c1 (by rw [hsub]; exact List.mem_cons_of_mem _ hc1) x hx
      have key := foldl_invariant (fun acc : Engine => RecordsIssued acc)
        (fun acc ch => unsubscribeWithMapperContext acc none c.toMapperContext ch)
        (fun acc ch hacc => unsubscribeWithMapperContext_records acc none _ ch hacc)
        (getAllSubscriptions e) { e with subMappers := rest } hrest
      exact RecordsIssued.of_same _ _ (cleanupUnusedTargetSockets_spec _).1
        (cleanupUnusedTargetSockets_log _) key
  | pubMapperShift e _ ih =>
    unfold pubMapperShift
    exact RecordsIssued.of_same { e with pubMappers := e.pubMappers.tail } _
      (cleanupUnusedTargetSockets_spec _).1 (cleanupUnusedTargetSockets_log _) ih
  | subscribe e channelName _ ih =>
    unfold subscribe
    have key := foldl_invariant_mem
      (fun acc : Engine => RecordsIssued acc ∧
        acc.subMappers.map (fun c => c.toMapperContext) =
          e.subMappers.map (fun c => c.toMapperContext))
      (fun acc p => subscribeWithMapperContext acc p.1 p.2.toMapperContext channelName)
      e.subMappers.enum
      (by
        rintro acc ⟨i, c⟩ hp ⟨hr, hm⟩
        rw [List.mk_mem_enum_iff_getElem?] at hp
        have hself : ∀ c1, acc.subMappers[i]? = some c1 →
            c1.toMapperContext = c.toMapperContext := by
          intro c1 hc1
          have h1 : (acc.subMappers.map (fun c => c.toMapperContext))[i]? =
              some c1.toMapperContext := by rw [List.getElem?_map, hc1]; rfl
          rw [hm, List.getElem?_map, hp] at h1
          exact (Option.some.inj h1).symm
        obtain ⟨g1, g2⟩ := subscribeWithMapperContext_records acc i c.toMapperContext
          channelName hself hr
        exact ⟨g1, g2.trans hm⟩)
      e ⟨ih, rfl⟩
    exact key.1
  | unsubscribe e channelName _ ih =>
    unfold unsubscribe
    exact foldl_invariant (fun acc : Engine => RecordsIssued acc)
      (fun acc p => unsubscribeWithMapperContext acc (some p.1) p.2.toMapperContext channelName)
      (fun acc p hacc => unsubscribeWithMapperContext_records acc _ _ channelName hacc)
      e.subMappers.enum e ih
  | publish e channelName data _ ih =>
    have hp : publish e channelName data = _ := publish_fold e.pubMappers e channelName data
    rw [hp]
    exact RecordsIssued.of_same e _ rfl (fun eff h1 => by simp [h1]) ih
  | brokerChange e b _ ih => exact ih

/-- C23: in every engine state reachable through push, shift, subscribe,
unsubscribe and publish operations, a sub context holds a subscription record
for a channel only if it resolves the channel to a connection of its own client
map and a subscribe of the channel was issued on that connection. -/
theorem subscription_records_backed (e : Engine) (h : Reachable e) :
    ∀ c ∈ e.subMappers, ∀ x ∈ c.subscriptions,
      ∃ T, c.resolve x = some T ∧ T ∈ c.clients ∧ Effect.subscribe T x ∈ e.log :=
  recordsIssued_of_reachable e h

/-- In `sampleShared` both records of `x` are backed by a subscribe on
`ws://a:1`. -/
theorem subscription_records_backed_witness :
    sampleShared.subMappers.map (fun c => c.subscriptions) = [["x"], ["x"]] ∧
      ∀ c ∈ sampleShared.subMappers, ∀ x ∈ c.subscriptions,
        ∃ T, c.resolve x = some T ∧ T ∈ c.clients ∧ Effect.subscribe T x ∈ sampleShared.log :=
  ⟨by decide, subscription_records_backed sampleShared sampleShared_reachable⟩

/-! ### The outbound coalescing buffer -/

/-- Publishing keeps the broker. -/
theorem publish_broker (e : Engine) (channelName : String) (data : Packet) :
    (publish e channelName data).broker = e.broker := by
  have hp : publish e channelName data = _ := publish_fold e.pubMappers e channelName data
  rw [hp]

/-- The loop of `flushPublishOutboundBuffer` publishes the packets of
`batchPackets` in turn and changes nothing else but the count of uuid calls. -/
theorem flush_fold (buffer : List (String × List Payload)) (acc : Coordinator) :
    buffer.foldl (fun acc entry =>
      { acc with
        clusterClient := publish acc.clusterClient entry.1
          { sender := senderId acc.clusterClient.broker, messages := some entry.2,
            id := acc.uuid acc.uuidCalls },
        uuidCalls := acc.uuidCalls + 1 }) acc =
    { acc with
      clusterClient := (batchPackets (senderId acc.clusterClient.broker) acc.uuid acc.uuidCalls
        buffer).foldl (fun e p => publish e p.1 p.2) acc.clusterClient,
      uuidCalls := acc.uuidCalls + buffer.length } := by
  induction buffer generalizing acc with
  | nil => rfl
  | cons entry rest ih =>
    rw [List.foldl_cons, ih]
    simp only [publish_broker, batchPackets, List.foldl_cons, List.length_cons]
    congr 1
    omega

/-- The keys of the buffer after one publish. -/
theorem bufferAppend_keys (buffer : List (String × List Payload)) (ch : String) (d : Payload) :
    (bufferAppend buffer ch d).map (fun p => p.1) = insertKey ch (buffer.map (fun p => p.1)) := by
  have hany : buffer.any (fun p => decide (p.1 = ch)) = true ↔ ch ∈ buffer.map (fun p => p.1) := by
    rw [List.any_eq_true, List.mem_map]
    constructor
    · rintro ⟨p, hp, h⟩
      exact ⟨p, hp, by simpa using h⟩
    · rintro ⟨p, hp, h⟩
      exact ⟨p, hp, by simpa using h⟩
  unfold bufferAppend insertKey
  by_cases hm : ch ∈ buffer.map (fun p => p.1)
  · rw [if_pos (hany.mpr hm), if_pos hm, List.map_map]
    apply List.map_congr_left
    intro p _
    by_cases hp : p.1 = ch <;> simp [hp]
  · rw [if_neg (fun h => hm (hany.mp h)), if_neg hm]
    simp

/-- The entries of the buffer after one publish. -/
theorem mem_bufferAppend (buffer : List (String × List Payload)) (ch : String) (d : Payload)
    (c : String) (ms1 : List Payload) (h : (c, ms1) ∈ bufferAppend buffer ch d) :
    (c ≠ ch ∧ (c, ms1) ∈ buffer) ∨
    (c = ch ∧ ∃ ms, (ch, ms) ∈ buffer ∧ ms1 = ms ++ [d]) ∨
    (c = ch ∧ ch ∉ buffer.map (fun p => p.1) ∧ ms1 = [d]) := by
  unfold bufferAppend at h
  by_cases hany : buffer.any (fun p => decide (p.1 = ch)) = true
  · rw [if_pos hany] at h
    obtain ⟨p, hp, hpe⟩ := List.mem_map.mp h
    by_cases hpc : p.1 = ch
    · rw [if_pos hpc] at hpe
      have h1 : p.1 = c := congrArg Prod.fst hpe
      have h2 : p.2 ++ [d] = ms1 := congrArg Prod.snd hpe
      refine Or.inr (Or.inl ⟨h1.symm.trans hpc, p.2, ?_, h2.symm⟩)
      rw [← hpc]; exact hp
    · rw [if_neg hpc] at hpe
      subst hpe
      exact Or.inl ⟨hpc, hp⟩
  · rw [if_neg hany] at h
    rcases List.mem_append.mp h with h | h
    · refine Or.inl ⟨?_, h⟩
      intro hc
      apply hany
      rw [List.any_eq_true]
      exact ⟨(c, ms1), h, by simpa using hc⟩
    · rw [List.mem_singleton] at h
      have h1 : c = ch := congrArg Prod.fst h
      have h2 : ms1 = [d] := congrArg Prod.snd h
      refine Or.inr (Or.inr ⟨h1, ?_, h2⟩)
      intro hm
      apply hany
      obtain ⟨p, hp, hpc⟩ := List.mem_map.mp hm
      rw [List.any_eq_true]
      exact ⟨p, hp, by simpa using hpc⟩

/-- The buffer after a sequence of publishes: its keys are the old keys and
the channels published on, each once, and the list of a channel is its old list
followed by the payloads published on it, in order. -/
theorem bufferAppend_fold (evs : List (String × Payload)) (buffer : List (String × List Payload)) :
    (evs.foldl (fun b ev => bufferAppend b ev.1 ev.2) buffer).map (fun p => p.1) =
      (evs.map (fun ev => ev.1)).foldl (fun m c => insertKey c m) (buffer.map (fun p => p.1)) ∧
    (∀ c ms1, (c, ms1) ∈ evs.foldl (fun b ev => bufferAppend b ev.1 ev.2) buffer →
      (∃ ms, (c, ms) ∈ buffer ∧
        ms1 = ms ++ (evs.filter (fun ev => ev.1 = c)).map (fun ev => ev.2)) ∨
      (c ∉ buffer.map (fun p => p.1) ∧
        ms1 = (evs.filter (fun ev => ev.1 = c)).map (fun ev => ev.2))) := by
  induction evs generalizing buffer with
  | nil =>
    refine ⟨rfl, ?_⟩
    intro c ms1 h
    exact Or.inl ⟨ms1, h, by simp⟩
  | cons ev rest ih =>
    obtain ⟨k1, k2⟩ := ih (bufferAppend buffer ev.1 ev.2)
    rw [List.foldl_cons]
    refine ⟨?_, ?_⟩
    · rw [k1, bufferAppend_keys, List.map_cons, List.foldl_cons]
    · intro c ms1 h
      rcases k2 c ms1 h with ⟨ms, hms, he⟩ | ⟨hnot, he⟩
      · rcases mem_bufferAppend buffer ev.1 ev.2 c ms hms with ⟨hc, hb⟩ | ⟨hc, ms0, hb, hm⟩ |
          ⟨hc, hb, hm⟩
        · refine Or.inl ⟨ms, hb, ?_⟩
          have hf : ¬ ev.1 = c := fun h => hc h.symm
          rw [he, List.filter_cons_of_neg (by simpa using hf)]
        · refine Or.inl ⟨ms0, by rw [hc]; exact hb, ?_⟩
          rw [he, hm, List.filter_cons_of_pos (by simpa using hc.symm)]
          simp
        · refine Or.inr ⟨by rw [hc]; exact hb, ?_⟩
          rw [he, hm, List.filter_cons_of_pos (by simpa using hc.symm)]
          simp
      · rw [bufferAppend_keys, mem_insertKey] at hnot
        have hc : ¬ ev.1 = c := fun h => hnot (Or.inl h.symm)
        refine Or.inr ⟨fun h => hnot (Or.inr h), ?_⟩
        rw [he, List.filter_cons_of_neg (by simpa using hc)]

/-- A channel whose name is not inherited is buffered. -/
theorem bufferPush_of_not_inherited (buffer : List (String × List Payload)) (ch : String)
    (d : Payload) (h : inherited ch = false) :
    bufferPush buffer ch d = some (bufferAppend buffer ch d) := by
  unfold bufferPush
  rw [if_neg]
  rintro ⟨_, hi⟩
  rw [h] at hi
  cases hi

/-- The handler of the broker's `publish` event returns, or it throws at the
buffer. -/
theorem brokerPublish_eq_none (st : Coordinator) (channelName : String) (data : Payload)
    (h : brokerPublish st channelName data = none) :
    st.clusterClient.broker.pubSubBatchDuration ≠ none ∧
    bufferPush st.publishOutboundBuffer channelName data = none := by
  unfold brokerPublish at h
  cases hb : st.clusterClient.broker.pubSubBatchDuration with
  | none => rw [hb] at h; cases h
  | some d =>
    rw [hb] at h
    simp only [] at h
    cases hp : bufferPush st.publishOutboundBuffer channelName data with
    | none => exact ⟨by simp, rfl⟩
    | some buffer =>
      rw [hp] at h
      simp only [] at h
      cases ht : st.publishTimeout with
      | none => rw [ht] at h; cases h
      | some t => rw [ht] at h; cases h

/-- With a batch window, a sequence of publish events on channels whose names
are not inherited only fills the buffer (and arms the flush timer): every
handler returns, nothing is relayed and no uuid is drawn. -/
theorem brokerPublish_fold (evs : List (String × Payload)) (st : Coordinator) (d : Nat)
    (hbatch : st.clusterClient.broker.pubSubBatchDuration = some d)
    (hnames : ∀ ev ∈ evs, inherited ev.1 = false) :
    ∃ st1, evs.foldlM (fun s ev => brokerPublish s ev.1 ev.2) st = some st1 ∧
      st1.publishOutboundBuffer =
        evs.foldl (fun b ev => bufferAppend b ev.1 ev.2) st.publishOutboundBuffer ∧
      st1.clusterClient = st.clusterClient ∧
      st1.uuid = st.uuid ∧
      st1.uuidCalls = st.uuidCalls := by
  induction evs generalizing st with
  | nil => exact ⟨st, rfl, rfl, rfl, rfl, rfl⟩
  | cons ev rest ih =>
    have hstep : ∃ s1, brokerPublish st ev.1 ev.2 = some s1 ∧
        s1.publishOutboundBuffer = bufferAppend st.publishOutboundBuffer ev.1 ev.2 ∧
        s1.clusterClient = st.clusterClient ∧
        s1.uuid = st.uuid ∧
        s1.uuidCalls = st.uuidCalls := by
      unfold brokerPublish
      rw [hbatch]
      simp only []
      rw [bufferPush_of_not_inherited _ _ _ (hnames ev (List.mem_cons_self _ _))]
      simp only []
      cases st.publishTimeout <;> exact ⟨_, rfl, rfl, rfl, rfl, rfl⟩
    obtain ⟨s1, s0, sb, s2, s3, s4⟩ := hstep
    obtain ⟨st1, i0, i1, i2, i3, i4⟩ := ih s1 (by rw [s2]; exact hbatch)
      (fun ev1 h1 => hnames ev1 (List.mem_cons_of_mem _ h1))
    refine ⟨st1, ?_, ?_, i2.trans s2, i3.trans s3, i4.trans s4⟩
    · rw [List.foldlM_cons, s0]
      exact i0
    · rw [i1, sb, List.foldl_cons]

/-- The channels of the entries a flush walks are the channels of the buffer in
the order of `Object.keys`. -/
theorem bufferEntries_keys (buffer : List (String × List Payload)) :
    (bufferEntries buffer).map (fun p => p.1) = objectKeys (buffer.map (fun p => p.1)) := by
  have key : ∀ L : List String, (∀ k ∈ L, k ∈ buffer.map (fun p => p.1)) →
      (L.filterMap (fun channelName => buffer.find? (fun p => p.1 = channelName))).map
        (fun p => p.1) = L := by
    intro L
    induction L with
    | nil => intro _; rfl
    | cons k L ih =>
      intro h
      have hk := h k (List.mem_cons_self _ _)
      rw [List.mem_map] at hk
      obtain ⟨q, hq, hqk⟩ := hk
      cases hf : buffer.find? (fun p => decide (p.1 = k)) with
      | none =>
        rw [List.find?_eq_none] at hf
        exact absurd (by simpa using hqk) (hf q hq)
      | some r =>
        have hr : r.1 = k := by simpa using List.find?_some hf
        have hcons : (k :: L).filterMap
            (fun channelName => buffer.find? (fun p => p.1 = channelName)) =
            r :: L.filterMap (fun channelName => buffer.find? (fun p => p.1 = channelName)) :=
          List.filterMap_cons_some hf
        rw [hcons, List.map_cons, hr, ih (fun k1 h1 => h k1 (List.mem_cons_of_mem _ h1))]
  exact key _ (fun k hk => (mem_objectKeys _ k).mp hk)

/-- The entries a flush walks are entries of the buffer. -/
theorem mem_bufferEntries (buffer : List (String × List Payload)) (entry : String × List Payload)
    (h : entry ∈ bufferEntries buffer) : entry ∈ buffer := by
  unfold bufferEntries at h
  rw [List.mem_filterMap] at h
  obtain ⟨k, _, hk⟩ := h
  exact List.mem_of_find?_eq_some hk

/-- The channels and messages of the packets of a flush are those of the
buffer entries. -/
theorem batchPackets_spec (sender : Option String) (uuid : Nat → String)
    (buffer : List (String × List Payload)) (k : Nat) :
    (batchPackets sender uuid k buffer).map (fun p => p.1) = buffer.map (fun p => p.1) ∧
    ∀ ch pkt, (ch, pkt) ∈ batchPackets sender uuid k buffer →
      pkt.sender = sender ∧ ∃ ms, (ch, ms) ∈ buffer ∧ pkt.messages = some ms := by
  induction buffer generalizing k with
  | nil => exact ⟨rfl, fun ch pkt h => by cases h⟩
  | cons entry rest ih =>
    obtain ⟨h1, h2⟩ := ih (k + 1)
    refine ⟨by simp [batchPackets, h1], ?_⟩
    intro ch pkt h
    simp only [batchPackets, List.mem_cons] at h
    rcases h with h | h
    · have hc : ch = entry.1 := congrArg Prod.fst h
      have hp : pkt = _ := congrArg Prod.snd h
      subst hp
      exact ⟨rfl, entry.2, by rw [hc]; exact List.mem_cons_self _ _, rfl⟩
    · obtain ⟨g1, ms, g2, g3⟩ := h2 ch pkt h
      exact ⟨g1, ms, List.mem_cons_of_mem _ g2, g3⟩

/-- The batch relay for channels whose names are not inherited: with a batch
window configured and an empty buffer, after any sequence of local publish
events on such channels (every handler returning, nothing relayed)
`flushPublishOutboundBuffer` hands `clusterClient.publish` a list of packets:
one packet for each channel that received a publish and for no other channel,
carrying the node id as sender and exactly the payloads published on its
channel, in publication order; afterwards the buffer is empty and the timer
handle is cleared. -/
theorem flush_relays_plain_channels (st : Coordinator) (d : Nat)
    (evs : List (String × Payload))
    (hbatch : st.clusterClient.broker.pubSubBatchDuration = some d)
    (hempty : st.publishOutboundBuffer = [])
    (hnames : ∀ ev ∈ evs, inherited ev.1 = false) :
    ∃ st1, evs.foldlM (fun s ev => brokerPublish s ev.1 ev.2) st = some st1 ∧
      st1.clusterClient = st.clusterClient ∧
      (∃ packets : List (String × Packet),
        packets = batchPackets (senderId st.clusterClient.broker) st.uuid st.uuidCalls
          (bufferEntries st1.publishOutboundBuffer) ∧
        (flushPublishOutboundBuffer st1).clusterClient =
          packets.foldl (fun e p => publish e p.1 p.2) st.clusterClient ∧
        (packets.map (fun p => p.1)).Nodup ∧
        (∀ ch, ch ∈ packets.map (fun p => p.1) ↔ ch ∈ evs.map (fun ev => ev.1)) ∧
        (∀ ch pkt, (ch, pkt) ∈ packets →
          pkt.sender = senderId st.clusterClient.broker ∧
          pkt.messages = some ((evs.filter (fun ev => ev.1 = ch)).map (fun ev => ev.2)))) ∧
      (flushPublishOutboundBuffer st1).publishOutboundBuffer = [] ∧
      (flushPublishOutboundBuffer st1).publishTimeout = none := by
  obtain ⟨st1, b0, b1, b2, b3, b4⟩ := brokerPublish_fold evs st d hbatch hnames
  obtain ⟨k1, k2⟩ := bufferAppend_fold evs st.publishOutboundBuffer
  rw [← b1, hempty] at k1 k2
  obtain ⟨p1, p2⟩ := batchPackets_spec (senderId st.clusterClient.broker) st.uuid
    (bufferEntries st1.publishOutboundBuffer) st.uuidCalls
  obtain ⟨f1, f2⟩ := insertKey_fold (evs.map (fun ev => ev.1)) []
  refine ⟨st1, b0, b2, ⟨_, rfl, ?_, ?_, ?_, ?_⟩, rfl, rfl⟩
  · unfold flushPublishOutboundBuffer
    simp only []
    rw [flush_fold, b2, b3, b4]
  · rw [p1, bufferEntries_keys, k1]
    exact nodup_objectKeys _ (f2 List.nodup_nil)
  · intro ch
    rw [p1, bufferEntries_keys, mem_objectKeys, k1]
    have := f1 ch
    simpa using this
  · intro ch pkt h
    obtain ⟨g1, ms, g2, g3⟩ := p2 ch pkt h
    refine ⟨g1, ?_⟩
    rcases k2 ch ms (mem_bufferEntries _ _ g2) with ⟨ms0, h0, _⟩ | ⟨_, he⟩
    · cases h0
    · rw [g3, he]

/-- Three publishes on two channels in one window: two packets, `["m1", "m3"]`
on `a` and `["m2"]` on `b`. -/
theorem flush_relays_plain_channels_witness :
    sampleBatchJoined.clusterClient.broker.pubSubBatchDuration = some 50 ∧
      sampleBatchJoined.publishOutboundBuffer = [] ∧
      (∃ st1, [("a", "m1"), ("b", "m2"), ("a", "m3")].foldlM
          (fun s ev => brokerPublish s ev.1 ev.2) sampleBatchJoined = some st1 ∧
        (flushPublishOutboundBuffer st1).publishOutboundBuffer = []) := by
  obtain ⟨st1, h0, _, _, h3, _⟩ := flush_relays_plain_channels sampleBatchJoined 50
    [("a", "m1"), ("b", "m2"), ("a", "m3")] (by decide) (by decide) (by decide)
  exact ⟨by decide, by decide, st1, h0, h3⟩

/-! ### Runs of the coordinator -/

/-- An invariant that every handler keeps, returning, holds after every run. -/
theorem run_invariant (P : Coordinator → Prop)
    (hstep : ∀ st ev, P st → ∃ st1, dispatch st ev = some st1 ∧ P st1)
    (evs : List Event) (st : Coordinator) (h : P st) :
    ∃ st2, run st evs = some st2 ∧ P st2 := by
  induction evs generalizing st with
  | nil => exact ⟨st, rfl, h⟩
  | cons ev evs ih =>
    obtain ⟨st1, h1, h2⟩ := hstep st ev h
    obtain ⟨st2, h3, h4⟩ := ih st1 h2
    refine ⟨st2, ?_, h4⟩
    show (match dispatch st ev with
      | some st1 => run st1 evs
      | none => none) = some st2
    rw [h1]
    exact h3

/-- An engine has its own mapper contexts. -/
theorem SameContexts.refl (e : Engine) : SameContexts e e := ⟨rfl, rfl⟩

/-- Keeping the mapper contexts twice keeps them. -/
theorem SameContexts.trans {e e1 e2 : Engine} (h1 : SameContexts e e1)
    (h2 : SameContexts e1 e2) : SameContexts e e2 :=
  ⟨h2.1.trans h1.1, h2.2.trans h1.2⟩

/-- Subscribing through a context keeps the mapper contexts. -/
theorem subscribeWithMapperContext_contexts (e : Engine) (self : Nat) (mc : MapperContext)
    (x : String) : SameContexts e (subscribeWithMapperContext e self mc x) := by
  unfold subscribeWithMapperContext
  cases mc.targetClient x with
  | none => exact ⟨rfl, rfl⟩
  | some T =>
    have hm := map_modify_of_eq (fun c : SubMapperContext => c.toMapperContext)
      (fun c => { c with subscriptions := assignKey x c.subscriptions }) (fun _ => rfl)
      e.subMappers self
    simp only []
    split
    · exact ⟨by simpa [Engine.updateSub] using hm, by simp⟩
    · exact ⟨by simpa [Engine.updateSub] using hm, by simp⟩

/-- Unsubscribing through a context keeps the mapper contexts. -/
theorem unsubscribeWithMapperContext_contexts (e : Engine) (self : Option Nat)
    (mc : MapperContext) (x : String) :
    SameContexts e (unsubscribeWithMapperContext e self mc x) := by
  cases self with
  | none =>
    obtain ⟨h1, h2, _⟩ := unsubscribeWithMapperContext_detached e mc x
    exact ⟨by rw [h1], h2⟩
  | some i =>
    have hm := map_modify_of_eq (fun c : SubMapperContext => c.toMapperContext)
      (fun c => { c with subscriptions := removeKey x c.subscriptions }) (fun _ => rfl)
      e.subMappers i
    unfold unsubscribeWithMapperContext
    cases mc.targetClient x with
    | none => exact ⟨by simpa [Engine.updateSub] using hm, by simp⟩
    | some T =>
      simp only []
      split
      · exact ⟨by simpa [Engine.updateSub] using hm, by simp⟩
      · exact ⟨by simpa [Engine.updateSub] using hm, by simp⟩

/-- The public `subscribe` keeps the mapper contexts. -/
theorem subscribe_contexts (e : Engine) (x : String) : SameContexts e (subscribe e x) := by
  unfold subscribe
  exact foldl_invariant (fun acc : Engine => SameContexts e acc)
    (fun acc p => subscribeWithMapperContext acc p.1 p.2.toMapperContext x)
    (fun acc p hacc => hacc.trans (subscribeWithMapperContext_contexts acc _ _ x))
    e.subMappers.enum e (SameContexts.refl e)

/-- The public `unsubscribe` keeps the mapper contexts. -/
theorem unsubscribe_contexts (e : Engine) (x : String) : SameContexts e (unsubscribe e x) := by
  unfold unsubscribe
  exact foldl_invariant (fun acc : Engine => SameContexts e acc)
    (fun acc p => unsubscribeWithMapperContext acc (some p.1) p.2.toMapperContext x)
    (fun acc p hacc => hacc.trans (unsubscribeWithMapperContext_contexts acc _ _ x))
    e.subMappers.enum e (SameContexts.refl e)

/-- The public `publish` keeps the mapper contexts. -/
theorem publish_contexts (e : Engine) (x : String) (data : Packet) :
    SameContexts e (publish e x data) := by
  have hp : publish e x data = _ := publish_fold e.pubMappers e x data
  rw [hp]
  exact ⟨rfl, rfl⟩

/-- The function `flushPublishOutboundBuffer` keeps the mapper contexts, the
endpoint list, the cache, the timers and the reports. -/
theorem flushPublishOutboundBuffer_frame (st : Coordinator) :
    SameContexts st.clusterClient (flushPublishOutboundBuffer st).clusterClient ∧
    (flushPublishOutboundBuffer st).serverInstances = st.serverInstances ∧
    (flushPublishOutboundBuffer st).stateEmits = st.stateEmits ∧
    (flushPublishOutboundBuffer st).timers = st.timers ∧
    (flushPublishOutboundBuffer st).processedMessagesLookup = st.processedMessagesLookup := by
  unfold flushPublishOutboundBuffer
  simp only []
  rw [flush_fold]
  refine ⟨?_, rfl, rfl, rfl, rfl⟩
  exact foldl_invariant (fun acc : Engine => SameContexts st.clusterClient acc)
    (fun (e : Engine) (p : String × Packet) => publish e p.1 p.2)
    (fun acc p hacc => hacc.trans (publish_contexts acc _ _)) _ _ (SameContexts.refl _)

/-- The function `sendClientState` keeps the engine, the endpoint list and the
cache, clears at most timers, and sends one report, which names the endpoint
list. -/
theorem sendClientState_frame (st : Coordinator) (stateName : String) :
    (sendClientState st stateName).clusterClient = st.clusterClient ∧
    (sendClientState st stateName).serverInstances = st.serverInstances ∧
    (sendClientState st stateName).processedMessagesLookup = st.processedMessagesLookup ∧
    (sendClientState st stateName).timers.Sublist st.timers ∧
    ReportsCurrent st (sendClientState st stateName) := by
  obtain ⟨s1, s2, s3, s4⟩ := sendClientState_spec st stateName
  refine ⟨s2, s3, s4, ?_, ⟨_, s1, ?_⟩⟩
  · unfold sendClientState Coordinator.clearTimeout
    cases st.sendClientStateTimeout with
    | none => exact List.Sublist.refl _
    | some h => exact List.filter_sublist _
  · intro s hs
    rw [List.mem_singleton] at hs
    rw [s3]
    exact ⟨stateName, StateEmit.clientSetState.inj hs⟩

/-- A step that sends no report. -/
theorem ReportsCurrent.of_eq (st st1 : Coordinator) (h : st1.stateEmits = st.stateEmits) :
    ReportsCurrent st st1 :=
  ⟨[], by rw [h, List.append_nil], fun s hs => by cases hs⟩

/-- Reports of the state a handler ran `sendClientState` on last. -/
theorem ReportsCurrent.of_send (st st0 : Coordinator) (stateName : String)
    (h : st0.stateEmits = st.stateEmits) :
    ReportsCurrent st (sendClientState st0 stateName) := by
  obtain ⟨_, _, _, _, news, h1, h2⟩ := sendClientState_frame st0 stateName
  exact ⟨news, by rw [h1, h], h2⟩

/-- The last element of what is left of a list when all but its last element
is dropped. -/
theorem getLast?_drop_length_pred {α : Type} (l : List α) :
    (l.drop (l.length - 1)).getLast? = l.getLast? := by
  by_cases h : l = []
  · subst h; rfl
  · rw [drop_length_pred l h, List.getLast?_eq_getLast l h]
    rfl

/-- The length of what is left of a list when all but its last element is
dropped. -/
theorem length_drop_length_pred {α : Type} (l : List α) :
    (l.drop (l.length - 1)).length = min l.length 1 := by
  rw [List.length_drop]
  omega

/-- What `addNewSubMapping` does to the routing: nothing, or it appends a sub
context built from the endpoint list it stored. -/
theorem addNewSubMapping_routing (st : Coordinator) (data : UpdatePacket) :
    (addNewSubMapping st data).clusterClient.pubMappers = st.clusterClient.pubMappers ∧
    (((addNewSubMapping st data).clusterClient.subMappers = st.clusterClient.subMappers ∧
        (addNewSubMapping st data).serverInstances = st.serverInstances) ∨
      ∃ c : SubMapperContext,
        (addNewSubMapping st data).clusterClient.subMappers = st.clusterClient.subMappers ++ [c] ∧
        c.targets = (addNewSubMapping st data).serverInstances) ∧
    (addNewSubMapping st data).processedMessagesLookup = st.processedMessagesLookup ∧
    (addNewSubMapping st data).timers.Sublist st.timers ∧
    ReportsCurrent st (addNewSubMapping st data) := by
  by_cases hc : data.time > st.latestSnapshotTime ∧
      jsonStringify data.serverInstances ≠ st.latestServerInstancesSnapshot
  · have hacc : updateServerCluster st data =
        (true, { st with latestServerInstancesSnapshot := jsonStringify data.serverInstances,
                         serverInstances := data.serverInstances,
                         latestSnapshotTime := data.time }) := by
      unfold updateServerCluster
      simp only []
      rw [if_pos hc]
    obtain ⟨⟨c, hcs, _, hct, _⟩, hp, _⟩ :=
      subMapperPush_spec st.clusterClient serverMapper data.serverInstances
    obtain ⟨s1, s2, s3, s4, s5⟩ := sendClientState_frame
      { st with latestServerInstancesSnapshot := jsonStringify data.serverInstances,
                serverInstances := data.serverInstances,
                latestSnapshotTime := data.time,
                clusterClient := subMapperPush st.clusterClient serverMapper data.serverInstances }
      "updatedSubs"
    have hr := ReportsCurrent.of_send st
      { st with latestServerInstancesSnapshot := jsonStringify data.serverInstances,
                serverInstances := data.serverInstances,
                latestSnapshotTime := data.time,
                clusterClient := subMapperPush st.clusterClient serverMapper data.serverInstances }
      "updatedSubs" rfl
    unfold addNewSubMapping
    simp only [hacc, if_true]
    refine ⟨?_, Or.inr ⟨c, ?_, ?_⟩, ?_, ?_, ?_⟩
    · rw [s1]; exact hp
    · rw [s1]; exact hcs
    · rw [s2]; exact hct
    · rw [s3]
    · exact s4
    · exact hr
  · have hrej : updateServerCluster st data = (false, st) := by
      unfold updateServerCluster
      simp only []
      rw [if_neg hc]
    unfold addNewSubMapping
    simp only [hrej]
    exact ⟨rfl, Or.inl ⟨rfl, rfl⟩, rfl, List.Sublist.refl _, ReportsCurrent.of_eq _ _ rfl⟩

/-- What the handler of `clientStatesConverge` does to the routing: it returns,
keeps the endpoint list, keeps the sub contexts or only the newest of them, and
keeps the pub contexts, or only the newest of them, or only a new one. -/
theorem clientStatesConverge_routing (st : Coordinator) (state : String) :
    ∃ st1, clientStatesConverge st state = some st1 ∧
      st1.serverInstances = st.serverInstances ∧
      (st1.clusterClient.subMappers = st.clusterClient.subMappers ∨
        st1.clusterClient.subMappers =
          st.clusterClient.subMappers.drop (st.clusterClient.subMappers.length - 1)) ∧
      (st1.clusterClient.pubMappers = st.clusterClient.pubMappers ∨
        st1.clusterClient.pubMappers =
          st.clusterClient.pubMappers.drop (st.clusterClient.pubMappers.length - 1) ∨
        ∃ c : MapperContext, st1.clusterClient.pubMappers = [c]) ∧
      st1.processedMessagesLookup = st.processedMessagesLookup ∧
      st1.timers.Sublist st.timers ∧
      ReportsCurrent st st1 := by
  unfold clientStatesConverge
  by_cases h1 : state = "updatedSubs:" ++ jsonStringify st.serverInstances
  · rw [if_pos h1]
    obtain ⟨⟨c, hc, _⟩, hs, _⟩ :=
      pubMapperPush_spec st.clusterClient serverMapper st.serverInstances
    obtain ⟨w1, w2, _⟩ := shiftPubWhile_spec 1
      (pubMapperPush st.clusterClient serverMapper st.serverInstances).pubMappers.length
      (pubMapperPush st.clusterClient serverMapper st.serverInstances) (by omega)
    obtain ⟨s1, s2, s3, s4, s5⟩ := sendClientState_frame
      { st with clusterClient := (shiftPubWhile 1
          (pubMapperPush st.clusterClient serverMapper st.serverInstances).pubMappers.length
          (pubMapperPush st.clusterClient serverMapper st.serverInstances)) }
      "updatedPubs"
    refine ⟨_, rfl, ?_, Or.inl ?_, Or.inr (Or.inr ⟨c, ?_⟩), ?_, ?_, ?_⟩
    · show (sendClientState _ "updatedPubs").serverInstances = _
      rw [s2]
    · show (sendClientState _ "updatedPubs").clusterClient.subMappers = _
      rw [s1]
      show (shiftPubWhile 1 _ _).subMappers = _
      rw [w2, hs]
    · show (sendClientState _ "updatedPubs").clusterClient.pubMappers = [c]
      rw [s1]
      show (shiftPubWhile 1 _ _).pubMappers = [c]
      rw [w1, hc]
      simp
    · show (sendClientState _ "updatedPubs").processedMessagesLookup = _
      rw [s3]
    · exact s4
    · obtain ⟨news, n1, n2⟩ := s5
      exact ⟨news, n1, n2⟩
  · rw [if_neg h1]
    by_cases h2 : state = "updatedPubs:" ++ jsonStringify st.serverInstances
    · rw [if_pos h2]
      unfold completeMappingUpdates
      simp only []
      obtain ⟨w1, w2, _⟩ := shiftPubWhile_spec 1 st.clusterClient.pubMappers.length
        st.clusterClient (by omega)
      obtain ⟨e2, he2, v1, v2, _⟩ := shiftSubWhile_spec 1
        (shiftPubWhile 1 st.clusterClient.pubMappers.length st.clusterClient).subMappers.length
        (shiftPubWhile 1 st.clusterClient.pubMappers.length st.clusterClient) (by omega)
      rw [he2]
      obtain ⟨s1, s2, s3, s4, s5⟩ := sendClientState_frame { st with clusterClient := e2 } "active"
      refine ⟨_, rfl, ?_, Or.inr ?_, Or.inr (Or.inl ?_), ?_, ?_, ?_⟩
      · show (sendClientState _ "active").serverInstances = _
        rw [s2]
      · show (sendClientState _ "active").clusterClient.subMappers = _
        rw [s1]
        show e2.subMappers = _
        rw [v1, w2]
      · show (sendClientState _ "active").clusterClient.pubMappers = _
        rw [s1]
        show e2.pubMappers = _
        rw [v2, w1]
      · show (sendClientState _ "active").processedMessagesLookup = _
        rw [s3]
      · exact s4
      · obtain ⟨news, n1, n2⟩ := s5
        exact ⟨news, n1, n2⟩
    · rw [if_neg h2]
      exact ⟨_, rfl, rfl, Or.inl rfl, Or.inl rfl, rfl, List.Sublist.refl _,
        ReportsCurrent.of_eq _ _ rfl⟩

/-- What a successful join response does: the callback returns with one sub
context, built from the endpoint list it stored, one pub context and an empty
cache, having cleared at most timers. -/
theorem clientJoinClusterCallback_routing (st : Coordinator) (data : UpdatePacket) :
    ∃ st1, clientJoinClusterCallback st (some data) = some st1 ∧
      (∃ c : SubMapperContext, st1.clusterClient.subMappers = [c] ∧
        c.targets = st1.serverInstances) ∧
      (∃ c : MapperContext, st1.clusterClient.pubMappers = [c]) ∧
      st1.processedMessagesLookup = [] ∧
      st1.timers.Sublist st.timers ∧
      ReportsCurrent st st1 := by
  obtain ⟨w1, w2, _⟩ := shiftPubWhile_spec 0 st.clusterClient.pubMappers.length
    st.clusterClient (by omega)
  obtain ⟨e2, he2, v1, v2, _⟩ := shiftSubWhile_spec 0
    (shiftPubWhile 0 st.clusterClient.pubMappers.length st.clusterClient).subMappers.length
    (shiftPubWhile 0 st.clusterClient.pubMappers.length st.clusterClient) (by omega)
  have hsub0 : e2.subMappers = [] := by rw [v1]; simp
  have hpub0 : e2.pubMappers = [] := by rw [v2, w1]; simp
  have hreset : resetState st =
      some { st with clusterClient := e2, latestSnapshotTime := -1,
                     latestServerInstancesSnapshot := "[]", serverInstances := [],
                     processedMessagesLookup := [] } := by
    unfold resetState
    simp only []
    rw [he2]
  have hupd : ∀ st0 : Coordinator,
      (updateServerCluster st0 data).2.clusterClient = st0.clusterClient ∧
      (updateServerCluster st0 data).2.processedMessagesLookup = st0.processedMessagesLookup ∧
      (updateServerCluster st0 data).2.stateEmits = st0.stateEmits ∧
      (updateServerCluster st0 data).2.timers = st0.timers := by
    intro st0
    unfold updateServerCluster
    simp only []
    split <;> exact ⟨rfl, rfl, rfl, rfl⟩
  unfold clientJoinClusterCallback
  simp only [hreset]
  obtain ⟨u2, u3, u4, u5⟩ := hupd
    { st with clusterClient := e2, latestSnapshotTime := -1,
              latestServerInstancesSnapshot := "[]", serverInstances := [],
              processedMessagesLookup := [] }
  generalize updateServerCluster
    { st with clusterClient := e2, latestSnapshotTime := -1,
              latestServerInstancesSnapshot := "[]", serverInstances := [],
              processedMessagesLookup := [] } data = r at u2 u3 u4 u5 ⊢
  obtain ⟨⟨c, hc, _, hct, _⟩, hp, _⟩ :=
    subMapperPush_spec r.2.clusterClient serverMapper r.2.serverInstances
  obtain ⟨⟨d, hd, _⟩, hs, _⟩ :=
    pubMapperPush_spec (subMapperPush r.2.clusterClient serverMapper r.2.serverInstances)
      serverMapper r.2.serverInstances
  obtain ⟨s1, s2, s3, s4, s5⟩ := sendClientState_frame
    { r.2 with clusterClient :=
        (pubMapperPush (subMapperPush r.2.clusterClient serverMapper r.2.serverInstances)
          serverMapper r.2.serverInstances) } "active"
  refine ⟨_, rfl, ⟨c, ?_, ?_⟩, ⟨d, ?_⟩, ?_, ?_, ?_⟩
  · rw [s1]
    show (pubMapperPush _ serverMapper _).subMappers = [c]
    rw [hs, hc, u2]
    show e2.subMappers ++ [c] = [c]
    rw [hsub0]; rfl
  · rw [s2]; exact hct
  · rw [s1]
    show (pubMapperPush _ serverMapper _).pubMappers = [d]
    rw [hd, hp, u2]
    show e2.pubMappers ++ [d] = [d]
    rw [hpub0]; rfl
  · rw [s3]
    show r.2.processedMessagesLookup = []
    rw [u3]
  · refine s4.trans ?_
    show r.2.timers.Sublist st.timers
    rw [u5]
  · obtain ⟨news, n1, n2⟩ := s5
    refine ⟨news, ?_, n2⟩
    rw [n1]
    show r.2.stateEmits ++ news = _
    rw [u4]

/-- The handler of a relayed packet keeps the routing and sends no report. -/
theorem clusterMessageHandler_quiet (st : Coordinator) (channelName : String) (packet : Packet) :
    SameContexts st.clusterClient (clusterMessageHandler st channelName packet).clusterClient ∧
    (clusterMessageHandler st channelName packet).serverInstances = st.serverInstances ∧
    (clusterMessageHandler st channelName packet).stateEmits = st.stateEmits := by
  unfold clusterMessageHandler
  split
  · cases h : readProcessed st.processedMessagesLookup packet.id with
    | undefined => exact ⟨⟨rfl, rfl⟩, rfl, rfl⟩
    | inheritedValue => exact ⟨⟨rfl, rfl⟩, rfl, rfl⟩
    | timer handle => exact ⟨⟨rfl, rfl⟩, rfl, rfl⟩
  · exact ⟨⟨rfl, rfl⟩, rfl, rfl⟩

/-- The handler of the broker's `publish` event keeps the routing and sends no
report. -/
theorem brokerPublish_quiet (st : Coordinator) (channelName : String) (data : Payload) :
    SameContexts st.clusterClient ((brokerPublish st channelName data).getD st).clusterClient ∧
    ((brokerPublish st channelName data).getD st).serverInstances = st.serverInstances ∧
    ((brokerPublish st channelName data).getD st).stateEmits = st.stateEmits := by
  unfold brokerPublish
  cases st.clusterClient.broker.pubSubBatchDuration with
  | none => exact ⟨publish_contexts _ _ _, rfl, rfl⟩
  | some d =>
    simp only []
    cases bufferPush st.publishOutboundBuffer channelName data with
    | none => exact ⟨⟨rfl, rfl⟩, rfl, rfl⟩
    | some buffer =>
      simp only []
      cases st.publishTimeout with
      | none => exact ⟨⟨rfl, rfl⟩, rfl, rfl⟩
      | some h => exact ⟨⟨rfl, rfl⟩, rfl, rfl⟩

/-- A firing timer keeps the routing, and a report it sends names the endpoint
list. -/
theorem fireTimer_quiet (st : Coordinator) (handle : Nat) :
    SameContexts st.clusterClient (fireTimer st handle).clusterClient ∧
    (fireTimer st handle).serverInstances = st.serverInstances ∧
    ReportsCurrent st (fireTimer st handle) := by
  unfold fireTimer
  cases st.timers.find? (fun t => t.handle = handle) with
  | none => exact ⟨⟨rfl, rfl⟩, rfl, ReportsCurrent.of_eq _ _ rfl⟩
  | some t =>
    simp only []
    cases t.action with
    | sendClientState stateName =>
      simp only []
      obtain ⟨s1, s2, _, _, _⟩ := sendClientState_frame
        { st with timers := st.timers.filter (fun x => x.handle ≠ handle) } stateName
      refine ⟨?_, ?_, ReportsCurrent.of_send st _ stateName rfl⟩
      · rw [s1]; exact ⟨rfl, rfl⟩
      · rw [s2]
    | emitClientJoinCluster =>
      refine ⟨⟨rfl, rfl⟩, rfl, [StateEmit.clientJoinCluster], rfl, ?_⟩
      intro s hs
      rw [List.mem_singleton] at hs
      cases hs
    | removeMessageFromCache messageId =>
      simp only [removeMessageFromCache]
      split
      · exact ⟨⟨rfl, rfl⟩, rfl, ReportsCurrent.of_eq _ _ rfl⟩
      · exact ⟨⟨rfl, rfl⟩, rfl, ReportsCurrent.of_eq _ _ rfl⟩
    | flushPublishOutboundBuffer =>
      simp only []
      obtain ⟨f1, f2, f3, _⟩ := flushPublishOutboundBuffer_frame
        { st with timers := st.timers.filter (fun x => x.handle ≠ handle) }
      exact ⟨f1, f2, ReportsCurrent.of_eq _ _ f3⟩

/-- Every handler returns, every report it sends names the endpoint list it
ends with, and its effect on the routing is one of four: none; a sub context
built from the endpoint list appended; the pub contexts or both sequences cut
down to their newest context, possibly a new one; or both sequences replaced by
one new context each. -/
theorem dispatch_routing (st : Coordinator) (ev : Event) :
    ∃ st1, dispatch st ev = some st1 ∧ ReportsCurrent st st1 ∧
      ((SameContexts st.clusterClient st1.clusterClient ∧
          st1.serverInstances = st.serverInstances) ∨
        (st1.clusterClient.pubMappers = st.clusterClient.pubMappers ∧
          ∃ c : SubMapperContext,
            st1.clusterClient.subMappers = st.clusterClient.subMappers ++ [c] ∧
            c.targets = st1.serverInstances) ∨
        (st1.serverInstances = st.serverInstances ∧
          (st1.clusterClient.subMappers = st.clusterClient.subMappers ∨
            st1.clusterClient.subMappers =
              st.clusterClient.subMappers.drop (st.clusterClient.subMappers.length - 1)) ∧
          (st1.clusterClient.pubMappers = st.clusterClient.pubMappers ∨
            st1.clusterClient.pubMappers =
              st.clusterClient.pubMappers.drop (st.clusterClient.pubMappers.length - 1) ∨
            ∃ c : MapperContext, st1.clusterClient.pubMappers = [c])) ∨
        ((∃ c : SubMapperContext, st1.clusterClient.subMappers = [c] ∧
            c.targets = st1.serverInstances) ∧
          ∃ c : MapperContext, st1.clusterClient.pubMappers = [c])) := by
  cases ev with
  | connect =>
    refine ⟨_, rfl, ⟨[StateEmit.clientJoinCluster], rfl, ?_⟩, Or.inl ⟨⟨rfl, rfl⟩, rfl⟩⟩
    intro s hs
    rw [List.mem_singleton] at hs
    cases hs
  | joinResponse response =>
    cases response with
    | none => exact ⟨_, rfl, ReportsCurrent.of_eq _ _ rfl, Or.inl ⟨⟨rfl, rfl⟩, rfl⟩⟩
    | some data =>
      obtain ⟨st1, h1, h2, h3, _, _, h6⟩ := clientJoinClusterCallback_routing st data
      exact ⟨st1, h1, h6, Or.inr (Or.inr (Or.inr ⟨h2, h3⟩))⟩
  | membership data =>
    obtain ⟨h1, h2, _, _, h5⟩ := addNewSubMapping_routing st data
    refine ⟨_, rfl, h5, ?_⟩
    rcases h2 with ⟨h2, h3⟩ | h2
    · exact Or.inl ⟨⟨by rw [h2], h1⟩, h3⟩
    · exact Or.inr (Or.inl ⟨h1, h2⟩)
  | converge state =>
    obtain ⟨st1, h1, h2, h3, h4, _, _, h7⟩ := clientStatesConverge_routing st state
    exact ⟨st1, h1, h7, Or.inr (Or.inr (Or.inl ⟨h2, h3, h4⟩))⟩
  | stateAck stateName err =>
    refine ⟨_, rfl, ?_⟩
    show ReportsCurrent st (clientSetStateCallback st stateName err) ∧ _
    unfold clientSetStateCallback
    cases err
    · exact ⟨ReportsCurrent.of_eq _ _ rfl, Or.inl ⟨⟨rfl, rfl⟩, rfl⟩⟩
    · exact ⟨ReportsCurrent.of_eq _ _ rfl, Or.inl ⟨⟨rfl, rfl⟩, rfl⟩⟩
  | message channelName packet =>
    obtain ⟨h1, h2, h3⟩ := clusterMessageHandler_quiet st channelName packet
    exact ⟨_, rfl, ReportsCurrent.of_eq _ _ h3, Or.inl ⟨h1, h2⟩⟩
  | timer handle =>
    obtain ⟨h1, h2, h3⟩ := fireTimer_quiet st handle
    exact ⟨_, rfl, h3, Or.inl ⟨h1, h2⟩⟩
  | brokerSubscribe channelName =>
    exact ⟨_, rfl, ReportsCurrent.of_eq _ _ rfl, Or.inl ⟨subscribe_contexts _ _, rfl⟩⟩
  | brokerUnsubscribe channelName =>
    exact ⟨_, rfl, ReportsCurrent.of_eq _ _ rfl, Or.inl ⟨unsubscribe_contexts _ _, rfl⟩⟩
  | brokerPublish channelName data =>
    obtain ⟨h1, h2, h3⟩ := brokerPublish_quiet st channelName data
    exact ⟨_, rfl, ReportsCurrent.of_eq _ _ h3, Or.inl ⟨h1, h2⟩⟩
  | brokerChange broker =>
    exact ⟨_, rfl, ReportsCurrent.of_eq _ _ rfl, Or.inl ⟨⟨rfl, rfl⟩, rfl⟩⟩

/-- C24: a successful join response always returns, and from the state it
leaves every sequence of coordinator events (connects, join responses,
membership notifications, convergence broadcasts, acknowledgements, relayed
packets, timers) and local broker events runs to its end, no handler stopping
part-way through a change,
in a state where `pubMappers` has length exactly 1 and `subMappers` has length
at least 1. -/
theorem mapper_lengths_after_join (st0 : Coordinator) (data : UpdatePacket) :
    ∃ st1, clientJoinClusterCallback st0 (some data) = some st1 ∧
      ∀ evs : List Event, ∃ st2, run st1 evs = some st2 ∧
        st2.clusterClient.pubMappers.length = 1 ∧ 1 ≤ st2.clusterClient.subMappers.length := by
  obtain ⟨st1, h1, ⟨c, hc, _⟩, ⟨d, hd⟩, _⟩ := clientJoinClusterCallback_routing st0 data
  refine ⟨st1, h1, fun evs => ?_⟩
  apply run_invariant (fun st => st.clusterClient.pubMappers.length = 1 ∧
    1 ≤ st.clusterClient.subMappers.length)
  · rintro st ev ⟨hp, hs⟩
    obtain ⟨st2, h2, _, hr⟩ := dispatch_routing st ev
    refine ⟨st2, h2, ?_⟩
    rcases hr with ⟨⟨q1, q2⟩, _⟩ | ⟨q1, c1, q2, _⟩ | ⟨_, q1, q2⟩ | ⟨⟨c1, q1, _⟩, d1, q2⟩
    · have hl := congrArg List.length q1
      simp only [List.length_map] at hl
      rw [q2, hl]
      exact ⟨hp, hs⟩
    · rw [q1, q2]
      exact ⟨hp, by simp⟩
    · constructor
      · rcases q2 with q2 | q2 | ⟨d1, q2⟩
        · rw [q2]; exact hp
        · rw [q2, length_drop_length_pred]; omega
        · rw [q2]; rfl
      · rcases q1 with q1 | q1
        · rw [q1]; exact hs
        · rw [q1, length_drop_length_pred]; omega
    · rw [q1, q2]
      exact ⟨rfl, by simp⟩
  · rw [hc, hd]
    exact ⟨rfl, by simp⟩

/-- C29: from the state that `attach` leaves, every sequence of coordinator and
broker events runs to its end, in a state where the target list of the newest
sub context, if there is one, is the coordinator's current endpoint list; and
every report that a handler then sends names that same list. -/
theorem newest_sub_context_is_current (broker : Broker)
    (brokerMessageCacheDuration brokerRetryDelay : Option Nat) (uuid : Nat → String)
    (evs : List Event) :
    ∃ st, run (attach broker brokerMessageCacheDuration brokerRetryDelay uuid) evs = some st ∧
      (∀ c, st.clusterClient.subMappers.getLast? = some c → c.targets = st.serverInstances) ∧
      ∀ ev, ∃ st1, dispatch st ev = some st1 ∧
        (∀ c, st1.clusterClient.subMappers.getLast? = some c →
          c.targets = st1.serverInstances) ∧
        ∃ news : List StateEmit, st1.stateEmits = st.stateEmits ++ news ∧
          ∀ s, StateEmit.clientSetState s ∈ news →
            ∃ stateName : String, s = stateName ++ ":" ++ jsonStringify st1.serverInstances := by
  have hstep : ∀ st ev,
      (∀ c, st.clusterClient.subMappers.getLast? = some c → c.targets = st.serverInstances) →
      ∃ st1, dispatch st ev = some st1 ∧
        (∀ c, st1.clusterClient.subMappers.getLast? = some c →
          c.targets = st1.serverInstances) ∧ ReportsCurrent st st1 := by
    intro st ev hinv
    obtain ⟨st1, h1, hrep, hr⟩ := dispatch_routing st ev
    refine ⟨st1, h1, ?_, hrep⟩
    rcases hr with ⟨⟨q1, _⟩, q2⟩ | ⟨_, c1, q1, q2⟩ | ⟨q0, q1, _⟩ | ⟨⟨c1, q1, q2⟩, _⟩
    · intro c hc
      have hl := congrArg List.getLast? q1
      rw [List.getLast?_map, List.getLast?_map, hc] at hl
      cases hlast : st.clusterClient.subMappers.getLast? with
      | none => rw [hlast] at hl; cases hl
      | some c0 =>
        rw [hlast] at hl
        have h0 := hinv c0 hlast
        have hcc : c.toMapperContext = c0.toMapperContext := Option.some.inj hl
        rw [q2, ← h0]
        show c.toMapperContext.targets = c0.toMapperContext.targets
        rw [hcc]
    · intro c hc
      rw [q1, List.getLast?_append] at hc
      simp at hc
      rw [← hc]; exact q2
    · intro c hc
      rw [q0]
      rcases q1 with q1 | q1
      · rw [q1] at hc; exact hinv c hc
      · rw [q1, getLast?_drop_length_pred] at hc; exact hinv c hc
    · intro c hc
      rw [q1] at hc
      simp at hc
      rw [← hc]; exact q2
  obtain ⟨st, h1, h2⟩ := run_invariant
    (fun st => ∀ c, st.clusterClient.subMappers.getLast? = some c → c.targets = st.serverInstances)
    (fun st ev h => by
      obtain ⟨st1, g1, g2, _⟩ := hstep st ev h
      exact ⟨st1, g1, g2⟩)
    evs (attach broker brokerMessageCacheDuration brokerRetryDelay uuid)
    (by intro c hc; cases hc)
  refine ⟨st, h1, h2, fun ev => ?_⟩
  obtain ⟨st1, g1, g2, g3⟩ := hstep st ev h2
  exact ⟨st1, g1, g2, g3⟩

/-! ### Timers per operation -/

/-- The pending timers of an operation, as a condition on one timer. -/
theorem mem_outstanding (st : Coordinator) (k : TimerKey) (t : Timer) :
    t ∈ outstanding st k ↔ t ∈ st.timers ∧ t.action.key = k := by
  unfold outstanding
  rw [List.mem_filter]
  simp

/-- Clearing timers leaves at most the pending timers of each operation. -/
theorem outstanding_sublist (st st1 : Coordinator) (k : TimerKey)
    (h : st1.timers.Sublist st.timers) : (outstanding st1 k).Sublist (outstanding st k) :=
  List.Sublist.filter _ h

/-- Scheduling a timer of another operation keeps the pending timers of an
operation. -/
theorem outstanding_append_other (st st1 : Coordinator) (k : TimerKey) (t : Timer)
    (h : st1.timers = st.timers ++ [t]) (hk : t.action.key ≠ k) :
    outstanding st1 k = outstanding st k := by
  unfold outstanding
  rw [h, List.filter_append, List.filter_cons_of_neg (by simpa using hk)]
  simp

/-- The invariant of the expiry timers survives a step that keeps the cache and
schedules no expiry timer. -/
theorem ExpiryTimersUnique.of_shrink (st st1 : Coordinator)
    (hc : st1.processedMessagesLookup = st.processedMessagesLookup)
    (hs : ∀ id, (outstanding st1 (TimerKey.cacheEntry id)).Sublist
      (outstanding st (TimerKey.cacheEntry id)))
    (h : ExpiryTimersUnique st) : ExpiryTimersUnique st1 := by
  intro id
  obtain ⟨h1, h2⟩ := h id
  refine ⟨le_trans (hs id).length_le h1, ?_⟩
  intro t ht
  rw [hc]
  exact h2 t ((hs id).subset ht)

/-- Storing the handle of one id leaves the other ids as they are. -/
theorem getProcessed_setProcessed_other (m : List (String × Nat)) (id k : String) (h : Nat)
    (hk : k ≠ id) : getProcessed (setProcessed m id h) k = getProcessed m k := by
  have hik : ¬ id = k := fun hh => hk hh.symm
  have key : ∀ l : List (String × Nat),
      (l.map (fun p => if p.1 = id then (id, h) else p)).find? (fun p => decide (p.1 = k)) =
        l.find? (fun p => decide (p.1 = k)) := by
    intro l
    induction l with
    | nil => rfl
    | cons a l ih =>
      by_cases ha : a.1 = id
      · have hak : ¬ a.1 = k := fun hh => hk (hh ▸ ha)
        rw [List.map_cons, if_pos ha, List.find?_cons_of_neg _ (by simpa using hik),
          List.find?_cons_of_neg _ (by simpa using hak)]
        exact ih
      · rw [List.map_cons, if_neg ha]
        by_cases hak : a.1 = k
        · rw [List.find?_cons_of_pos _ (by simpa using hak),
            List.find?_cons_of_pos _ (by simpa using hak)]
        · rw [List.find?_cons_of_neg _ (by simpa using hak),
            List.find?_cons_of_neg _ (by simpa using hak)]
          exact ih
  unfold getProcessed setProcessed
  split
  · rw [key]
  · congr 1
    rw [List.find?_append]
    simp [hik]

/-- The handler of a relayed packet keeps the invariant of the expiry timers. -/
theorem clusterMessageHandler_expiry (st : Coordinator) (channelName : String) (p : Packet)
    (h : ExpiryTimersUnique st) :
    ExpiryTimersUnique (clusterMessageHandler st channelName p) := by
  by_cases hc : (p.sender = none ∨ p.sender ≠ st.clusterClient.broker.instanceId) ∧
      p.messages.isSome ∧ p.messages.getD [] ≠ []
  · obtain ⟨hsender, hsome, hne⟩ := hc
    obtain ⟨ms, hm⟩ := Option.isSome_iff_exists.mp hsome
    have hms : ms ≠ [] := by simpa [hm] using hne
    have key : ∀ (keep : Timer → Bool) (st1 : Coordinator),
        st1.timers = st.timers.filter keep ++
          [{ handle := st.nextTimer, delay := st.messageCacheDuration,
             action := TimerAction.removeMessageFromCache p.id }] →
        st1.processedMessagesLookup = setProcessed st.processedMessagesLookup p.id st.nextTimer →
        (∀ t ∈ outstanding st (TimerKey.cacheEntry p.id), keep t = false) →
        ExpiryTimersUnique st1 := by
      intro keep st1 ht hcache hkeep id
      have hout : outstanding st1 (TimerKey.cacheEntry id) =
          (st.timers.filter keep).filter (fun t => t.action.key = TimerKey.cacheEntry id) ++
            (if p.id = id then
              [{ handle := st.nextTimer, delay := st.messageCacheDuration,
                 action := TimerAction.removeMessageFromCache p.id }] else []) := by
        unfold outstanding
        rw [ht, List.filter_append]
        by_cases hid : p.id = id
        · rw [if_pos hid, List.filter_cons_of_pos (by simp [TimerAction.key, hid])]
          simp
        · rw [if_neg hid, List.filter_cons_of_neg (by simp [TimerAction.key, hid])]
          simp
      have hsub : ((st.timers.filter keep).filter
          (fun t => t.action.key = TimerKey.cacheEntry id)).Sublist
          (outstanding st (TimerKey.cacheEntry id)) :=
        List.Sublist.filter _ (List.filter_sublist _)
      obtain ⟨h1, h2⟩ := h id
      by_cases hid : p.id = id
      · subst hid
        have hnil : (st.timers.filter keep).filter
            (fun t => t.action.key = TimerKey.cacheEntry p.id) = [] := by
          rw [List.eq_nil_iff_forall_not_mem]
          intro t htm
          have hk := hkeep t (hsub.subset htm)
          have := (List.mem_filter.mp (List.mem_filter.mp htm).1).2
          rw [hk] at this
          cases this
        rw [hout, hnil, if_pos rfl]
        refine ⟨by simp, ?_⟩
        intro t htm
        simp only [List.nil_append, List.mem_singleton] at htm
        rw [hcache, htm, getProcessed_setProcessed_same]
      · rw [hout, if_neg hid, List.append_nil]
        refine ⟨le_trans hsub.length_le h1, ?_⟩
        intro t htm
        rw [hcache, getProcessed_setProcessed_other _ _ _ _ (fun hh => hid hh.symm)]
        exact h2 t (hsub.subset htm)
    cases hg : getProcessed st.processedMessagesLookup p.id with
    | none =>
      cases hname : inherited p.id with
      | false =>
        rw [clusterMessageHandler_fresh st channelName p ms hsender hm hms hg hname]
        apply key (fun _ => true)
        · simp
        · rfl
        · intro t htm
          have := (h p.id).2 t htm
          rw [hg] at this
          cases this
      | true =>
        rw [clusterMessageHandler_inherited st channelName p ms hsender hm hms hg hname]
        apply key (fun _ => true)
        · simp
        · rfl
        · intro t htm
          have := (h p.id).2 t htm
          rw [hg] at this
          cases this
    | some hd =>
      rw [clusterMessageHandler_cached st channelName p ms hd hsender hm hms hg]
      apply key (fun t => decide (t.handle ≠ hd))
      · rfl
      · rfl
      · intro t htm
        have := (h p.id).2 t htm
        rw [hg] at this
        simp [Option.some.inj this]
  · unfold clusterMessageHandler
    rw [if_neg hc]
    exact h

/-- A firing timer keeps the invariant of the expiry timers. -/
theorem fireTimer_expiry (st : Coordinator) (handle : Nat) (h : ExpiryTimersUnique st) :
    ExpiryTimersUnique (fireTimer st handle) := by
  unfold fireTimer
  cases hf : st.timers.find? (fun t => t.handle = handle) with
  | none => exact h
  | some t =>
    have htm : t ∈ st.timers := List.mem_of_find?_eq_some hf
    have hth : t.handle = handle := by simpa using List.find?_some hf
    have hshrink : ExpiryTimersUnique
        { st with timers := st.timers.filter (fun x => x.handle ≠ handle) } :=
      ExpiryTimersUnique.of_shrink st _ rfl
        (fun id => outstanding_sublist st _ _ (List.filter_sublist _)) h
    simp only []
    cases ha : t.action with
    | sendClientState stateName =>
      simp only []
      obtain ⟨_, _, s3, s4, _⟩ := sendClientState_frame
        { st with timers := st.timers.filter (fun x => x.handle ≠ handle) } stateName
      exact ExpiryTimersUnique.of_shrink _ _ s3 (fun id => outstanding_sublist _ _ _ s4) hshrink
    | emitClientJoinCluster => exact hshrink
    | removeMessageFromCache messageId =>
      simp only []
      intro id
      have hrt : (removeMessageFromCache
          { st with timers := st.timers.filter (fun x => x.handle ≠ handle) } messageId).timers =
          st.timers.filter (fun x => x.handle ≠ handle) := by
        unfold removeMessageFromCache
        split <;> rfl
      have hsub : (outstanding (removeMessageFromCache
          { st with timers := st.timers.filter (fun x => x.handle ≠ handle) } messageId)
          (TimerKey.cacheEntry id)).Sublist (outstanding st (TimerKey.cacheEntry id)) := by
        unfold outstanding
        rw [hrt]
        exact List.Sublist.filter _ (List.filter_sublist _)
      obtain ⟨h1, h2⟩ := h id
      by_cases hid : id = messageId
      · subst hid
        have hnil : outstanding (removeMessageFromCache
            { st with timers := st.timers.filter (fun x => x.handle ≠ handle) } id)
            (TimerKey.cacheEntry id) = [] := by
          rw [List.eq_nil_iff_forall_not_mem]
          intro t1 ht1
          have ht1' : t1 ∈ outstanding st (TimerKey.cacheEntry id) := hsub.subset ht1
          have ht' : t ∈ outstanding st (TimerKey.cacheEntry id) :=
            (mem_outstanding st _ t).mpr ⟨htm, by rw [ha]; rfl⟩
          have heq : t1 = t := by
            cases hl : outstanding st (TimerKey.cacheEntry id) with
            | nil => rw [hl] at ht'; cases ht'
            | cons a l =>
              rw [hl] at h1 ht1' ht'
              cases l with
              | nil =>
                rw [List.mem_singleton] at ht1' ht'
                rw [ht1', ht']
              | cons b l => simp at h1
          have hne : t1.handle ≠ handle := by
            have hmem := ((mem_outstanding _ _ t1).mp ht1).1
            rw [hrt] at hmem
            simpa using (List.mem_filter.mp hmem).2
          exact hne (by rw [heq, hth])
        rw [hnil]
        exact ⟨by simp, fun t1 ht1 => by cases ht1⟩
      · refine ⟨le_trans hsub.length_le h1, ?_⟩
        intro t1 ht1
        have hcache : getProcessed (removeMessageFromCache
            { st with timers := st.timers.filter (fun x => x.handle ≠ handle) }
            messageId).processedMessagesLookup id = getProcessed st.processedMessagesLookup id := by
          unfold removeMessageFromCache
          split
          · rfl
          · exact getProcessed_filter_other _ _ _ hid
        rw [hcache]
        exact h2 t1 (hsub.subset ht1)
    | flushPublishOutboundBuffer =>
      simp only []
      obtain ⟨_, _, _, f4, f5⟩ := flushPublishOutboundBuffer_frame
        { st with timers := st.timers.filter (fun x => x.handle ≠ handle) }
      exact ExpiryTimersUnique.of_shrink _ _ f5
        (fun id => outstanding_sublist _ _ _ (by rw [f4])) hshrink

/-- Every state of a run in which no join succeeds while an expiry timer is
pending has at most one expiry timer per cache id. -/
theorem expiryTimersUnique_of_cacheRun (st : Coordinator) (h : CacheRun st) :
    ExpiryTimersUnique st := by
  induction h with
  | start broker d1 d2 uuid =>
    intro id
    exact ⟨by simp [outstanding, attach], fun t ht => by simp [outstanding, attach] at ht⟩
  | step st ev st1 _ hd hguard ih =>
    cases ev with
    | connect =>
      rw [← Option.some.inj hd]
      exact ExpiryTimersUnique.of_shrink st _ rfl (fun id => List.Sublist.refl _) ih
    | joinResponse response =>
      cases response with
      | none =>
        rw [← Option.some.inj hd]
        exact ExpiryTimersUnique.of_shrink st _ rfl
          (fun id => by
            rw [outstanding_append_other st _ (TimerKey.cacheEntry id)
              { handle := st.nextTimer, delay := st.retryDelay,
                action := TimerAction.emitClientJoinCluster } rfl (by simp [TimerAction.key])]) ih
      | some data =>
        obtain ⟨st2, h1, _, _, h4, h5, _⟩ := clientJoinClusterCallback_routing st data
        have hst : st2 = st1 := Option.some.inj (h1.symm.trans hd)
        subst hst
        intro id
        have hnil : outstanding st2 (TimerKey.cacheEntry id) = [] := by
          have hs := outstanding_sublist st st2 (TimerKey.cacheEntry id) h5
          rw [hguard data rfl id] at hs
          exact List.eq_nil_of_sublist_nil hs
        rw [hnil]
        exact ⟨by simp, fun t ht => by cases ht⟩
    | membership data =>
      rw [← Option.some.inj hd]
      obtain ⟨_, _, h3, h4, _⟩ := addNewSubMapping_routing st data
      exact ExpiryTimersUnique.of_shrink st _ h3 (fun id => outstanding_sublist _ _ _ h4) ih
    | converge state =>
      obtain ⟨st2, h1, _, _, _, h5, h6, _⟩ := clientStatesConverge_routing st state
      have hst : st2 = st1 := Option.some.inj (h1.symm.trans hd)
      subst hst
      exact ExpiryTimersUnique.of_shrink st _ h5 (fun id => outstanding_sublist _ _ _ h6) ih
    | stateAck stateName err =>
      rw [← Option.some.inj hd]
      cases err with
      | false => exact ih
      | true =>
        exact ExpiryTimersUnique.of_shrink st _ rfl
          (fun id => by
            rw [outstanding_append_other st _ (TimerKey.cacheEntry id)
              { handle := st.nextTimer, delay := st.retryDelay,
                action := TimerAction.sendClientState stateName } rfl
              (by simp [TimerAction.key])]) ih
    | message channelName packet =>
      rw [← Option.some.inj hd]
      exact clusterMessageHandler_expiry st channelName packet ih
    | timer handle =>
      rw [← Option.some.inj hd]
      exact fireTimer_expiry st handle ih
    | brokerSubscribe channelName =>
      rw [← Option.some.inj hd]
      exact ExpiryTimersUnique.of_shrink st _ rfl (fun id => List.Sublist.refl _) ih
    | brokerUnsubscribe channelName =>
      rw [← Option.some.inj hd]
      exact ExpiryTimersUnique.of_shrink st _ rfl (fun id => List.Sublist.refl _) ih
    | brokerPublish channelName data =>
      rw [← Option.some.inj hd]
      show ExpiryTimersUnique ((brokerPublish st channelName data).getD st)
      unfold brokerPublish
      cases st.clusterClient.broker.pubSubBatchDuration with
      | none => exact ExpiryTimersUnique.of_shrink st _ rfl (fun id => List.Sublist.refl _) ih
      | some d =>
        simp only []
        cases bufferPush st.publishOutboundBuffer channelName data with
        | none => exact ih
        | some buffer =>
          simp only []
          cases st.publishTimeout with
          | some hdl =>
            exact ExpiryTimersUnique.of_shrink st _ rfl (fun id => List.Sublist.refl _) ih
          | none =>
            exact ExpiryTimersUnique.of_shrink st _ rfl
              (fun id => by
                rw [outstanding_append_other st _ (TimerKey.cacheEntry id)
                  { handle := st.nextTimer, delay := d,
                    action := TimerAction.flushPublishOutboundBuffer } rfl
                  (by simp [TimerAction.key])]) ih
    | brokerChange broker =>
      rw [← Option.some.inj hd]
      exact ExpiryTimersUnique.of_shrink st _ rfl (fun id => List.Sublist.refl _) ih

/-- A run without a successful join response stays among the states of
`CacheRun`. -/
theorem CacheRun.of_run (evs : List Event) :
    ∀ st, CacheRun st → (∀ ev ∈ evs, ∀ data, ev ≠ Event.joinResponse (some data)) →
      ∀ st1, run st evs = some st1 → CacheRun st1 := by
  induction evs with
  | nil =>
    intro st h _ st1 hr
    rw [← Option.some.inj hr]
    exact h
  | cons ev evs ih =>
    intro st h hev st1 hr
    have hr1 : (match dispatch st ev with
      | some st1 => run st1 evs
      | none => none) = some st1 := hr
    cases hd : dispatch st ev with
    | none => rw [hd] at hr1; cases hr1
    | some st2 =>
      rw [hd] at hr1
      exact ih st2
        (CacheRun.step st ev st2 h hd
          (fun data he => absurd he (hev ev (List.mem_cons_self _ _) data)))
        (fun ev1 h1 => hev ev1 (List.mem_cons_of_mem _ h1)) st1 hr1

/-- The state `sampleJoined` is reached by a first join. -/
theorem sampleJoined_cacheRun : CacheRun sampleJoined := by
  obtain ⟨st1, h1, _⟩ := clientJoinClusterCallback_routing sampleStart sampleJoin
  have hs : sampleJoined = st1 := by
    unfold sampleJoined
    rw [h1]
    rfl
  rw [hs]
  exact CacheRun.step sampleStart (Event.joinResponse (some sampleJoin)) st1
    (CacheRun.start sampleBroker none none (fun n => toString n)) h1
    (fun _ _ id => rfl)

/-- The state `sampleDuplicate` is reached by a first join and two packets. -/
theorem sampleDuplicate_cacheRun : CacheRun sampleDuplicate :=
  CacheRun.step _ (Event.message "x" samplePacket) _
    (CacheRun.step _ (Event.message "x" samplePacket) _ sampleJoined_cacheRun rfl
      (fun _ he => by cases he))
    rfl (fun _ he => by cases he)

/-- Two error responses to the join request, one after each connect, leave two
pending join retry timers: the retry timer is never cleared. -/
theorem join_retries_leave_two_timers :
    ∃ st, sampleJoinRetries = some st ∧ CacheRun st ∧
      (outstanding st TimerKey.joinRequest).map (fun t => t.handle) = [0, 1] := by
  have hsome : sampleJoinRetries.isSome = true := by decide
  obtain ⟨st, hst⟩ := Option.isSome_iff_exists.mp hsome
  have hlen : sampleJoinRetries.map
      (fun st => (outstanding st TimerKey.joinRequest).map (fun t => t.handle)) =
      some [0, 1] := by decide
  refine ⟨st, hst, ?_, ?_⟩
  · refine CacheRun.of_run _ sampleStart
      (CacheRun.start sampleBroker none none (fun n => toString n)) ?_ st hst
    intro ev hev data
    simp only [List.mem_cons, List.mem_singleton, List.not_mem_nil, or_false] at hev
    rcases hev with h | h | h | h <;> rw [h] <;> simp
  · rw [hst] at hlen
    exact Option.some.inj hlen

/-- Two state reports whose error answers both arrive after the second report
was sent leave two pending report retry timers: the answer's callback schedules
its retry without clearing the one recorded. -/
theorem report_retries_leave_two_timers :
    sampleReportRetries.map
      (fun st => ((outstanding st TimerKey.stateReport).map (fun t => t.action),
        st.sendClientStateTimeout)) =
      some ([TimerAction.sendClientState "updatedSubs",
        TimerAction.sendClientState "updatedPubs"], some 1) := by
  decide

/-- A packet id relayed before and after a second successful join has two
pending expiry timers: `resetState` empties the cache without clearing them. -/
theorem rejoin_leaves_two_expiry_timers :
    sampleRejoin.map
      (fun st => ((outstanding st (TimerKey.cacheEntry "b1")).map (fun t => t.handle),
        getProcessed st.processedMessagesLookup "b1")) = some ([0, 1], some 1) := by
  decide

/-- C22, as the code has it: in every state of a run from `attach` in which a
successful join response only arrives while no expiry timer of the cache is
pending, each cache id has at most one pending expiry timer, the one whose
handle the cache holds (the handler of a relayed packet clears the pending
timer of a cached id before it schedules the new one); `sendClientState` leaves
no timer pending under the handle recorded in `sendClientStateTimeout`; and an
error response to the join request schedules a retry timer and clears none. -/
theorem expiry_timer_unique_per_id (st : Coordinator) (h : CacheRun st) :
    (∀ id, (outstanding st (TimerKey.cacheEntry id)).length ≤ 1 ∧
      ∀ t ∈ outstanding st (TimerKey.cacheEntry id),
        getProcessed st.processedMessagesLookup id = some t.handle) ∧
    (∀ stateName, ∀ t ∈ (sendClientState st stateName).timers,
      some t.handle ≠ st.sendClientStateTimeout) ∧
    (∃ st1, clientJoinClusterCallback st none = some st1 ∧
      outstanding st1 TimerKey.joinRequest = outstanding st TimerKey.joinRequest ++
        [{ handle := st.nextTimer, delay := st.retryDelay,
           action := TimerAction.emitClientJoinCluster }]) := by
  refine ⟨expiryTimersUnique_of_cacheRun st h, ?_, _, rfl, ?_⟩
  · intro stateName t ht
    unfold sendClientState Coordinator.clearTimeout at ht
    cases hs : st.sendClientStateTimeout with
    | none => simp
    | some hd =>
      rw [hs] at ht
      simp only [List.mem_filter, decide_eq_true_eq] at ht
      intro he
      exact ht.2 (Option.some.inj he)
  · show outstanding (st.setTimeout TimerAction.emitClientJoinCluster st.retryDelay).2 _ = _
    unfold outstanding Coordinator.setTimeout
    simp only []
    rw [List.filter_append, List.filter_cons_of_pos (by simp [TimerAction.key])]
    simp

/-- After a duplicate of `b1` the one pending expiry timer of `b1` is the
second one scheduled. -/
theorem expiry_timer_unique_per_id_witness :
    CacheRun sampleDuplicate ∧
      (outstanding sampleDuplicate (TimerKey.cacheEntry "b1")).map (fun t => t.handle) = [1] ∧
      ∀ id, (outstanding sampleDuplicate (TimerKey.cacheEntry id)).length ≤ 1 ∧
        ∀ t ∈ outstanding sampleDuplicate (TimerKey.cacheEntry id),
          getProcessed sampleDuplicate.processedMessagesLookup id = some t.handle :=
  ⟨sampleDuplicate_cacheRun, by decide,
    (expiry_timer_unique_per_id sampleDuplicate sampleDuplicate_cacheRun).1⟩

/-! ### Packets without messages -/

/-- C31: a relayed packet whose `messages` field is missing or an empty list
leaves the coordinator as it is: nothing is delivered to the local broker, the
packet's id is not put into the cache, and no timer is cleared or scheduled. -/
theorem clusterMessageHandler_ignores_empty (st : Coordinator) (channelName : String)
    (p : Packet) (hempty : p.messages = none ∨ p.messages = some []) :
    clusterMessageHandler st channelName p = st := by
  unfold clusterMessageHandler
  have hc : ¬ ((p.sender = none ∨ p.sender ≠ st.clusterClient.broker.instanceId) ∧
      p.messages.isSome ∧ p.messages.getD [] ≠ []) := by
    rintro ⟨_, h1, h2⟩
    rcases hempty with h | h
    · rw [h] at h1; cases h1
    · rw [h] at h2; exact h2 rfl
  rw [if_neg hc]

/-- A packet with an empty message list and one without the field, relayed to a
node that holds the id `b1` in its cache: delivered messages, cache and timers
stay. -/
theorem clusterMessageHandler_ignores_empty_witness :
    getProcessed (clusterMessageHandler sampleJoined "x" samplePacket).processedMessagesLookup
        "b1" = some 0 ∧
      clusterMessageHandler (clusterMessageHandler sampleJoined "x" samplePacket) "x"
        sampleEmptyPacket = clusterMessageHandler sampleJoined "x" samplePacket ∧
      clusterMessageHandler (clusterMessageHandler sampleJoined "x" samplePacket) "x"
        { sender := none, messages := none, id := "b1" } =
        clusterMessageHandler sampleJoined "x" samplePacket :=
  ⟨by decide,
    clusterMessageHandler_ignores_empty _ "x" sampleEmptyPacket (Or.inr rfl),
    clusterMessageHandler_ignores_empty _ "x" _ (Or.inl rfl)⟩

/-! ### The worker's authentication handler -/

/-- C32: the handler of `authentication` does not look at the payload it
received: for every payload it sets the auth token `{username: 'sa'}` and
responds, the `fail login` branch is never taken, and the publish middleware
then lets every publish of the socket through.  The claim asks for no token
and rejected publishes whenever the payload is not `'sa'`. -/
theorem authentication_accepts_every_payload (socket : WorkerSocket) (data : WireValue)
    (channel : String) :
    (authentication socket data).authToken = some { username := WireValue.str "sa" } ∧
    (authentication socket data).responses = socket.responses + 1 ∧
    (authentication socket data).console = socket.console ∧
    (publishInMiddleware (authentication socket data) channel).2 = none ∧
    (publishInMiddleware socket channel).2 =
      if socket.authToken = none then some ("You are not authorized to publish to " ++ channel)
      else none := by
  refine ⟨rfl, rfl, rfl, rfl, ?_⟩
  unfold publishInMiddleware
  cases socket.authToken <;> simp

/-- The payload `wrong` on a fresh socket: the token is set and a publish to
`startchat` passes the middleware, which rejected it before. -/
theorem authentication_accepts_wrong_payload :
    authentication sampleWorkerSocket (WireValue.str "wrong") =
        { authToken := some { username := WireValue.str "sa" }, responses := 1, console := [] } ∧
      (publishInMiddleware (authentication sampleWorkerSocket (WireValue.str "wrong"))
        "startchat").2 = none ∧
      (publishInMiddleware sampleWorkerSocket "startchat").2 =
        some "You are not authorized to publish to startchat" := by
  decide

/-! ### Names that every plain object inherits -/

/-- C8: the first packet with the id `constructor`, from another node and with
one message, handled while the cache is empty, delivers nothing to the local
broker: `processedMessagesLookup['constructor']` reads the inherited function,
which is not `null`, so the packet is taken for a duplicate and only a cache
entry and its timer are made.  The claim asks for the first packet to deliver
each of its messages once, as the first packet with the id `b1` does. -/
theorem inherited_id_first_packet_dropped :
    sampleJoined.processedMessagesLookup = [] ∧
    sampleInheritedPacket.sender ≠ sampleJoined.clusterClient.broker.instanceId ∧
    sampleInheritedPacket.messages = some ["hello"] ∧
    readProcessed sampleJoined.processedMessagesLookup "constructor" = CacheRead.inheritedValue ∧
    (clusterMessageHandler sampleJoined "x" sampleInheritedPacket).clusterClient.broker.published =
      sampleJoined.clusterClient.broker.published ∧
    (clusterMessageHandler sampleJoined "x" sampleInheritedPacket).processedMessagesLookup =
      [("constructor", 0)] ∧
    (clusterMessageHandler sampleJoined "x" samplePacket).clusterClient.broker.published =
      sampleJoined.clusterClient.broker.published ++ [("x", "hello")] := by
  decide

/-- C9: after the expiry timer of the cached id `constructor` has fired and
removed the entry, a packet with that id from another node is not delivered:
the lookup reads the inherited function again and takes the packet for a
duplicate.  The claim asks for the packet to be delivered again, message by
message. -/
theorem inherited_id_not_redelivered_after_expiry :
    (clusterMessageHandler sampleJoined "x" sampleInheritedPacket).timers.map
        (fun t => (t.handle, t.action)) =
      [(0, TimerAction.removeMessageFromCache "constructor")] ∧
    getProcessed (clusterMessageHandler sampleJoined "x"
      sampleInheritedPacket).processedMessagesLookup "constructor" = some 0 ∧
    (fireTimer (clusterMessageHandler sampleJoined "x" sampleInheritedPacket)
      0).processedMessagesLookup = [] ∧
    (fireTimer (clusterMessageHandler sampleJoined "x" sampleInheritedPacket) 0).timers = [] ∧
    sampleInheritedPacket.sender ≠ sampleJoined.clusterClient.broker.instanceId ∧
    sampleInheritedPacket.messages = some ["hello"] ∧
    (clusterMessageHandler
      (fireTimer (clusterMessageHandler sampleJoined "x" sampleInheritedPacket) 0) "x"
      sampleInheritedPacket).clusterClient.broker.published =
      (fireTimer (clusterMessageHandler sampleJoined "x" sampleInheritedPacket)
        0).clusterClient.broker.published := by
  decide

set_option maxRecDepth 100000 in
/-- C13: with the local broker holding the channels `toString` and `x`,
`subMapperPush(serverMapper, ['ws://a:1'])` on a new client gives the new
context a record for `x` only and subscribes `x` only, although the mapper
resolves `toString` to `ws://a:1` as well: `getAllSubscriptions` leaves
`toString` out, `channelsLookup['toString']` reading the inherited function.
The claim asks for a record and a subscription for every channel the broker
holds. -/
theorem subMapperPush_skips_inherited_name :
    getAllBrokerSubscriptions sampleInheritedBroker = ["toString", "x"] ∧
    serverMapper "toString" ["ws://a:1"] = some "ws://a:1" ∧
    getAllSubscriptions (Engine.create sampleInheritedBroker) = ["x"] ∧
    (subMapperPush (Engine.create sampleInheritedBroker) serverMapper ["ws://a:1"]).subMappers.map
        (fun c => (c.targets, c.clients, c.subscriptions)) =
      [(["ws://a:1"], ["ws://a:1"], ["x"])] ∧
    (subMapperPush (Engine.create sampleInheritedBroker) serverMapper ["ws://a:1"]).log =
      [Effect.connect "ws://a:1", Effect.subscribe "ws://a:1" "x", Effect.watch "ws://a:1" "x"] ∧
    ((subMapperPush (Engine.create sampleInheritedBroker) serverMapper ["ws://a:1"]).socket
      "ws://a:1").subscriberLookup = ["x"] := by
  decide

set_option maxRecDepth 100000 in
/-- C15: in `sampleInheritedEngine` the connection `ws://a:1` of the only sub
context holds the channels `x` and `constructor` and the local broker holds
`toString` and `x`, and `getAllSubscriptions` returns `x` alone: the tests
`!channelsLookup[channelName]` fail for `constructor` and for `toString`, which
read inherited functions.  The claim asks for the union, which has the three
channels. -/
theorem getAllSubscriptions_omits_inherited_names :
    sampleInheritedEngine.subMappers.map (fun c => c.clients) = [["ws://a:1"]] ∧
    (sampleInheritedEngine.socket "ws://a:1").subscriberLookup = ["x", "constructor"] ∧
    sampleInheritedEngine.broker.subscriptions = [("1", ["toString", "x"])] ∧
    getAllSubscriptions sampleInheritedEngine = ["x"] := by
  decide

/-- C21: with a batch window of 50 ms and an empty buffer, the handler of a
local publish on the channel `constructor` throws a TypeError and buffers
nothing: `publishOutboundBuffer['constructor']` reads the inherited function,
no list is created, and `.push` is not a function of it.  After the publishes
`m1` on `a` and `m2` on `constructor` the flush that the timer runs relays the
packet of `a` and none for `constructor`.  The claim asks for one packet for
every channel that received a publish. -/
theorem flush_drops_inherited_channel :
    sampleBatchJoined.clusterClient.broker.pubSubBatchDuration = some 50 ∧
    sampleBatchJoined.publishOutboundBuffer = [] ∧
    bufferPush sampleBatchJoined.publishOutboundBuffer "constructor" "m2" = none ∧
    (brokerPublish sampleBatchJoined "constructor" "m2").isNone = true ∧
    (run sampleBatchJoined
        [Event.brokerPublish "a" "m1", Event.brokerPublish "constructor" "m2"]).map
        (fun st => (st.publishOutboundBuffer, st.publishTimeout,
          st.timers.map (fun t => (t.handle, t.action)))) =
      some ([("a", ["m1"])], some 0, [(0, TimerAction.flushPublishOutboundBuffer)]) ∧
    (run sampleBatchJoined
        [Event.brokerPublish "a" "m1", Event.brokerPublish "constructor" "m2",
          Event.timer 0]).map
        (fun st => (st.clusterClient.log.drop sampleBatchJoined.clusterClient.log.length,
          st.publishOutboundBuffer, st.publishTimeout)) =
      some ([Effect.publish "ws://a:1" "a"
          { sender := some "node-1", messages := some ["m1"], id := "0" }], [], none) := by
  decide

set_option maxRecDepth 100000 in
/-- C30: in `sampleSharedInherited` both sub contexts resolve the channel
`constructor` to the connection `ws://a:1` of their client maps and hold a
record for it, and the public `unsubscribe('constructor')` issues no network
unsubscribe at all: the connection stays subscribed while no context holds a
record any more.  In each round the other context's
`subscriptions['constructor']` is truthy, in the second round through the
inherited function, the record having been deleted.  The claim asks for
exactly one unsubscribe on `ws://a:1`, as for the channel `x` of
`sampleShared`. -/
theorem unsubscribe_inherited_name_issues_nothing :
    sampleSharedInherited.subMappers.map
        (fun c => (c.clients, c.resolve "constructor", c.subscriptions)) =
      [(["ws://a:1"], some "ws://a:1", ["constructor"]),
       (["ws://a:1"], some "ws://a:1", ["constructor"])] ∧
    (unsubscribe sampleSharedInherited "constructor").log = sampleSharedInherited.log ∧
    ((unsubscribe sampleSharedInherited "constructor").socket "ws://a:1").subscriberLookup =
      ["constructor"] ∧
    (unsubscribe sampleSharedInherited "constructor").subMappers.map (fun c => c.subscriptions) =
      [[], []] ∧
    (unsubscribe sampleShared "x").log =
      sampleShared.log ++ [Effect.unsubscribe "ws://a:1" "x", Effect.unwatch "ws://a:1" "x"] := by
  decide

end SccBroker
